import Mathlib

/-!
# Verification of `ParseQuery` (livegrep, `src/server/query.go`)

A shallow embedding of the query parser of `src/server/query.go`.

* A Go `string` is a finite sequence of bytes; it is embedded as a list of
  natural numbers (`GoString`), every byte of a real string being below 256.
  Text that is valid Unicode is the UTF-8 encoding `utf8 cs` of a list of
  characters.
* The functions of the Go standard library that the parser calls
  (`utf8.DecodeRuneInString`, `bytes.Buffer.WriteRune`, `strings.TrimSpace`,
  `regexp.QuoteMeta`, `strconv.Atoi`, `strings.IndexAny`, and the compiled
  expression `pieceRE`) are embedded by their documented behaviour on bytes.
* The scanning loop of `ParseQuery` is embedded as a loop body (`scanBody`)
  iterated by `scanLoop`; slice and index expressions are fallible
  (`Fault.outOfRange` stands for Go's run-time panic).
* The assembly of the result after the loop is `assemble`.
-/

namespace Livegrep

/-! ## Go strings -/

/-- A Go `string`: a sequence of bytes. -/
abbrev GoString := List Nat

/-- The constant `utf8.RuneError`, U+FFFD. -/
def RuneError : Nat := 0xFFFD

/-- The constant `utf8.RuneSelf`: bytes below it are one-byte runes. -/
def RuneSelf : Nat := 0x80

/-- A UTF-8 continuation byte (`locb <= b <= hicb` in package `utf8`). -/
def isCont (b : Nat) : Bool := 0x80 ≤ b && b ≤ 0xBF

/-- Go's `utf8.DecodeRuneInString`: the first rune of `s` and its width in
bytes.  The empty string gives `(RuneError, 0)`; a byte that does not start a
well-formed encoding (an overlong form, a surrogate, a value above U+10FFFF, a
truncated sequence, a stray continuation byte) gives `(RuneError, 1)`. -/
def DecodeRuneInString (s : GoString) : Nat × Nat :=
  match s with
  | [] => (RuneError, 0)
  | s0 :: t =>
    if s0 < RuneSelf then (s0, 1)
    else if 0xC2 ≤ s0 ∧ s0 ≤ 0xDF then
      match t with
      | s1 :: _ =>
        if isCont s1 then ((s0 % 32) * 64 + s1 % 64, 2) else (RuneError, 1)
      | _ => (RuneError, 1)
    else if 0xE0 ≤ s0 ∧ s0 ≤ 0xEF then
      match t with
      | s1 :: s2 :: _ =>
        if (if s0 = 0xE0 then 0xA0 else 0x80) ≤ s1 ∧
            s1 ≤ (if s0 = 0xED then 0x9F else 0xBF) ∧ isCont s2 then
          ((s0 % 16) * 4096 + (s1 % 64) * 64 + s2 % 64, 3)
        else (RuneError, 1)
      | _ => (RuneError, 1)
    else if 0xF0 ≤ s0 ∧ s0 ≤ 0xF4 then
      match t with
      | s1 :: s2 :: s3 :: _ =>
        if (if s0 = 0xF0 then 0x90 else 0x80) ≤ s1 ∧
            s1 ≤ (if s0 = 0xF4 then 0x8F else 0xBF) ∧ isCont s2 ∧ isCont s3 then
          ((s0 % 8) * 262144 + (s1 % 64) * 4096 + (s2 % 64) * 64 + s3 % 64, 4)
        else (RuneError, 1)
      | _ => (RuneError, 1)
    else (RuneError, 1)

/-- Go's `utf8.AppendRune` on an empty buffer: the UTF-8 encoding of the rune
`r`; a surrogate or a value above U+10FFFF is written as U+FFFD. -/
def EncodeRune (r : Nat) : GoString :=
  if r < RuneSelf then [r]
  else if r ≤ 0x7FF then [0xC0 + r / 64, 0x80 + r % 64]
  else if r > 0x10FFFF ∨ (0xD800 ≤ r ∧ r ≤ 0xDFFF) then [0xEF, 0xBF, 0xBD]
  else if r ≤ 0xFFFF then [0xE0 + r / 4096, 0x80 + r / 64 % 64, 0x80 + r % 64]
  else [0xF0 + r / 262144, 0x80 + r / 4096 % 64, 0x80 + r / 64 % 64, 0x80 + r % 64]

/-- Go's `(*bytes.Buffer).WriteRune` on the buffer contents `w`. -/
def WriteRune (w : GoString) (r : Nat) : GoString := w ++ EncodeRune r

/-- The UTF-8 encoding of a list of characters: a valid Unicode Go string. -/
def utf8 (cs : List Char) : GoString :=
  match cs with
  | [] => []
  | c :: t => EncodeRune c.toNat ++ utf8 t

/-- The Go string of a string literal. -/
def str (s : String) : GoString := utf8 s.toList

/-- Go's `unicode.IsSpace`. -/
def IsSpace (r : Nat) : Bool :=
  (9 ≤ r && r ≤ 13) || r = 0x20 || r = 0x85 || r = 0xA0 || r = 0x1680 ||
  (0x2000 ≤ r && r ≤ 0x200A) || r = 0x2028 || r = 0x2029 || r = 0x202F ||
  r = 0x205F || r = 0x3000

/-- The runes of a Go string in order, each with the bytes it was decoded
from, as a `for range` loop over the string delivers them. -/
def runesAux : Nat → GoString → List (Nat × GoString)
  | 0, _ => []
  | fuel + 1, s =>
    if s = [] then []
    else
      ((DecodeRuneInString s).1, s.take (DecodeRuneInString s).2) ::
        runesAux fuel (s.drop (DecodeRuneInString s).2)

/-- The runes of a Go string: every rune takes at least one byte, so the
length of the string is fuel enough. -/
def runes (s : GoString) : List (Nat × GoString) := runesAux s.length s

/-- The bytes of a list of decoded runes. -/
def joinRunes (rs : List (Nat × GoString)) : GoString :=
  match rs with
  | [] => []
  | r :: t => r.2 ++ joinRunes t

/-- Removes the leading white-space runes. -/
def dropSpaces (rs : List (Nat × GoString)) : List (Nat × GoString) :=
  match rs with
  | [] => []
  | r :: t => if IsSpace r.1 then dropSpaces t else r :: t

/-- Go's `strings.TrimSpace`: `s` without its leading and trailing white
space, as defined by Unicode (`unicode.IsSpace` on the decoded runes). -/
def TrimSpace (s : GoString) : GoString :=
  joinRunes (dropSpaces (dropSpaces (runes s)).reverse).reverse

/-- The bytes that `regexp.QuoteMeta` escapes: `\.+*?()|[]{}^$`. -/
def special (b : Nat) : Bool :=
  b = 92 || b = 46 || b = 43 || b = 42 || b = 63 || b = 40 || b = 41 ||
  b = 124 || b = 91 || b = 93 || b = 123 || b = 125 || b = 94 || b = 36

/-- Go's `regexp.QuoteMeta`: a backslash before every metacharacter. -/
def QuoteMeta (s : GoString) : GoString :=
  match s with
  | [] => []
  | b :: t => if special b then 92 :: b :: QuoteMeta t else b :: QuoteMeta t

/-- Go's `strings.IndexAny` for a set `chars` of ASCII characters: the index
of the first byte of `s` that is in `chars`, or `-1`. -/
def IndexAny (s chars : GoString) : Int :=
  match s with
  | [] => -1
  | b :: t =>
    if b ∈ chars then 0
    else if IndexAny t chars = -1 then -1 else IndexAny t chars + 1

/-- An ASCII decimal digit. -/
def isDigit (b : Nat) : Bool := 48 ≤ b && b ≤ 57

/-- The value of a string of decimal digits. -/
def digitsVal (acc : Nat) (ds : GoString) : Nat :=
  match ds with
  | [] => acc
  | d :: t => digitsVal (acc * 10 + (d - 48)) t

/-- The digits of a decimal literal and whether it is negative: the literal
without its optional sign. -/
def splitSign (s : GoString) : Bool × GoString :=
  match s with
  | 43 :: t => (false, t)
  | 45 :: t => (true, t)
  | _ => (false, s)

/-- Go's `strconv.Atoi` with a 64-bit `int`: an optional sign and one or more
decimal digits whose value fits `int`, which is from `-2^63` to `2^63 - 1`;
`none` stands for a non-nil error (`ErrSyntax` or `ErrRange`). -/
def Atoi (s : GoString) : Option Int :=
  let ds := (splitSign s).2
  let v : Int := if (splitSign s).1 then -(digitsVal 0 ds : Int) else (digitsVal 0 ds : Int)
  if ds = [] ∨ ds.all isDigit = false then none
  else if v < -9223372036854775808 ∨ 9223372036854775807 < v then none
  else some v

/-- The Go conversion `int32(i)`: the low 32 bits, read as a signed number,
`(i + 2^31) mod 2^32 - 2^31`. -/
def int32 (i : Int) : Int := (i + 2147483648) % 4294967296 - 2147483648

/-! ## The bucket map -/

/-- The Go map `ops` (`map[string]string`): the text of every bucket that is
present. -/
abbrev Ops := GoString → Option GoString

/-- The empty map, `make(map[string]string)`. -/
def mapEmpty : Ops := fun _ => none

/-- The index expression `ops[k]`: the empty string for an absent key. -/
def mapGet (ops : Ops) (k : GoString) : GoString := (ops k).getD []

/-- The presence test `_, ok := ops[k]`. -/
def mapHas (ops : Ops) (k : GoString) : Bool := (ops k).isSome

/-- The statement `ops[k] += v`; it creates the key when it is absent. -/
def mapAdd (ops : Ops) (k v : GoString) : Ops :=
  fun j => if j = k then some (mapGet ops k ++ v) else ops j

/-- The map `knownTags`. -/
def knownTags (k : GoString) : Bool :=
  k = str "file" || k = str "-file" || k = str "path" || k = str "-path" ||
  k = str "repo" || k = str "-repo" || k = str "tags" || k = str "-tags" ||
  k = str "case" || k = str "lit" || k = str "max_matches"

/-! ## The expression `pieceRE` -/

/-- The result of `FindStringSubmatchIndex` for an expression with one
capture group: the bounds `m[0], m[1]` of the match and `m[2], m[3]` of the
group, which are `-1` when the group did not take part. -/
structure Loc where
  /-- Start of the match, `m[0]`. -/
  m0 : Int
  /-- End of the match, `m[1]`. -/
  m1 : Int
  /-- Start of capture group 1, `m[2]`. -/
  m2 : Int
  /-- End of capture group 1, `m[3]`. -/
  m3 : Int
deriving DecidableEq, Repr

/-- The character class `[a-zA-Z0-9-_]`. -/
def isTagByte (b : Nat) : Bool :=
  (97 ≤ b && b ≤ 122) || (65 ≤ b && b ≤ 90) || (48 ≤ b && b ≤ 57) || b = 45 || b = 95

/-- The leftmost match of one of the alternatives `\(`, `\\.` and a space in
`s`, which starts at offset `pos` of the text searched.  The dot takes one
rune other than a newline.  The three first bytes are ASCII, which UTF-8
never uses inside a longer encoding, so every offset compared is the start
of a rune. -/
def findStructural (s : GoString) (pos : Nat) : Option Loc :=
  match s with
  | [] => none
  | b :: t =>
    if b = 40 then some ⟨pos, pos + 1, -1, -1⟩
    else if b = 92 ∧ t ≠ [] ∧ (DecodeRuneInString t).1 ≠ 10 then
      some ⟨pos, pos + 1 + (DecodeRuneInString t).2, -1, -1⟩
    else if b = 32 then some ⟨pos, pos + 1, -1, -1⟩
    else findStructural t (pos + 1)

/-- The call `pieceRE.FindStringSubmatchIndex(q)` for
`\(|(?:^([a-zA-Z0-9-_]+):|\\.)| `: the leftmost match, the first alternative
that matches there.  The tag alternative is anchored at offset 0, where it
excludes the others (they start with other bytes); its class does not
contain the colon, so it matches exactly when the longest run of class bytes
is non-empty and a colon follows it. -/
def FindStringSubmatchIndex (q : GoString) : Option Loc :=
  if 1 ≤ (q.takeWhile isTagByte).length ∧
      q.get? (q.takeWhile isTagByte).length = some 58 then
    some ⟨0, (q.takeWhile isTagByte).length + 1, 0, (q.takeWhile isTagByte).length⟩
  else findStructural q 0

/-! ## Slices and faults -/

/-- What stops the scanner short of a result: a slice or index out of range
(a run-time panic in Go), or a loop that used up its fuel. -/
inductive Fault where
  | outOfRange
  | outOfFuel
deriving DecidableEq, Repr

deriving instance DecidableEq for Except

/-- The slice expression `s[lo:hi]`. -/
def slice (s : GoString) (lo hi : Int) : Except Fault GoString :=
  if 0 ≤ lo ∧ lo ≤ hi ∧ hi ≤ s.length then .ok ((s.take hi.toNat).drop lo.toNat)
  else .error .outOfRange

/-- The index expression `s[i]`. -/
def byteAt (s : GoString) (i : Int) : Except Fault Nat :=
  if 0 ≤ i ∧ i < s.length then .ok (s.getD i.toNat 0) else .error .outOfRange

/-! ## The scanning loop -/

/-- The `switch` in the group loop: the new depth `p` and escape flag. -/
def groupSwitch (esc : Bool) (r : Nat) (p : Int) : Int × Bool :=
  if esc then (p, false)
  else if r = 92 then (p, true)
  else if r = 40 then (p + 1, esc)
  else if r = 41 then (p - 1, esc)
  else (p, esc)

/-- The loop `for i < len(q)` that reads a parenthesized group; the result is
the cursor `i` and the buffer `w` when the loop ends. -/
def groupLoop (q : GoString) :
    Nat → Int → Int → Bool → GoString → Except Fault (Int × GoString)
  | 0, _, _, _, _ => .error .outOfFuel
  | fuel + 1, p, i, esc, w =>
    if i < q.length then
      match slice q i q.length with
      | .error e => .error e
      | .ok s =>
        if (groupSwitch esc (DecodeRuneInString s).1 p).1 = 0 then
          .ok (i + (DecodeRuneInString s).2, WriteRune w (DecodeRuneInString s).1)
        else
          groupLoop q fuel (groupSwitch esc (DecodeRuneInString s).1 p).1
            (i + (DecodeRuneInString s).2)
            (groupSwitch esc (DecodeRuneInString s).1 p).2
            (WriteRune w (DecodeRuneInString s).1)
    else .ok (i, w)

/-- How one iteration of the scanning loop ends: with `break`, or with the
state for the next iteration. -/
inductive Step where
  | done (ops : Ops)
  | next (ops : Ops) (key q : GoString)

/-- The body of the scanning loop of `ParseQuery`. -/
def scanBody (ops : Ops) (key q : GoString) : Except Fault Step :=
  match FindStringSubmatchIndex q with
  | none => .ok (.done (mapAdd ops key q))
  | some m =>
    match slice q 0 m.m0, slice q m.m0 m.m1, slice q m.m1 q.length with
    | .ok pre, .ok mtch, .ok rest =>
      if mtch = [32] then
        if key = [] then .ok (.next (mapAdd (mapAdd ops key pre) key [32]) key rest)
        else .ok (.next (mapAdd ops key pre) [] rest)
      else if mtch = [40] then
        match groupLoop rest (rest.length + 1) 1 0 false [] with
        | .error e => .error e
        | .ok (i, w) =>
          match slice rest i rest.length with
          | .error e => .error e
          | .ok rest2 => .ok (.next (mapAdd (mapAdd ops key pre) key (mtch ++ w)) key rest2)
      else
        match byteAt mtch 0 with
        | .error e => .error e
        | .ok b =>
          if b = 92 then .ok (.next (mapAdd (mapAdd ops key pre) key mtch) key rest)
          else
            match slice mtch (m.m2 - m.m0) (m.m3 - m.m0) with
            | .error e => .error e
            | .ok newKey =>
              if key = [] ∧ knownTags newKey = true then
                .ok (.next (mapAdd ops key pre) newKey rest)
              else .ok (.next (mapAdd (mapAdd ops key pre) key mtch) key rest)
    | _, _, _ => .error .outOfRange

/-- The scanning loop `for { ... }` of `ParseQuery`: the bucket map when the
loop breaks. -/
def scanLoop : Nat → Ops → GoString → GoString → Except Fault Ops
  | 0, _, _, _ => .error .outOfFuel
  | fuel + 1, ops, key, q =>
    match scanBody ops key q with
    | .error e => .error e
    | .ok (.done ops1) => .ok ops1
    | .ok (.next ops1 key1 q1) => scanLoop fuel ops1 key1 q1

/-- The scan of a whole query: the loop started on the trimmed query with an
empty map and no active operator.  Every iteration that does not break
shortens the remaining text, so its length plus one is fuel enough. -/
def scan (query : GoString) : Except Fault Ops :=
  scanLoop ((TrimSpace query).length + 1) mapEmpty [] (TrimSpace query)

/-! ## The result -/

/-- Modelled from the spec: the message `pb.Query` of the generated package
`go_proto`, which is not part of the sources; the fields are those of the
Structured Query of the specification, `MaxMatches` being an `int32`. -/
structure Query where
  /-- Path-include pattern. -/
  File : GoString := []
  /-- Path-exclude pattern. -/
  NotFile : GoString := []
  /-- Repository-include pattern. -/
  Repo : GoString := []
  /-- Repository-exclude pattern. -/
  NotRepo : GoString := []
  /-- Tag-include pattern. -/
  Tags : GoString := []
  /-- Tag-exclude pattern. -/
  NotTags : GoString := []
  /-- The content regular expression. -/
  Line : GoString := []
  /-- Case-insensitive matching. -/
  FoldCase : Bool := false
  /-- Whether `Line` is a file name pattern. -/
  FilenameOnly : Bool := false
  /-- Cap on the number of matches. -/
  MaxMatches : Int := 0
deriving DecidableEq, Repr

/-- The function `onlyOneSynonym`: the value and the error (`none` is
`nil`). -/
def onlyOneSynonym (ops : Ops) (op1 op2 : GoString) : GoString × Option GoString :=
  if mapGet ops op1 ≠ [] ∧ mapGet ops op2 ≠ [] then
    ([], some (str "Cannot provide both " ++ op1 ++ str ": and " ++ op2 ++
      str ":, because they are synonyms"))
  else if mapGet ops op1 ≠ [] then (mapGet ops op1, none)
  else (mapGet ops op2, none)

/-- The loop `for _, k := range []string{"", "case", "lit"}` that collects
the non-empty line specifiers in `bits`. -/
def collectBits (ops : Ops) (keys : List GoString) : List GoString :=
  match keys with
  | [] => []
  | k :: ks =>
    if (if k = str "lit" then QuoteMeta (TrimSpace (mapGet ops k))
        else TrimSpace (mapGet ops k)).length ≠ 0 then
      (if k = str "lit" then QuoteMeta (TrimSpace (mapGet ops k))
        else TrimSpace (mapGet ops k)) :: collectBits ops ks
    else collectBits ops ks

/-- The `bits` of a bucket map. -/
def bitsOf (ops : Ops) : List GoString := collectBits ops [[], str "case", str "lit"]

/-- The filename promotion `if out.Line == "" && out.File != ""`. -/
def promote (out : Query) : Query :=
  if out.Line = [] ∧ out.File ≠ [] then
    { out with Line := out.File, File := [], FilenameOnly := true }
  else out

/-- The assignment of `out.FoldCase`. -/
def setFoldCase (ops : Ops) (out : Query) : Query :=
  if mapHas ops (str "case") = true then { out with FoldCase := false }
  else if mapHas ops (str "lit") = true then { out with FoldCase := false }
  else { out with FoldCase := (IndexAny out.Line (str "ABCDEFGHIJKLMNOPQRSTUVWXYZ") == -1) }

/-- The last statement of `ParseQuery`: `out.MaxMatches`, or the error. -/
def setMaxMatches (ops : Ops) (out : Query) : Query × Option GoString :=
  if mapHas ops (str "max_matches") = true ∧ mapGet ops (str "max_matches") ≠ [] then
    match Atoi (mapGet ops (str "max_matches")) with
    | some i => ({ out with MaxMatches := int32 i }, none)
    | none => (out, some (str "Value given to max_matches: must be a valid integer"))
  else ({ out with MaxMatches := 0 }, none)

/-- The part of `ParseQuery` after the scanning loop: the pair that is
returned, `out` and the error (`none` is `nil`). -/
def assemble (ops : Ops) : Query × Option GoString :=
  if (onlyOneSynonym ops (str "file") (str "path")).2 ≠ none then
    ({ File := (onlyOneSynonym ops (str "file") (str "path")).1 },
      (onlyOneSynonym ops (str "file") (str "path")).2)
  else if (onlyOneSynonym ops (str "-file") (str "-path")).2 ≠ none then
    ({ File := (onlyOneSynonym ops (str "file") (str "path")).1,
       Repo := mapGet ops (str "repo"),
       Tags := mapGet ops (str "tags"),
       NotFile := (onlyOneSynonym ops (str "-file") (str "-path")).1 },
      (onlyOneSynonym ops (str "-file") (str "-path")).2)
  else if (bitsOf ops).length > 1 then
    ({ File := (onlyOneSynonym ops (str "file") (str "path")).1,
       Repo := mapGet ops (str "repo"),
       Tags := mapGet ops (str "tags"),
       NotFile := (onlyOneSynonym ops (str "-file") (str "-path")).1,
       NotRepo := mapGet ops (str "-repo"),
       NotTags := mapGet ops (str "-tags") },
      some (str "You cannot provide multiple of case:, lit:, and a bare regex"))
  else
    setMaxMatches ops (setFoldCase ops (promote
      { File := (onlyOneSynonym ops (str "file") (str "path")).1,
        Repo := mapGet ops (str "repo"),
        Tags := mapGet ops (str "tags"),
        NotFile := (onlyOneSynonym ops (str "-file") (str "-path")).1,
        NotRepo := mapGet ops (str "-repo"),
        NotTags := mapGet ops (str "-tags"),
        Line := if (bitsOf ops).length > 0 then (bitsOf ops).headD [] else [] }))

/-- The function `ParseQuery`: the pair `(out, err)` it returns, or the fault
that stops the scanning loop. -/
def ParseQuery (query : GoString) : Except Fault (Query × Option GoString) :=
  match scan query with
  | .error e => .error e
  | .ok ops => .ok (assemble ops)

/-! ## Auxiliary notions of the proofs -/

/-- The scanning loop from a given state, with the fuel that `scan` gives
it. -/
def scanFrom (ops : Ops) (key q : GoString) : Except Fault Ops :=
  scanLoop (q.length + 1) ops key q

/-- What a match `m` of `pieceRE` in `q` looks like: the text `pre` before
it, the match `mtch` and the text `rest` after it; the match is a space, an
opening parenthesis, a backslash with the rune after it, or, at the start of
the text only, a tag with its colon, which capture group 1 delimits. -/
structure Piece (q : GoString) (m : Loc) (pre mtch rest : GoString) : Prop where
  /-- The three parts make up the text. -/
  split : q = pre ++ mtch ++ rest
  /-- The match starts after `pre`. -/
  start : m.m0 = pre.length
  /-- The match ends before `rest`. -/
  stop : m.m1 = (pre.length : Int) + mtch.length
  /-- The alternative that matched. -/
  kind : ((mtch = [32] ∨ mtch = [40] ∨ ∃ t, t ≠ [] ∧ mtch = 92 :: t ∧
        t = (t ++ rest).take (DecodeRuneInString (t ++ rest)).2 ∧
        (DecodeRuneInString (t ++ rest)).1 ≠ 10) ∧ m.m2 = -1 ∧ m.m3 = -1) ∨
    (pre = [] ∧ ∃ k, k ≠ [] ∧ mtch = k ++ [58] ∧ (∀ b ∈ k, isTagByte b = true) ∧
      m.m2 = 0 ∧ m.m3 = k.length)

/-- The outcome of `ParseQuery` as to its error: `some none` when it returns
a `nil` error, `some (some e)` when it returns the error `e`, and `none` when
the scanner faults. -/
def errorOf (query : GoString) : Option (Option GoString) :=
  match ParseQuery query with
  | .ok r => some r.2
  | .error _ => none

/-- The error of `onlyOneSynonym` for `file` and `path`. -/
def errFilePath : GoString :=
  str "Cannot provide both file: and path:, because they are synonyms"

/-- The error of `onlyOneSynonym` for `-file` and `-path`. -/
def errNotFilePath : GoString :=
  str "Cannot provide both -file: and -path:, because they are synonyms"

/-- The error for more than one line specifier. -/
def errMultiple : GoString :=
  str "You cannot provide multiple of case:, lit:, and a bare regex"

/-- The error for a `max_matches` value that `Atoi` rejects. -/
def errMaxMatches : GoString :=
  str "Value given to max_matches: must be a valid integer"

/-- A character that is no white space, parenthesis, backslash or colon. -/
def plainChar (c : Char) : Bool :=
  !IsSpace c.toNat && c.toNat != 40 && c.toNat != 41 && c.toNat != 92 && c.toNat != 58

/-- An ASCII upper-case letter `A` to `Z`. -/
def isUpper (b : Nat) : Bool := 65 ≤ b && b ≤ 90

/-- A base-10 integer literal: an optional sign followed by one or more
decimal digits. -/
def isIntLiteral (s : GoString) : Bool :=
  match s with
  | 43 :: t => !t.isEmpty && t.all isDigit
  | 45 :: t => !t.isEmpty && t.all isDigit
  | _ => !s.isEmpty && s.all isDigit

/-- The bucket map that the scan of a query ends with. -/
def scanOps (query : GoString) : Ops :=
  match scan query with
  | .ok ops => ops
  | .error _ => mapEmpty

/-- The value that `onlyOneSynonym` resolves from the `file` and `path`
buckets. -/
def resolvedFile (ops : Ops) : GoString := (onlyOneSynonym ops (str "file") (str "path")).1

/-- The value chosen from the line specifiers: `bits[0]` when there is one,
the empty string otherwise. -/
def chosenLine (ops : Ops) : GoString :=
  if (bitsOf ops).length > 0 then (bitsOf ops).headD [] else []

/-- The number of buckets among bare text, `case` and `lit` that are not
empty. -/
def nonEmptyCount (ops : Ops) : Nat :=
  (if mapGet ops [] ≠ [] then 1 else 0) + (if mapGet ops (str "case") ≠ [] then 1 else 0) +
    (if mapGet ops (str "lit") ≠ [] then 1 else 0)

/-- The number of buckets among bare text, `case` and `lit` that are not
empty once their leading and trailing white space is removed. -/
def specCount (ops : Ops) : Nat :=
  (if TrimSpace (mapGet ops []) ≠ [] then 1 else 0) +
    (if TrimSpace (mapGet ops (str "case")) ≠ [] then 1 else 0) +
    (if TrimSpace (mapGet ops (str "lit")) ≠ [] then 1 else 0)

/-- The query `out` of `ParseQuery` when it comes to the filename promotion:
the filters copied from the buckets and the chosen line. -/
def beforePromotion (ops : Ops) : Query :=
  { File := resolvedFile ops,
    Repo := mapGet ops (str "repo"),
    Tags := mapGet ops (str "tags"),
    NotFile := (onlyOneSynonym ops (str "-file") (str "-path")).1,
    NotRepo := mapGet ops (str "-repo"),
    NotTags := mapGet ops (str "-tags"),
    Line := chosenLine ops }

/-- White space among characters. -/
def spaceChar (c : Char) : Bool := IsSpace c.toNat

/-- A list of characters without its leading and trailing white space. -/
def trimChars (cs : List Char) : List Char :=
  ((cs.dropWhile spaceChar).reverse.dropWhile spaceChar).reverse

/-- Bytes that the scanner takes as plain text wherever they stand: no space,
opening parenthesis, backslash or colon among them. -/
def Plain (s : GoString) : Prop := ∀ b ∈ s, b ≠ 32 ∧ b ≠ 40 ∧ b ≠ 92 ∧ b ≠ 58

/-- An ASCII decimal digit among characters. -/
def digitChar (c : Char) : Bool := isDigit c.toNat

/-- The base-10 integer that a string of decimal digits denotes. -/
def decimalValue (d : List Char) : Nat := d.foldl (fun acc c => acc * 10 + (c.toNat - 48)) 0

/-- One step of the tracking of a parenthesized group over characters: the
depth and the escape flag after the character `c`.  A backslash exempts the
next character; an opening parenthesis that is not exempt raises the depth,
a closing one lowers it. -/
def depthStep (p : Int) (esc : Bool) (c : Char) : Int × Bool :=
  if esc then (p, false)
  else if c = '\\' then (p, true)
  else if c = '(' then (p + 1, false)
  else if c = ')' then (p - 1, false)
  else (p, false)

/-- The number of characters of `cs` that belong to the group being read at
depth `p`: those up to the character at which the depth first reaches 0, or
all of them when it never does. -/
def groupSpan (cs : List Char) (p : Int) (esc : Bool) : Nat :=
  match cs with
  | [] => 0
  | c :: t =>
    if (depthStep p esc c).1 = 0 then 1
    else 1 + groupSpan t (depthStep p esc c).1 (depthStep p esc c).2

/-- The depth, tracked from `p` over `cs`, first reaches 0 exactly at the last
character of `cs`. -/
def closesAtEnd (cs : List Char) (p : Int) (esc : Bool) : Bool :=
  match cs with
  | [] => false
  | c :: t =>
    if (depthStep p esc c).1 = 0 then t.isEmpty
    else closesAtEnd t (depthStep p esc c).1 (depthStep p esc c).2

/-- The depth, tracked from `p` over `cs`, never reaches 0. -/
def neverCloses (cs : List Char) (p : Int) (esc : Bool) : Bool :=
  match cs with
  | [] => true
  | c :: t =>
    if (depthStep p esc c).1 = 0 then false
    else neverCloses t (depthStep p esc c).1 (depthStep p esc c).2

/-- The active operator, the variable `key`, at the start of every iteration
of the scanning loop from a given state. -/
def keyTrace : Nat → Ops → GoString → GoString → List GoString
  | 0, _, _, _ => []
  | fuel + 1, ops, key, q =>
    key ::
      match scanBody ops key q with
      | .ok (.next ops1 key1 q1) => keyTrace fuel ops1 key1 q1
      | _ => []

/-- The active operators in the course of the scan of a query.  The scanner
switches the active context to `k` at least once exactly when `k` is not
empty and is one of them. -/
def keysOf (query : GoString) : List GoString :=
  keyTrace ((TrimSpace query).length + 1) mapEmpty [] (TrimSpace query)

/-- The text with the backslashes that `QuoteMeta` inserts taken out again: a
backslash is dropped and the byte after it is kept as it is. -/
def unquote (s : GoString) : GoString :=
  match s with
  | [] => []
  | 92 :: b :: t => b :: unquote t
  | b :: t => b :: unquote t

/-- A Go string that holds no white space: none of the runes it decodes to is
white space. -/
def noSpace (s : GoString) : Bool := (runes s).all (fun r => !IsSpace r.1)

/-- A Go string that holds no white space, parenthesis, backslash or
colon. -/
def plainText (s : GoString) : Bool :=
  noSpace s && s.all (fun b => b != 40 && b != 41 && b != 92 && b != 58)

/-- A Go string that holds no white space, parenthesis or backslash; it may
hold colons. -/
def looseText (s : GoString) : Bool :=
  noSpace s && s.all (fun b => b != 40 && b != 41 && b != 92)

/-! ## UTF-8 -/


theorem validRune_of_char (c : Char) : c.toNat < 0xD800 ∨ (0xDFFF < c.toNat ∧ c.toNat ≤ 0x10FFFF) := by
  have h := c.valid
  simp only [Char.toNat]
  rcases h with h | h
  · left; exact h
  · right; exact ⟨h.1, by have := h.2; omega⟩

theorem decode_encode (r : Nat) (hr : r < 0xD800 ∨ (0xDFFF < r ∧ r ≤ 0x10FFFF)) (rest : GoString) :
    DecodeRuneInString (EncodeRune r ++ rest) = (r, (EncodeRune r).length) := by
  unfold EncodeRune RuneSelf
  by_cases h1 : r < 128
  · simp [h1, DecodeRuneInString, RuneSelf]
  · by_cases h2 : r ≤ 0x7FF
    · simp only [h1, h2, if_true, if_false, List.cons_append, List.nil_append, DecodeRuneInString, RuneSelf, isCont]
      have a1 : ¬ (0xC0 + r / 64 < 128) := by omega
      have a2 : 0xC2 ≤ 0xC0 + r / 64 ∧ 0xC0 + r / 64 ≤ 0xDF := by omega
      have a3 : 0x80 ≤ 0x80 + r % 64 ∧ 0x80 + r % 64 ≤ 0xBF := by omega
      simp [a1, a2, a3]
      omega
    · have h3 : ¬ (r > 0x10FFFF ∨ (0xD800 ≤ r ∧ r ≤ 0xDFFF)) := by omega
      by_cases h4 : r ≤ 0xFFFF
      · simp only [h1, h2, h3, h4, if_true, if_false, List.cons_append, List.nil_append, DecodeRuneInString, RuneSelf, isCont]
        have a1 : ¬ (0xE0 + r / 4096 < 128) := by omega
        have a2 : ¬ (0xC2 ≤ 0xE0 + r / 4096 ∧ 0xE0 + r / 4096 ≤ 0xDF) := by omega
        have a3 : 0xE0 ≤ 0xE0 + r / 4096 ∧ 0xE0 + r / 4096 ≤ 0xEF := by omega
        have a4 : (if 0xE0 + r / 4096 = 0xE0 then 0xA0 else 0x80) ≤ 0x80 + r / 64 % 64 := by
          split <;> omega
        have a5 : 0x80 + r / 64 % 64 ≤ (if 0xE0 + r / 4096 = 0xED then 0x9F else 0xBF) := by
          split <;> omega
        have a6 : 0x80 ≤ 0x80 + r % 64 ∧ 0x80 + r % 64 ≤ 0xBF := by omega
        simp only [a1, a2, a3, a4, a5, a6, if_true, if_false, and_self, decide_True, Bool.and_self, List.length_cons, List.length_nil]
        simp
        omega
      · simp only [h1, h2, h3, h4, if_true, if_false, List.cons_append, List.nil_append, DecodeRuneInString, RuneSelf, isCont]
        have a1 : ¬ (0xF0 + r / 262144 < 128) := by omega
        have a2 : ¬ (0xC2 ≤ 0xF0 + r / 262144 ∧ 0xF0 + r / 262144 ≤ 0xDF) := by omega
        have a3 : ¬ (0xE0 ≤ 0xF0 + r / 262144 ∧ 0xF0 + r / 262144 ≤ 0xEF) := by omega
        have a3' : 0xF0 ≤ 0xF0 + r / 262144 ∧ 0xF0 + r / 262144 ≤ 0xF4 := by omega
        have a4 : (if 0xF0 + r / 262144 = 0xF0 then 0x90 else 0x80) ≤ 0x80 + r / 4096 % 64 := by
          split <;> omega
        have a5 : 0x80 + r / 4096 % 64 ≤ (if 0xF0 + r / 262144 = 0xF4 then 0x8F else 0xBF) := by
          split <;> omega
        have a6 : 0x80 ≤ 0x80 + r % 64 ∧ 0x80 + r % 64 ≤ 0xBF := by omega
        have a7 : 0x80 ≤ 0x80 + r / 64 % 64 ∧ 0x80 + r / 64 % 64 ≤ 0xBF := by omega
        simp only [a1, a2, a3, a3', a4, a5, a6, a7, if_true, if_false, and_self, decide_True, Bool.and_self, List.length_cons, List.length_nil]
        simp
        omega
theorem decode_width (s : GoString) (h : s ≠ []) :
    1 ≤ (DecodeRuneInString s).2 ∧ (DecodeRuneInString s).2 ≤ s.length := by
  unfold DecodeRuneInString
  repeat' split
  all_goals first | exact absurd rfl h | simp


/-! ## Slices -/

theorem slice_nat (s : GoString) (a b : Nat) (h1 : a ≤ b) (h2 : b ≤ s.length) :
    slice s (a : Int) (b : Int) = .ok ((s.take b).drop a) := by
  unfold slice
  have : (0 : Int) ≤ a ∧ (a : Int) ≤ b ∧ (b : Int) ≤ s.length := by omega
  simp [this]

theorem slice_pre (pre mid rest : GoString) :
    slice (pre ++ mid ++ rest) 0 (pre.length : Int) = .ok pre := by
  have h := slice_nat (pre ++ mid ++ rest) 0 pre.length (by omega) (by simp)
  simp only [Nat.cast_zero, List.drop_zero] at h
  rw [h, List.append_assoc, List.take_left]

theorem slice_mid (pre mid rest : GoString) :
    slice (pre ++ mid ++ rest) (pre.length : Int) ((pre.length : Int) + mid.length) = .ok mid := by
  have h := slice_nat (pre ++ mid ++ rest) pre.length (pre.length + mid.length) (by omega)
    (by simp)
  rw [Nat.cast_add] at h
  rw [h]
  have : pre.length + mid.length = (pre ++ mid).length := by simp
  rw [this, List.take_left, List.drop_left]

theorem slice_rest (pre mid rest : GoString) :
    slice (pre ++ mid ++ rest) ((pre.length : Int) + mid.length)
      ((pre ++ mid ++ rest).length : Int) = .ok rest := by
  have h := slice_nat (pre ++ mid ++ rest) (pre.length + mid.length) (pre ++ mid ++ rest).length
    (by simp) (by omega)
  rw [Nat.cast_add] at h
  rw [h, List.take_length]
  have : pre.length + mid.length = (pre ++ mid).length := by simp
  rw [this, List.drop_left]

theorem slice_from (pre rest : GoString) :
    slice (pre ++ rest) (pre.length : Int) ((pre ++ rest).length : Int) = .ok rest := by
  have h := slice_nat (pre ++ rest) pre.length (pre ++ rest).length (by simp) (by omega)
  rw [h, List.take_length, List.drop_left]


/-! ## The expression `pieceRE` -/


theorem findStructural_spec (s : GoString) : ∀ (before : GoString) (m : Loc),
    findStructural s before.length = some m →
    ∃ pre mtch rest, before ++ s = (before ++ pre) ++ mtch ++ rest ∧
      m.m0 = (before ++ pre).length ∧ m.m1 = ((before ++ pre).length : Int) + mtch.length ∧
      (mtch = [32] ∨ mtch = [40] ∨ ∃ t, t ≠ [] ∧ mtch = 92 :: t ∧
        t = (t ++ rest).take (DecodeRuneInString (t ++ rest)).2 ∧
        (DecodeRuneInString (t ++ rest)).1 ≠ 10) ∧ m.m2 = -1 ∧ m.m3 = -1 := by
  induction s with
  | nil => intro before m h; simp [findStructural] at h
  | cons b t ih =>
    intro before m h
    unfold findStructural at h
    by_cases h40 : b = 40
    · simp only [h40, if_true, Option.some.injEq] at h
      subst h
      exact ⟨[], [40], t, by simp [h40], by simp, by simp, by simp, rfl, rfl⟩
    · simp only [h40, if_false] at h
      by_cases h92 : b = 92 ∧ t ≠ [] ∧ (DecodeRuneInString t).1 ≠ 10
      · simp only [h92, if_true, Option.some.injEq, ne_eq, not_false_eq_true, and_self] at h
        subst h
        have hw := decode_width t h92.2.1
        refine ⟨[], 92 :: t.take (DecodeRuneInString t).2, t.drop (DecodeRuneInString t).2,
          by simp [h92.1], by simp, ?_, ?_, rfl, rfl⟩
        · simp [List.length_take, Nat.min_eq_left hw.2]; omega
        · right; right
          refine ⟨_, ?_, rfl, ?_, ?_⟩
          · intro h0
            have := congrArg List.length h0
            simp [List.length_take, Nat.min_eq_left hw.2] at this
            omega
          · rw [List.take_append_drop]
          · rw [List.take_append_drop]; exact h92.2.2
      · simp only [h92, if_false] at h
        by_cases h32 : b = 32
        · simp only [h32, if_true, Option.some.injEq] at h
          subst h
          exact ⟨[], [32], t, by simp [h32], by simp, by simp, by simp, rfl, rfl⟩
        · simp only [h32, if_false] at h
          have h' : findStructural t (before ++ [b]).length = some m := by
            simpa using h
          obtain ⟨pre, mtch, rest, e, e0, e1, k, k2, k3⟩ := ih (before ++ [b]) m h'
          refine ⟨b :: pre, mtch, rest, ?_, ?_, ?_, k, k2, k3⟩
          · simpa using e
          · simpa [Nat.add_comm, Nat.add_left_comm, Nat.add_assoc] using e0
          · simpa [Nat.add_comm, Nat.add_left_comm, Nat.add_assoc] using e1


theorem get?_takeWhile_length (p : Nat → Bool) (q : GoString) :
    q.get? (q.takeWhile p).length = (q.dropWhile p).head? := by
  induction q with
  | nil => simp
  | cons b t ih =>
    by_cases hb : p b = true
    · simp only [List.get?_eq_getElem?] at ih
      simp [List.takeWhile_cons, List.dropWhile_cons, hb, ih]
    · simp [List.takeWhile_cons, List.dropWhile_cons, hb]

theorem find_spec (q : GoString) (m : Loc) (h : FindStringSubmatchIndex q = some m) :
    ∃ pre mtch rest, Piece q m pre mtch rest := by
  unfold FindStringSubmatchIndex at h
  split at h
  · rename_i hc
    obtain ⟨hn, hcolon⟩ := hc
    simp only [Option.some.injEq] at h
    subst h
    rw [get?_takeWhile_length] at hcolon
    have hd : q.dropWhile isTagByte = 58 :: (q.dropWhile isTagByte).tail := by
      cases hq : q.dropWhile isTagByte with
      | nil => rw [hq] at hcolon; simp at hcolon
      | cons x r => rw [hq] at hcolon; simp at hcolon; simp [hcolon]
    refine ⟨[], q.takeWhile isTagByte ++ [58], (q.dropWhile isTagByte).tail, ?_, ?_, ?_, ?_⟩
    · have := (List.takeWhile_append_dropWhile isTagByte q).symm
      rw [hd] at this
      simpa using this
    · simp
    · simp
    · right
      refine ⟨rfl, q.takeWhile isTagByte, ?_, rfl, ?_, rfl, rfl⟩
      · intro h0; rw [h0] at hn; simp at hn
      · intro b hb; exact List.mem_takeWhile_imp hb
  · obtain ⟨pre, mtch, rest, e, e0, e1, k, k2, k3⟩ := findStructural_spec q [] m (by simpa using h)
    exact ⟨pre, mtch, rest, by simpa using e, by simpa using e0, by simpa using e1,
      Or.inl ⟨k, k2, k3⟩⟩


/-! ## The loops end without a fault -/

theorem slice_drop (q : GoString) (i : Nat) (h : i ≤ q.length) :
    slice q (i : Int) (q.length : Int) = .ok (q.drop i) := by
  rw [slice_nat q i q.length h (Nat.le_refl _), List.take_length]

theorem groupLoop_total (q : GoString) : ∀ (fuel i : Nat) (p : Int) (esc : Bool) (w : GoString),
    i ≤ q.length → q.length - i < fuel →
    ∃ (j : Nat) (w1 : GoString), groupLoop q fuel p i esc w = .ok ((j : Int), w1) ∧
      i ≤ j ∧ j ≤ q.length := by
  intro fuel
  induction fuel with
  | zero => intro i p esc w _ h; omega
  | succ fuel ih =>
    intro i p esc w hi hf
    unfold groupLoop
    by_cases hlt : (i : Int) < q.length
    · have hlt' : i < q.length := by omega
      simp only [hlt, if_true, slice_drop q i hi]
      have hne : q.drop i ≠ [] := by
        intro h0
        have := congrArg List.length h0
        simp at this
        omega
      have hw := decode_width (q.drop i) hne
      simp only [List.length_drop] at hw
      split
      · exact ⟨i + (DecodeRuneInString (q.drop i)).2, _, by rw [Nat.cast_add], by omega, by omega⟩
      · have := ih (i + (DecodeRuneInString (q.drop i)).2)
          (groupSwitch esc (DecodeRuneInString (q.drop i)).1 p).1
          (groupSwitch esc (DecodeRuneInString (q.drop i)).1 p).2
          (WriteRune w (DecodeRuneInString (q.drop i)).1) (by omega) (by omega)
        obtain ⟨j, w1, e, h1, h2⟩ := this
        refine ⟨j, w1, ?_, by omega, h2⟩
        rw [← e, Nat.cast_add]
    · simp only [hlt, if_false]
      exact ⟨i, w, rfl, Nat.le_refl _, hi⟩

theorem byteAt_cons (b : Nat) (t : GoString) : byteAt (b :: t) 0 = .ok b := by
  simp [byteAt]

/-- An iteration of the scanning loop never faults, and when it does not
break it leaves a shorter text. -/
theorem scanBody_total (ops : Ops) (key q : GoString) :
    (∃ ops1, scanBody ops key q = .ok (.done ops1)) ∨
    (∃ ops1 key1 q1, scanBody ops key q = .ok (.next ops1 key1 q1) ∧ q1.length < q.length) := by
  unfold scanBody
  cases hf : FindStringSubmatchIndex q with
  | none => exact Or.inl ⟨_, rfl⟩
  | some m =>
    right
    obtain ⟨pre, mtch, rest, hp⟩ := find_spec q m hf
    have hq := hp.split
    have e0 : slice q 0 m.m0 = .ok pre := by rw [hp.start, hq]; exact slice_pre pre mtch rest
    have e1 : slice q m.m0 m.m1 = .ok mtch := by
      rw [hp.start, hp.stop, hq]; exact slice_mid pre mtch rest
    have e2 : slice q m.m1 q.length = .ok rest := by
      rw [hp.stop, hq]; exact slice_rest pre mtch rest
    have hlen : q.length = pre.length + mtch.length + rest.length := by rw [hq]; simp [Nat.add_assoc]
    simp only [e0, e1, e2]
    have hm : 1 ≤ mtch.length := by
      rcases hp.kind with ⟨h | h | ⟨t, _, h, _⟩, _⟩ | ⟨_, k, _, h, _⟩ <;> rw [h] <;> simp
    by_cases h32 : mtch = [32]
    · simp only [h32, if_true]
      split
      · exact ⟨_, _, _, rfl, by omega⟩
      · exact ⟨_, _, _, rfl, by omega⟩
    · simp only [h32, if_false]
      by_cases h40 : mtch = [40]
      · simp only [h40, if_true]
        obtain ⟨j, w1, e, _, hj⟩ := groupLoop_total rest (rest.length + 1) 0 1 false []
          (Nat.zero_le _) (by omega)
        simp only [Nat.cast_zero] at e
        simp only [e, slice_drop rest j hj]
        exact ⟨_, _, _, rfl, by simp; omega⟩
      · simp only [h40, if_false]
        rcases hp.kind with ⟨h | h | ⟨t, _, h, _⟩, _⟩ | ⟨hpre, k, hk, h, _, h2, h3⟩
        · exact absurd h h32
        · exact absurd h h40
        · subst h
          simp only [byteAt_cons, if_true]
          exact ⟨_, _, _, rfl, by omega⟩
        · subst h
          have hk' : ∃ b t, k = b :: t := by
            cases k with
            | nil => exact absurd rfl hk
            | cons b t => exact ⟨b, t, rfl⟩
          obtain ⟨b, t, hbt⟩ := hk'
          have hb : isTagByte b = true := by
            rename_i htag
            exact htag b (by rw [hbt]; simp)
          have hb92 : b ≠ 92 := by
            intro h; rw [h] at hb; simp [isTagByte] at hb
          have e3 : slice (k ++ [58]) (m.m2 - m.m0) (m.m3 - m.m0) = .ok k := by
            rw [h2, h3, hp.start, hpre]
            have := slice_pre k [58] []
            simpa using this
          simp only [e3]
          subst hbt
          simp only [List.cons_append, byteAt_cons, hb92, if_false]
          split
          · exact ⟨_, _, _, rfl, by omega⟩
          · exact ⟨_, _, _, rfl, by omega⟩


theorem scanLoop_fuel : ∀ (n : Nat) (ops : Ops) (key q : GoString) (fuel : Nat),
    q.length < n → q.length < fuel → scanLoop fuel ops key q = scanLoop n ops key q := by
  intro n
  induction n with
  | zero => intro ops key q fuel h; omega
  | succ n ih =>
    intro ops key q fuel hn hf
    cases fuel with
    | zero => omega
    | succ fuel =>
      unfold scanLoop
      rcases scanBody_total ops key q with ⟨ops1, e⟩ | ⟨ops1, key1, q1, e, hlt⟩
      · simp only [e]
      · simp only [e]
        exact ih ops1 key1 q1 fuel (by omega) (by omega)


theorem scan_eq (query : GoString) : scan query = scanFrom mapEmpty [] (TrimSpace query) := rfl

theorem scanFrom_done (ops : Ops) (key q : GoString) (ops1 : Ops)
    (h : scanBody ops key q = .ok (.done ops1)) : scanFrom ops key q = .ok ops1 := by
  unfold scanFrom scanLoop
  simp only [h]

theorem scanFrom_next (ops : Ops) (key q : GoString) (ops1 : Ops) (key1 q1 : GoString)
    (h : scanBody ops key q = .ok (.next ops1 key1 q1)) :
    scanFrom ops key q = scanFrom ops1 key1 q1 := by
  have hlt : q1.length < q.length := by
    rcases scanBody_total ops key q with ⟨ops2, e⟩ | ⟨ops2, key2, q2, e, hlt⟩
    · rw [h] at e; simp at e
    · rw [h] at e
      simp only [Except.ok.injEq, Step.next.injEq] at e
      rw [e.2.2]; exact hlt
  unfold scanFrom
  conv => lhs; unfold scanLoop
  simp only [h]
  exact scanLoop_fuel _ ops1 key1 q1 _ (by omega) (by omega)

/-- The scanning loop ends with a bucket map from every state. -/
theorem scanFrom_total : ∀ (n : Nat) (ops : Ops) (key q : GoString), q.length < n →
    ∃ ops1, scanFrom ops key q = .ok ops1 := by
  intro n
  induction n with
  | zero => intro ops key q h; omega
  | succ n ih =>
    intro ops key q hn
    rcases scanBody_total ops key q with ⟨ops1, e⟩ | ⟨ops1, key1, q1, e, hlt⟩
    · exact ⟨ops1, scanFrom_done ops key q ops1 e⟩
    · rw [scanFrom_next ops key q ops1 key1 q1 e]
      exact ih ops1 key1 q1 (by omega)

/-- The scan of every query ends with a bucket map. -/
theorem scan_total (query : GoString) : ∃ ops, scan query = .ok ops :=
  scanFrom_total _ mapEmpty [] (TrimSpace query) (Nat.lt_succ_self _)

theorem ParseQuery_eq (query : GoString) (ops : Ops) (h : scan query = .ok ops) :
    ParseQuery query = .ok (assemble ops) := by
  unfold ParseQuery
  rw [h]


/-! ## The bucket map -/

@[simp] theorem mapGet_mapAdd (ops : Ops) (k v j : GoString) :
    mapGet (mapAdd ops k v) j = if j = k then mapGet ops k ++ v else mapGet ops j := by
  simp only [mapGet, mapAdd]
  split <;> simp

@[simp] theorem mapHas_mapAdd (ops : Ops) (k v j : GoString) :
    mapHas (mapAdd ops k v) j = (decide (j = k) || mapHas ops j) := by
  simp only [mapHas, mapAdd]
  split <;> simp [*]

@[simp] theorem mapGet_mapEmpty (j : GoString) : mapGet mapEmpty j = [] := rfl

@[simp] theorem mapHas_mapEmpty (j : GoString) : mapHas mapEmpty j = false := rfl

theorem mapGet_of_not_has (ops : Ops) (k : GoString) (h : mapHas ops k = false) :
    mapGet ops k = [] := by
  unfold mapHas at h
  unfold mapGet
  cases hk : ops k with
  | none => rfl
  | some v => rw [hk] at h; simp at h

/-! ## The assembly of the result -/

theorem onlyOneSynonym_file_err (ops : Ops) :
    (onlyOneSynonym ops (str "file") (str "path")).2 =
      if mapGet ops (str "file") ≠ [] ∧ mapGet ops (str "path") ≠ [] then some errFilePath
      else none := by
  unfold onlyOneSynonym
  split
  · rfl
  · split <;> rfl

theorem onlyOneSynonym_notfile_err (ops : Ops) :
    (onlyOneSynonym ops (str "-file") (str "-path")).2 =
      if mapGet ops (str "-file") ≠ [] ∧ mapGet ops (str "-path") ≠ [] then some errNotFilePath
      else none := by
  unfold onlyOneSynonym
  split
  · rfl
  · split <;> rfl

theorem err_distinct : errFilePath ≠ errNotFilePath ∧ errFilePath ≠ errMultiple ∧
    errFilePath ≠ errMaxMatches ∧ errNotFilePath ≠ errMultiple ∧
    errNotFilePath ≠ errMaxMatches ∧ errMultiple ≠ errMaxMatches := by
  decide

theorem setMaxMatches_err (ops : Ops) (out : Query) :
    (setMaxMatches ops out).2 = none ∨ (setMaxMatches ops out).2 = some errMaxMatches := by
  unfold setMaxMatches
  split
  · split
    · exact Or.inl rfl
    · exact Or.inr rfl
  · exact Or.inl rfl


theorem scan_ok (query : GoString) : scan query = .ok (scanOps query) := by
  obtain ⟨ops, h⟩ := scan_total query
  unfold scanOps
  rw [h]

theorem ParseQuery_ok (query : GoString) :
    ParseQuery query = .ok (assemble (scanOps query)) :=
  ParseQuery_eq query _ (scan_ok query)

theorem errorOf_eq (query : GoString) : errorOf query = some (assemble (scanOps query)).2 := by
  unfold errorOf
  rw [ParseQuery_ok]

theorem QuoteMeta_eq_nil (s : GoString) : QuoteMeta s = [] ↔ s = [] := by
  cases s with
  | nil => simp [QuoteMeta]
  | cons b t =>
    unfold QuoteMeta
    split <;> simp

theorem bitsOf_length (ops : Ops) : (bitsOf ops).length = specCount ops := by
  have e1 : ([] : GoString) ≠ str "lit" := by decide
  have e2 : str "case" ≠ str "lit" := by decide
  unfold bitsOf specCount
  simp only [collectBits, e1, e2, if_false, if_true, List.length_eq_zero, ne_eq, QuoteMeta_eq_nil]
  by_cases h1 : TrimSpace (mapGet ops []) = [] <;>
  by_cases h2 : TrimSpace (mapGet ops (str "case")) = [] <;>
  by_cases h3 : TrimSpace (mapGet ops (str "lit")) = [] <;>
  simp [h1, h2, h3]

theorem setMaxMatches_snd (ops : Ops) (out : Query) :
    (setMaxMatches ops out).2 =
      if mapHas ops (str "max_matches") = true ∧ mapGet ops (str "max_matches") ≠ [] ∧
          Atoi (mapGet ops (str "max_matches")) = none then some errMaxMatches
      else none := by
  unfold setMaxMatches
  by_cases c4 : mapHas ops (str "max_matches") = true ∧ mapGet ops (str "max_matches") ≠ []
  · rw [if_pos c4]
    cases hA : Atoi (mapGet ops (str "max_matches")) with
    | none => rw [if_pos ⟨c4.1, c4.2, rfl⟩]; rfl
    | some i => rw [if_neg (by intro h; simp at h)]
  · rw [if_neg c4, if_neg (fun h => c4 ⟨h.1, h.2.1⟩)]

/-- Without an error of the first three rules the assembly goes on to the
filename promotion. -/
theorem assemble_ok (ops : Ops)
    (c1 : ¬ (mapGet ops (str "file") ≠ [] ∧ mapGet ops (str "path") ≠ []))
    (c2 : ¬ (mapGet ops (str "-file") ≠ [] ∧ mapGet ops (str "-path") ≠ []))
    (c3 : ¬ 1 < specCount ops) :
    assemble ops = setMaxMatches ops (setFoldCase ops (promote (beforePromotion ops))) := by
  have c3' : ¬ (bitsOf ops).length > 1 := by rw [bitsOf_length]; exact c3
  have d1 : ¬ (onlyOneSynonym ops (str "file") (str "path")).2 ≠ none := by
    rw [onlyOneSynonym_file_err, if_neg c1]; simp
  have d2 : ¬ (onlyOneSynonym ops (str "-file") (str "-path")).2 ≠ none := by
    rw [onlyOneSynonym_notfile_err, if_neg c2]; simp
  unfold assemble beforePromotion resolvedFile chosenLine
  rw [if_neg d1, if_neg d2, if_neg c3']

/-- The error of the assembly, rule by rule. -/
theorem assemble_err (ops : Ops) :
    (assemble ops).2 =
      if mapGet ops (str "file") ≠ [] ∧ mapGet ops (str "path") ≠ [] then some errFilePath
      else if mapGet ops (str "-file") ≠ [] ∧ mapGet ops (str "-path") ≠ [] then
        some errNotFilePath
      else if 1 < specCount ops then some errMultiple
      else if mapHas ops (str "max_matches") = true ∧ mapGet ops (str "max_matches") ≠ [] ∧
          Atoi (mapGet ops (str "max_matches")) = none then some errMaxMatches
      else none := by
  by_cases c1 : mapGet ops (str "file") ≠ [] ∧ mapGet ops (str "path") ≠ []
  · rw [if_pos c1]
    have d1 : (onlyOneSynonym ops (str "file") (str "path")).2 = some errFilePath := by
      rw [onlyOneSynonym_file_err, if_pos c1]
    unfold assemble
    rw [if_pos (by rw [d1]; simp), d1]
  · rw [if_neg c1]
    by_cases c2 : mapGet ops (str "-file") ≠ [] ∧ mapGet ops (str "-path") ≠ []
    · rw [if_pos c2]
      have d1 : ¬ (onlyOneSynonym ops (str "file") (str "path")).2 ≠ none := by
        rw [onlyOneSynonym_file_err, if_neg c1]; simp
      have d2 : (onlyOneSynonym ops (str "-file") (str "-path")).2 = some errNotFilePath := by
        rw [onlyOneSynonym_notfile_err, if_pos c2]
      unfold assemble
      rw [if_neg d1, if_pos (by rw [d2]; simp), d2]
    · rw [if_neg c2]
      by_cases c3 : 1 < specCount ops
      · rw [if_pos c3]
        have c3' : (bitsOf ops).length > 1 := by rw [bitsOf_length]; exact c3
        have d1 : ¬ (onlyOneSynonym ops (str "file") (str "path")).2 ≠ none := by
          rw [onlyOneSynonym_file_err, if_neg c1]; simp
        have d2 : ¬ (onlyOneSynonym ops (str "-file") (str "-path")).2 ≠ none := by
          rw [onlyOneSynonym_notfile_err, if_neg c2]; simp
        unfold assemble
        rw [if_neg d1, if_neg d2, if_pos c3']
        rfl
      · rw [if_neg c3, assemble_ok ops c1 c2 c3, setMaxMatches_snd]


theorem upper_eq : str "ABCDEFGHIJKLMNOPQRSTUVWXYZ" =
    [65, 66, 67, 68, 69, 70, 71, 72, 73, 74, 75, 76, 77, 78, 79, 80, 81, 82, 83, 84, 85, 86,
      87, 88, 89, 90] := by decide

theorem mem_upper (b : Nat) : b ∈ str "ABCDEFGHIJKLMNOPQRSTUVWXYZ" ↔ isUpper b = true := by
  rw [upper_eq]
  simp only [List.mem_cons, List.mem_singleton, List.not_mem_nil, or_false, isUpper,
    Bool.and_eq_true, decide_eq_true_eq]
  omega

theorem IndexAny_ge (s chars : GoString) : -1 ≤ IndexAny s chars := by
  induction s with
  | nil => simp [IndexAny]
  | cons b t ih =>
    unfold IndexAny
    split
    · omega
    · split <;> omega

theorem IndexAny_eq_neg_one (s chars : GoString) :
    IndexAny s chars = -1 ↔ ∀ b ∈ s, b ∉ chars := by
  induction s with
  | nil => simp [IndexAny]
  | cons b t ih =>
    unfold IndexAny
    have := IndexAny_ge t chars
    by_cases hb : b ∈ chars
    · simp [hb]
    · simp only [hb, if_false, List.mem_cons, forall_eq_or_imp, not_false_eq_true, true_and]
      rw [← ih]
      split
      · simp [*]
      · constructor
        · intro h; omega
        · intro h; contradiction

/-- The test of `ParseQuery` for an upper-case letter in `Line`. -/
theorem foldCase_test (s : GoString) :
    (IndexAny s (str "ABCDEFGHIJKLMNOPQRSTUVWXYZ") == -1) = true ↔
      ∀ b ∈ s, isUpper b = false := by
  rw [beq_iff_eq, IndexAny_eq_neg_one]
  constructor
  · intro h b hb
    have := h b hb
    rw [mem_upper] at this
    simpa using this
  · intro h b hb
    rw [mem_upper, h b hb]
    simp

theorem setMaxMatches_fst (ops : Ops) (out : Query) :
    (setMaxMatches ops out).1.File = out.File ∧ (setMaxMatches ops out).1.Line = out.Line ∧
    (setMaxMatches ops out).1.FilenameOnly = out.FilenameOnly ∧
    (setMaxMatches ops out).1.FoldCase = out.FoldCase ∧
    (setMaxMatches ops out).1.NotFile = out.NotFile ∧
    (setMaxMatches ops out).1.Repo = out.Repo ∧ (setMaxMatches ops out).1.NotRepo = out.NotRepo ∧
    (setMaxMatches ops out).1.Tags = out.Tags ∧ (setMaxMatches ops out).1.NotTags = out.NotTags := by
  unfold setMaxMatches
  split
  · split <;> simp
  · simp

theorem setFoldCase_fields (ops : Ops) (out : Query) :
    (setFoldCase ops out).File = out.File ∧ (setFoldCase ops out).Line = out.Line ∧
    (setFoldCase ops out).FilenameOnly = out.FilenameOnly ∧
    (setFoldCase ops out).MaxMatches = out.MaxMatches ∧
    (setFoldCase ops out).NotFile = out.NotFile ∧
    (setFoldCase ops out).Repo = out.Repo ∧ (setFoldCase ops out).NotRepo = out.NotRepo ∧
    (setFoldCase ops out).Tags = out.Tags ∧ (setFoldCase ops out).NotTags = out.NotTags := by
  unfold setFoldCase
  split
  · simp
  · split <;> simp

theorem setFoldCase_FoldCase (ops : Ops) (out : Query) :
    (setFoldCase ops out).FoldCase =
      if mapHas ops (str "case") = true ∨ mapHas ops (str "lit") = true then false
      else (IndexAny out.Line (str "ABCDEFGHIJKLMNOPQRSTUVWXYZ") == -1) := by
  unfold setFoldCase
  by_cases h1 : mapHas ops (str "case") = true
  · simp [h1]
  · by_cases h2 : mapHas ops (str "lit") = true
    · simp [h1, h2]
    · simp [h1, h2]

theorem setMaxMatches_MaxMatches (ops : Ops) (out : Query)
    (h : (setMaxMatches ops out).2 = none) :
    (setMaxMatches ops out).1.MaxMatches =
      if mapHas ops (str "max_matches") = true ∧ mapGet ops (str "max_matches") ≠ [] then
        int32 ((Atoi (mapGet ops (str "max_matches"))).getD 0)
      else 0 := by
  unfold setMaxMatches at h ⊢
  split
  · rename_i hc
    rw [if_pos hc] at h
    cases hA : Atoi (mapGet ops (str "max_matches")) with
    | none => rw [hA] at h; simp at h
    | some i => simp
  · rfl


/-! ## What a successful assembly returns -/

theorem assemble_none (ops : Ops) (out : Query) (h : assemble ops = (out, none)) :
    ¬ (mapGet ops (str "file") ≠ [] ∧ mapGet ops (str "path") ≠ []) ∧
    ¬ (mapGet ops (str "-file") ≠ [] ∧ mapGet ops (str "-path") ≠ []) ∧
    ¬ 1 < specCount ops ∧
    setMaxMatches ops (setFoldCase ops (promote (beforePromotion ops))) = (out, none) := by
  have he := assemble_err ops
  rw [h] at he
  simp only at he
  by_cases c1 : mapGet ops (str "file") ≠ [] ∧ mapGet ops (str "path") ≠ []
  · rw [if_pos c1] at he; simp at he
  · rw [if_neg c1] at he
    by_cases c2 : mapGet ops (str "-file") ≠ [] ∧ mapGet ops (str "-path") ≠ []
    · rw [if_pos c2] at he; simp at he
    · rw [if_neg c2] at he
      by_cases c3 : 1 < specCount ops
      · rw [if_pos c3] at he; simp at he
      · rw [assemble_ok ops c1 c2 c3] at h
        exact ⟨c1, c2, c3, h⟩

/-- The filename promotion, on the bucket map. -/
theorem assemble_promotion (ops : Ops) (out : Query) (h : assemble ops = (out, none)) :
    ((chosenLine ops = [] ∧ resolvedFile ops ≠ []) →
        out.Line = resolvedFile ops ∧ out.File = [] ∧ out.FilenameOnly = true) ∧
    (¬ (chosenLine ops = [] ∧ resolvedFile ops ≠ []) →
        out.Line = chosenLine ops ∧ out.File = resolvedFile ops ∧ out.FilenameOnly = false) := by
  obtain ⟨_, _, _, h⟩ := assemble_none ops out h
  have hf := setMaxMatches_fst ops (setFoldCase ops (promote (beforePromotion ops)))
  have hg := setFoldCase_fields ops (promote (beforePromotion ops))
  rw [h] at hf
  simp only at hf
  rw [hf.1, hf.2.1, hf.2.2.1, hg.1, hg.2.1, hg.2.2.1]
  unfold promote beforePromotion
  constructor
  · intro hp
    rw [if_pos hp]
    exact ⟨rfl, rfl, rfl⟩
  · intro hp
    rw [if_neg hp]
    exact ⟨rfl, rfl, rfl⟩

/-- The case folding, on the bucket map. -/
theorem assemble_foldCase (ops : Ops) (out : Query) (h : assemble ops = (out, none)) :
    out.FoldCase =
      if mapHas ops (str "case") = true ∨ mapHas ops (str "lit") = true then false
      else (IndexAny out.Line (str "ABCDEFGHIJKLMNOPQRSTUVWXYZ") == -1) := by
  obtain ⟨_, _, _, h⟩ := assemble_none ops out h
  have hf := setMaxMatches_fst ops (setFoldCase ops (promote (beforePromotion ops)))
  have hg := setFoldCase_fields ops (promote (beforePromotion ops))
  rw [h] at hf
  simp only at hf
  rw [hf.2.2.2.1, hf.2.1, hg.2.1, setFoldCase_FoldCase]

/-- The match limit, on the bucket map. -/
theorem assemble_maxMatches (ops : Ops) (out : Query) (h : assemble ops = (out, none)) :
    out.MaxMatches =
      if mapHas ops (str "max_matches") = true ∧ mapGet ops (str "max_matches") ≠ [] then
        int32 ((Atoi (mapGet ops (str "max_matches"))).getD 0)
      else 0 := by
  obtain ⟨_, _, _, h⟩ := assemble_none ops out h
  have hm := setMaxMatches_MaxMatches ops (setFoldCase ops (promote (beforePromotion ops)))
    (by rw [h])
  rw [h] at hm
  exact hm

/-! ## Valid Unicode text -/

theorem utf8_append (a b : List Char) : utf8 (a ++ b) = utf8 a ++ utf8 b := by
  induction a with
  | nil => rfl
  | cons c t ih => simp [utf8, ih]

theorem utf8_cons (c : Char) (t : List Char) : utf8 (c :: t) = EncodeRune c.toNat ++ utf8 t := rfl

theorem utf8_nil : utf8 [] = [] := rfl

theorem encode_ne_nil (r : Nat) : EncodeRune r ≠ [] := by
  unfold EncodeRune
  repeat' split
  all_goals simp

theorem encode_length_pos (r : Nat) : 1 ≤ (EncodeRune r).length := by
  have := encode_ne_nil r
  cases h : EncodeRune r with
  | nil => exact absurd h this
  | cons b t => simp

theorem encode_ascii (r : Nat) (h : r < 128) : EncodeRune r = [r] := by
  simp [EncodeRune, RuneSelf, h]

theorem encode_high (r : Nat) (h : 128 ≤ r) : ∀ b ∈ EncodeRune r, 128 ≤ b := by
  unfold EncodeRune RuneSelf
  have h1 : ¬ r < 128 := by omega
  rw [if_neg h1]
  repeat' split
  all_goals
    intro b hb
    simp only [List.mem_cons, List.mem_singleton, List.not_mem_nil, or_false] at hb
    omega

/-- An ASCII byte of valid Unicode text is a character of the text. -/
theorem mem_utf8_ascii (cs : List Char) (b : Nat) (hb : b ∈ utf8 cs) (h : b < 128) :
    ∃ c ∈ cs, c.toNat = b := by
  induction cs with
  | nil => simp [utf8] at hb
  | cons c t ih =>
    rw [utf8_cons, List.mem_append] at hb
    rcases hb with hb | hb
    · by_cases hc : c.toNat < 128
      · rw [encode_ascii _ hc] at hb
        simp only [List.mem_singleton] at hb
        exact ⟨c, List.mem_cons_self _ _, hb.symm⟩
      · have := encode_high c.toNat (by omega) b hb
        omega
    · obtain ⟨c', hc', e⟩ := ih hb
      exact ⟨c', List.mem_cons_of_mem _ hc', e⟩

theorem utf8_eq_nil (cs : List Char) : utf8 cs = [] ↔ cs = [] := by
  cases cs with
  | nil => simp [utf8]
  | cons c t =>
    simp only [utf8_cons, List.append_eq_nil, reduceCtorEq, iff_false, not_and]
    intro h
    exact absurd h (encode_ne_nil _)

theorem decode_utf8_cons (c : Char) (t : List Char) (rest : GoString) :
    DecodeRuneInString (utf8 (c :: t) ++ rest) = (c.toNat, (EncodeRune c.toNat).length) := by
  rw [utf8_cons, List.append_assoc]
  exact decode_encode c.toNat (validRune_of_char c) _

/-- The runes of valid Unicode text are its characters. -/
theorem runesAux_utf8 (cs : List Char) : ∀ fuel, (utf8 cs).length ≤ fuel →
    runesAux fuel (utf8 cs) = cs.map (fun c => (c.toNat, EncodeRune c.toNat)) := by
  induction cs with
  | nil =>
    intro fuel _
    cases fuel <;> simp [runesAux, utf8]
  | cons c t ih =>
    intro fuel hf
    have hpos := encode_length_pos c.toNat
    rw [utf8_cons, List.length_append] at hf
    cases fuel with
    | zero => omega
    | succ fuel =>
      have hd := decode_utf8_cons c t []
      simp only [List.append_nil] at hd
      have hne : utf8 (c :: t) ≠ [] := by
        intro h0; rw [utf8_eq_nil] at h0; simp at h0
      unfold runesAux
      rw [if_neg hne, hd]
      simp only [List.map_cons]
      rw [utf8_cons, List.take_left, List.drop_left, ih fuel (by omega)]

theorem runes_utf8 (cs : List Char) :
    runes (utf8 cs) = cs.map (fun c => (c.toNat, EncodeRune c.toNat)) :=
  runesAux_utf8 cs _ (Nat.le_refl _)

theorem joinRunes_map (cs : List Char) :
    joinRunes (cs.map (fun c => (c.toNat, EncodeRune c.toNat))) = utf8 cs := by
  induction cs with
  | nil => rfl
  | cons c t ih => simp [joinRunes, utf8, ih]

theorem dropSpaces_map (cs : List Char) :
    dropSpaces (cs.map (fun c => (c.toNat, EncodeRune c.toNat))) =
      (cs.dropWhile spaceChar).map (fun c => (c.toNat, EncodeRune c.toNat)) := by
  induction cs with
  | nil => rfl
  | cons c t ih =>
    simp only [List.map_cons, dropSpaces, List.dropWhile_cons, spaceChar]
    by_cases h : IsSpace c.toNat = true
    · simp [h, ih]
    · simp [h]

/-- `TrimSpace` on valid Unicode text trims its characters. -/
theorem TrimSpace_utf8 (cs : List Char) : TrimSpace (utf8 cs) = utf8 (trimChars cs) := by
  unfold TrimSpace trimChars
  rw [runes_utf8, dropSpaces_map, ← List.map_reverse, dropSpaces_map, ← List.map_reverse,
    joinRunes_map]


theorem dropWhile_self (p : Char → Bool) (l : List Char)
    (h : ∀ x, l.head? = some x → p x = false) : l.dropWhile p = l := by
  cases l with
  | nil => rfl
  | cons c t =>
    have := h c rfl
    simp [List.dropWhile_cons, this]

theorem head_dropWhile (p : Char → Bool) (l : List Char) :
    ∀ x, (l.dropWhile p).head? = some x → p x = false := by
  induction l with
  | nil => intro x h; simp at h
  | cons c t ih =>
    intro x h
    by_cases hc : p c = true
    · simp only [List.dropWhile_cons, hc, if_true] at h
      exact ih x h
    · simp only [List.dropWhile_cons, hc] at h
      simp at h
      rw [← h]; simpa using hc

/-- Text whose first and last characters are no white space is not changed by
trimming. -/
theorem trimChars_self (cs : List Char) (h0 : ∀ x, cs.head? = some x → spaceChar x = false)
    (h1 : ∀ x, cs.getLast? = some x → spaceChar x = false) : trimChars cs = cs := by
  unfold trimChars
  rw [dropWhile_self _ cs h0, dropWhile_self _ cs.reverse (by simpa using h1), List.reverse_reverse]

theorem trimChars_ends (cs : List Char) :
    (∀ x, (trimChars cs).head? = some x → spaceChar x = false) ∧
    (∀ x, (trimChars cs).getLast? = some x → spaceChar x = false) := by
  unfold trimChars
  constructor
  · intro x hx
    obtain ⟨pre, hpre⟩ := List.dropWhile_suffix spaceChar (l := (cs.dropWhile spaceChar).reverse)
    have hm : cs.dropWhile spaceChar =
        ((cs.dropWhile spaceChar).reverse.dropWhile spaceChar).reverse ++ pre.reverse := by
      have := congrArg List.reverse hpre
      simpa using this.symm
    apply head_dropWhile spaceChar cs x
    rw [hm]
    cases hT : ((cs.dropWhile spaceChar).reverse.dropWhile spaceChar).reverse with
    | nil => rw [hT] at hx; simp at hx
    | cons a b => rw [hT] at hx; simpa using hx
  · intro x hx
    rw [List.getLast?_reverse] at hx
    exact head_dropWhile spaceChar _ x hx

theorem trimChars_idem (cs : List Char) : trimChars (trimChars cs) = trimChars cs :=
  trimChars_self _ (trimChars_ends cs).1 (trimChars_ends cs).2

theorem TrimSpace_idem_utf8 (cs : List Char) :
    TrimSpace (TrimSpace (utf8 cs)) = TrimSpace (utf8 cs) := by
  rw [TrimSpace_utf8, TrimSpace_utf8, trimChars_idem]

theorem TrimSpace_self (cs : List Char) (h0 : ∀ x, cs.head? = some x → spaceChar x = false)
    (h1 : ∀ x, cs.getLast? = some x → spaceChar x = false) : TrimSpace (utf8 cs) = utf8 cs := by
  rw [TrimSpace_utf8, trimChars_self cs h0 h1]

theorem TrimSpace_nil : TrimSpace [] = [] := rfl


/-! ## Matches of `pieceRE` in texts of a given shape -/

theorem findStructural_skip (s : GoString) (h : ∀ b ∈ s, b ≠ 32 ∧ b ≠ 40 ∧ b ≠ 92) :
    ∀ (rest : GoString) (pos : Nat),
      findStructural (s ++ rest) pos = findStructural rest (pos + s.length) := by
  induction s with
  | nil => intro rest pos; rfl
  | cons b t ih =>
    intro rest pos
    have hb := h b (List.mem_cons_self _ _)
    have ht : ∀ b ∈ t, b ≠ 32 ∧ b ≠ 40 ∧ b ≠ 92 := fun x hx => h x (List.mem_cons_of_mem _ hx)
    simp only [List.cons_append]
    have e0 : findStructural (b :: (t ++ rest)) pos = findStructural (t ++ rest) (pos + 1) := by
      simp [findStructural, hb.1, hb.2.1, hb.2.2]
    rw [e0, ih ht rest (pos + 1)]
    have e : pos + 1 + t.length = pos + (b :: t).length := by
      simp only [List.length_cons]; omega
    rw [e]

theorem findStructural_nil (pos : Nat) : findStructural [] pos = none := rfl

theorem findStructural_space (rest : GoString) (pos : Nat) :
    findStructural (32 :: rest) pos = some ⟨pos, pos + 1, -1, -1⟩ := by
  simp [findStructural]

theorem findStructural_paren (rest : GoString) (pos : Nat) :
    findStructural (40 :: rest) pos = some ⟨pos, pos + 1, -1, -1⟩ := by
  simp [findStructural]

/-- The tag alternative does not match when the first byte outside the class
is no colon. -/
theorem find_noTag (q : GoString) (h : (q.dropWhile isTagByte).head? ≠ some 58) :
    FindStringSubmatchIndex q = findStructural q 0 := by
  unfold FindStringSubmatchIndex
  rw [get?_takeWhile_length]
  rw [if_neg (fun hc => h hc.2)]

theorem head_dropWhile_append (s rest : GoString) (x : Nat)
    (h : ((s ++ rest).dropWhile isTagByte).head? = some x) :
    x ∈ s ∨ (rest.dropWhile isTagByte).head? = some x := by
  induction s with
  | nil => right; simpa using h
  | cons b t ih =>
    simp only [List.cons_append, List.dropWhile_cons] at h
    by_cases hb : isTagByte b = true
    · simp only [hb, if_true] at h
      rcases ih h with h' | h'
      · left; exact List.mem_cons_of_mem _ h'
      · right; exact h'
    · simp only [hb] at h
      simp at h
      left; rw [← h]; exact List.mem_cons_self _ _

theorem find_plain (s : GoString) (hs : Plain s) : FindStringSubmatchIndex s = none := by
  rw [find_noTag]
  · have := findStructural_skip s (fun b hb => ⟨(hs b hb).1, (hs b hb).2.1, (hs b hb).2.2.1⟩) [] 0
    simp only [List.append_nil] at this
    rw [this]; rfl
  · intro h
    have := head_dropWhile_append s [] 58 (by simpa using h)
    rcases this with h' | h'
    · exact (hs 58 h').2.2.2 rfl
    · simp at h'

theorem find_plain_space (s rest : GoString) (hs : Plain s) :
    FindStringSubmatchIndex (s ++ 32 :: rest) = some ⟨s.length, s.length + 1, -1, -1⟩ := by
  rw [find_noTag]
  · rw [findStructural_skip s (fun b hb => ⟨(hs b hb).1, (hs b hb).2.1, (hs b hb).2.2.1⟩),
      findStructural_space]
    simp
  · intro h
    rcases head_dropWhile_append s (32 :: rest) 58 h with h' | h'
    · exact (hs 58 h').2.2.2 rfl
    · simp [List.dropWhile_cons, isTagByte] at h'

theorem find_plain_paren (s rest : GoString) (hs : Plain s) :
    FindStringSubmatchIndex (s ++ 40 :: rest) = some ⟨s.length, s.length + 1, -1, -1⟩ := by
  rw [find_noTag]
  · rw [findStructural_skip s (fun b hb => ⟨(hs b hb).1, (hs b hb).2.1, (hs b hb).2.2.1⟩),
      findStructural_paren]
    simp
  · intro h
    rcases head_dropWhile_append s (40 :: rest) 58 h with h' | h'
    · exact (hs 58 h').2.2.2 rfl
    · simp [List.dropWhile_cons, isTagByte] at h'

theorem takeWhile_tag (k rest : GoString) (hk : ∀ b ∈ k, isTagByte b = true) :
    (k ++ 58 :: rest).takeWhile isTagByte = k := by
  induction k with
  | nil => simp [List.takeWhile_cons, isTagByte]
  | cons b t ih =>
    have hb := hk b (List.mem_cons_self _ _)
    simp only [List.cons_append, List.takeWhile_cons, hb, if_true]
    rw [ih (fun x hx => hk x (List.mem_cons_of_mem _ hx))]

theorem find_tag (k rest : GoString) (hne : k ≠ []) (hk : ∀ b ∈ k, isTagByte b = true) :
    FindStringSubmatchIndex (k ++ 58 :: rest) = some ⟨0, k.length + 1, 0, k.length⟩ := by
  unfold FindStringSubmatchIndex
  rw [takeWhile_tag k rest hk]
  have h1 : 1 ≤ k.length := by
    cases k with
    | nil => exact absurd rfl hne
    | cons b t => simp
  have h2 : (k ++ 58 :: rest).get? k.length = some 58 := by
    rw [List.get?_eq_getElem?, List.getElem?_append_right (Nat.le_refl _)]
    simp
  rw [if_pos ⟨h1, h2⟩]


/-! ## Iterations of the scanning loop on texts of a given shape -/

theorem scanBody_plain (ops : Ops) (key s : GoString) (hs : Plain s) :
    scanBody ops key s = .ok (.done (mapAdd ops key s)) := by
  unfold scanBody
  rw [find_plain s hs]

theorem slices_at (s : GoString) (b : Nat) (rest : GoString) :
    slice (s ++ b :: rest) 0 (s.length : Int) = .ok s ∧
    slice (s ++ b :: rest) (s.length : Int) ((s.length : Int) + 1) = .ok [b] ∧
    slice (s ++ b :: rest) ((s.length : Int) + 1) ((s ++ b :: rest).length : Int) = .ok rest := by
  have e : s ++ b :: rest = s ++ [b] ++ rest := by simp
  rw [e]
  refine ⟨slice_pre s [b] rest, ?_, ?_⟩
  · have := slice_mid s [b] rest
    simpa using this
  · have := slice_rest s [b] rest
    simpa using this

theorem scanBody_space (ops : Ops) (key s rest : GoString) (hs : Plain s) :
    scanBody ops key (s ++ 32 :: rest) =
      if key = [] then .ok (.next (mapAdd (mapAdd ops key s) key [32]) key rest)
      else .ok (.next (mapAdd ops key s) [] rest) := by
  obtain ⟨e0, e1, e2⟩ := slices_at s 32 rest
  unfold scanBody
  rw [find_plain_space s rest hs]
  simp only [Nat.cast_add, Nat.cast_one, e0, e1, e2, if_true]

theorem scanBody_paren (ops : Ops) (key s rest : GoString) (hs : Plain s) (j : Nat)
    (w : GoString) (hj : j ≤ rest.length)
    (hg : groupLoop rest (rest.length + 1) 1 0 false [] = .ok ((j : Int), w)) :
    scanBody ops key (s ++ 40 :: rest) =
      .ok (.next (mapAdd (mapAdd ops key s) key (40 :: w)) key (rest.drop j)) := by
  obtain ⟨e0, e1, e2⟩ := slices_at s 40 rest
  unfold scanBody
  rw [find_plain_paren s rest hs]
  have h32 : ¬ ([40] : GoString) = [32] := by decide
  simp only [Nat.cast_add, Nat.cast_one, e0, e1, e2, h32, if_false, if_true, hg,
    slice_drop rest j hj, List.singleton_append]

theorem scanBody_tag (ops : Ops) (key k rest : GoString) (hne : k ≠ [])
    (hk : ∀ b ∈ k, isTagByte b = true) :
    scanBody ops key (k ++ 58 :: rest) =
      if key = [] ∧ knownTags k = true then .ok (.next (mapAdd ops key []) k rest)
      else .ok (.next (mapAdd (mapAdd ops key []) key (k ++ [58])) key rest) := by
  have e : k ++ 58 :: rest = [] ++ (k ++ [58]) ++ rest := by simp
  have e0 : slice (k ++ 58 :: rest) 0 0 = .ok [] := by
    have := slice_pre [] (k ++ [58]) rest
    rw [e]; simpa using this
  have e1 : slice (k ++ 58 :: rest) 0 ((k.length : Int) + 1) = .ok (k ++ [58]) := by
    have := slice_mid [] (k ++ [58]) rest
    rw [e]; simpa using this
  have e2 : slice (k ++ 58 :: rest) ((k.length : Int) + 1) ((k ++ 58 :: rest).length : Int) =
      .ok rest := by
    have := slice_rest [] (k ++ [58]) rest
    rw [e]; simpa using this
  have e3 : slice (k ++ [58]) 0 (k.length : Int) = .ok k := by
    have := slice_pre k [58] []
    simpa using this
  obtain ⟨b, t, rfl⟩ : ∃ b t, k = b :: t := by
    cases k with
    | nil => exact absurd rfl hne
    | cons b t => exact ⟨b, t, rfl⟩
  have hb : isTagByte b = true := hk b (List.mem_cons_self _ _)
  have hb92 : b ≠ 92 := by
    intro h; rw [h] at hb; simp [isTagByte] at hb
  have hb32 : b ≠ 32 := by
    intro h; rw [h] at hb; simp [isTagByte] at hb
  have hb40 : b ≠ 40 := by
    intro h; rw [h] at hb; simp [isTagByte] at hb
  have h32 : ¬ (b :: t ++ [58] : GoString) = [32] := by
    intro h; simp at h
  have h40 : ¬ (b :: t ++ [58] : GoString) = [40] := by
    intro h; simp at h
  unfold scanBody
  rw [find_tag (b :: t) rest hne hk]
  simp only [Nat.cast_add, Nat.cast_one, Nat.cast_zero, e0, e1, e2]
  rw [if_neg h32, if_neg h40]
  simp only [sub_zero, e3]
  have hbyte : byteAt (b :: t ++ [58]) 0 = .ok b := by
    rw [List.cons_append]; exact byteAt_cons b (t ++ [58])
  simp only [hbyte, hb92, if_false]


theorem plain_utf8 (cs : List Char) (h : ∀ c ∈ cs, plainChar c = true) : Plain (utf8 cs) := by
  intro b hb
  by_cases hlt : b < 128
  · obtain ⟨c, hc, e⟩ := mem_utf8_ascii cs b hb hlt
    have hp := h c hc
    simp only [plainChar, Bool.and_eq_true, Bool.not_eq_true', bne_iff_ne, ne_eq] at hp
    rw [e] at hp
    have hsp : b ≠ 32 := by
      intro h32; rw [h32] at hp; simp [IsSpace] at hp
    exact ⟨hsp, hp.1.1.1.2, hp.1.2, hp.2⟩
  · exact ⟨by omega, by omega, by omega, by omega⟩

theorem plainChar_not_space (c : Char) (h : plainChar c = true) : spaceChar c = false := by
  simp only [plainChar, Bool.and_eq_true, Bool.not_eq_true'] at h
  exact h.1.1.1.1

theorem str_file : str "file" = [102, 105, 108, 101] := by decide
theorem str_nfile : str "-file" = [45, 102, 105, 108, 101] := by decide
theorem str_path : str "path" = [112, 97, 116, 104] := by decide
theorem str_npath : str "-path" = [45, 112, 97, 116, 104] := by decide
theorem str_repo : str "repo" = [114, 101, 112, 111] := by decide
theorem str_nrepo : str "-repo" = [45, 114, 101, 112, 111] := by decide
theorem str_tags : str "tags" = [116, 97, 103, 115] := by decide
theorem str_ntags : str "-tags" = [45, 116, 97, 103, 115] := by decide
theorem str_case : str "case" = [99, 97, 115, 101] := by decide
theorem str_lit : str "lit" = [108, 105, 116] := by decide
theorem str_mm : str "max_matches" = [109, 97, 120, 95, 109, 97, 116, 99, 104, 101, 115] := by
  decide

theorem knownTags_tagBytes (k : GoString) (h : knownTags k = true) :
    k ≠ [] ∧ ∀ b ∈ k, isTagByte b = true := by
  simp only [knownTags, Bool.or_eq_true, decide_eq_true_eq] at h
  rcases h with ((((((((((h | h) | h) | h) | h) | h) | h) | h) | h) | h) | h) <;>
    (rw [h]; decide)

/-- The scan of `file:a path:b`. -/
theorem scan_file_path (a b : List Char) (ha : ∀ c ∈ a, plainChar c = true)
    (hb : ∀ c ∈ b, plainChar c = true) :
    scanFrom mapEmpty [] (str "file:" ++ utf8 a ++ str " path:" ++ utf8 b) =
      .ok (mapAdd (mapAdd (mapAdd (mapAdd mapEmpty [] []) (str "file") (utf8 a)) [] [])
        (str "path") (utf8 b)) := by
  have e : str "file:" ++ utf8 a ++ str " path:" ++ utf8 b =
      str "file" ++ 58 :: (utf8 a ++ 32 :: (str "path" ++ 58 :: utf8 b)) := by
    have e1 : str "file:" = str "file" ++ [58] := by decide
    have e2 : str " path:" = 32 :: (str "path" ++ [58]) := by decide
    rw [e1, e2]; simp
  have k1 := knownTags_tagBytes (str "file") (by decide)
  have k2 := knownTags_tagBytes (str "path") (by decide)
  have hf : str "file" ≠ [] := k1.1
  rw [e, scanFrom_next _ _ _ _ _ _ (by
    rw [scanBody_tag _ _ _ _ k1.1 k1.2, if_pos ⟨rfl, by decide⟩])]
  rw [scanFrom_next _ _ _ _ _ _ (by
    rw [scanBody_space _ _ _ _ (plain_utf8 a ha), if_neg hf])]
  rw [scanFrom_next _ _ _ _ _ _ (by
    rw [scanBody_tag _ _ _ _ k2.1 k2.2, if_pos ⟨rfl, by decide⟩])]
  exact scanFrom_done _ _ _ _ (scanBody_plain _ _ _ (plain_utf8 b hb))



theorem getLast?_append_ne (l b : List Char) (hb : b ≠ []) : (l ++ b).getLast? = b.getLast? := by
  cases hb' : b.getLast? with
  | none => simp [List.getLast?_eq_none_iff] at hb'; exact absurd hb' hb
  | some x => simp [List.getLast?_append, hb']

theorem getLast?_plain (b : List Char) (hb : ∀ c ∈ b, plainChar c = true) :
    ∀ x, b.getLast? = some x → spaceChar x = false := by
  intro x hx
  exact plainChar_not_space x (hb x (List.mem_of_getLast?_eq_some hx))

theorem head?_plain (b : List Char) (hb : ∀ c ∈ b, plainChar c = true) :
    ∀ x, b.head? = some x → spaceChar x = false := by
  intro x hx
  exact plainChar_not_space x (hb x (List.mem_of_mem_head? hx))

theorem mapGet_ne_nil_has (ops : Ops) (k : GoString) (h : mapGet ops k ≠ []) :
    mapHas ops k = true := by
  cases hh : mapHas ops k with
  | true => rfl
  | false => exact absurd (mapGet_of_not_has ops k hh) h

/-- The query `file:a path:b` is not changed by trimming. -/
theorem trim_file_path (a b : List Char) (hne : b ≠ []) (hb : ∀ c ∈ b, plainChar c = true) :
    TrimSpace (str "file:" ++ utf8 a ++ str " path:" ++ utf8 b) =
      str "file:" ++ utf8 a ++ str " path:" ++ utf8 b := by
  have e : str "file:" ++ utf8 a ++ str " path:" ++ utf8 b =
      utf8 ("file:".toList ++ a ++ " path:".toList ++ b) := by
    simp only [utf8_append]; rfl
  rw [e]
  apply TrimSpace_self
  · intro x hx
    have : x = 'f' := by
      simp only [List.append_assoc] at hx
      have h0 : "file:".toList = 'f' :: "ile:".toList := rfl
      rw [h0] at hx
      simpa using hx.symm
    rw [this]; decide
  · rw [getLast?_append_ne _ b hne]
    exact getLast?_plain b hb


/-! ## Integer literals -/

theorem isIntLiteral_eq (s : GoString) :
    isIntLiteral s = (!(splitSign s).2.isEmpty && (splitSign s).2.all isDigit) := by
  unfold isIntLiteral splitSign
  split <;> rfl

theorem Atoi_none_of_not_literal (s : GoString) (h : isIntLiteral s = false) : Atoi s = none := by
  rw [isIntLiteral_eq] at h
  unfold Atoi
  simp only
  have : (splitSign s).2 = [] ∨ (splitSign s).2.all isDigit = false := by
    cases hd : (splitSign s).2 with
    | nil => left; rfl
    | cons x t =>
      right
      rw [hd] at h
      simpa using h
  rw [if_pos this]



theorem chosenLine_eq (ops : Ops) :
    chosenLine ops =
      if TrimSpace (mapGet ops []) ≠ [] then TrimSpace (mapGet ops [])
      else if TrimSpace (mapGet ops (str "case")) ≠ [] then TrimSpace (mapGet ops (str "case"))
      else QuoteMeta (TrimSpace (mapGet ops (str "lit"))) := by
  have e1 : ([] : GoString) ≠ str "lit" := by decide
  have e2 : str "case" ≠ str "lit" := by decide
  unfold chosenLine bitsOf
  simp only [collectBits, e1, e2, if_false, if_true, List.length_eq_zero, ne_eq, QuoteMeta_eq_nil]
  by_cases h1 : TrimSpace (mapGet ops []) = []
  · by_cases h2 : TrimSpace (mapGet ops (str "case")) = []
    · by_cases h3 : TrimSpace (mapGet ops (str "lit")) = []
      · simp [h1, h2, h3, QuoteMeta]
      · simp [h1, h2, h3]
    · simp [h1, h2]
  · simp [h1]

theorem resolvedFile_eq (ops : Ops) :
    resolvedFile ops =
      if mapGet ops (str "file") ≠ [] ∧ mapGet ops (str "path") ≠ [] then []
      else if mapGet ops (str "file") ≠ [] then mapGet ops (str "file")
      else mapGet ops (str "path") := by
  unfold resolvedFile onlyOneSynonym
  split
  · rfl
  · split <;> rfl

theorem notFile_eq (ops : Ops) :
    (onlyOneSynonym ops (str "-file") (str "-path")).1 =
      if mapGet ops (str "-file") ≠ [] ∧ mapGet ops (str "-path") ≠ [] then []
      else if mapGet ops (str "-file") ≠ [] then mapGet ops (str "-file")
      else mapGet ops (str "-path") := by
  unfold onlyOneSynonym
  split
  · rfl
  · split <;> rfl

/-- The result of the assembly when no rule is violated and the `max_matches`
bucket is absent or empty. -/
theorem assemble_plain (ops : Ops)
    (c1 : ¬ (mapGet ops (str "file") ≠ [] ∧ mapGet ops (str "path") ≠ []))
    (c2 : ¬ (mapGet ops (str "-file") ≠ [] ∧ mapGet ops (str "-path") ≠ []))
    (c3 : specCount ops ≤ 1)
    (c4 : ¬ (mapHas ops (str "max_matches") = true ∧ mapGet ops (str "max_matches") ≠ [])) :
    assemble ops =
      ({ setFoldCase ops (promote (beforePromotion ops)) with MaxMatches := 0 }, none) := by
  rw [assemble_ok ops c1 c2 (by omega)]
  unfold setMaxMatches
  rw [if_neg c4]

/-- The result of the assembly when no rule is violated and the `max_matches`
bucket holds an integer. -/
theorem assemble_limit (ops : Ops) (i : Int)
    (c1 : ¬ (mapGet ops (str "file") ≠ [] ∧ mapGet ops (str "path") ≠ []))
    (c2 : ¬ (mapGet ops (str "-file") ≠ [] ∧ mapGet ops (str "-path") ≠ []))
    (c3 : specCount ops ≤ 1)
    (c4 : mapGet ops (str "max_matches") ≠ [])
    (c5 : Atoi (mapGet ops (str "max_matches")) = some i) :
    assemble ops =
      ({ setFoldCase ops (promote (beforePromotion ops)) with MaxMatches := int32 i }, none) := by
  rw [assemble_ok ops c1 c2 (by omega)]
  unfold setMaxMatches
  rw [if_pos ⟨mapGet_ne_nil_has _ _ c4, c4⟩, c5]


theorem utf8_digits (d : List Char) (h : ∀ c ∈ d, digitChar c = true) :
    utf8 d = d.map Char.toNat := by
  induction d with
  | nil => rfl
  | cons c t ih =>
    have hc := h c (List.mem_cons_self _ _)
    simp only [digitChar, isDigit, Bool.and_eq_true, decide_eq_true_eq] at hc
    rw [utf8_cons, encode_ascii _ (by omega), ih (fun x hx => h x (List.mem_cons_of_mem _ hx))]
    rfl

theorem digitsVal_cons (acc b : Nat) (t : GoString) :
    digitsVal acc (b :: t) = digitsVal (acc * 10 + (b - 48)) t := rfl

theorem digitsVal_map (d : List Char) : ∀ acc,
    digitsVal acc (d.map Char.toNat) = d.foldl (fun a c => a * 10 + (c.toNat - 48)) acc := by
  induction d with
  | nil => intro acc; rfl
  | cons c t ih =>
    intro acc
    rw [List.map_cons, digitsVal_cons, List.foldl_cons]
    exact ih _

theorem digit_plain (c : Char) (h : digitChar c = true) : plainChar c = true := by
  simp only [digitChar, isDigit, Bool.and_eq_true, decide_eq_true_eq] at h
  simp only [plainChar, IsSpace, Bool.and_eq_true, Bool.not_eq_true', bne_iff_ne, ne_eq,
    Bool.or_eq_false_iff, Bool.and_eq_false_imp, decide_eq_true_eq, decide_eq_false_iff_not]
  omega

theorem Atoi_digits (d : List Char) (hne : d ≠ []) (h : ∀ c ∈ d, digitChar c = true)
    (hv : decimalValue d ≤ 9223372036854775807) :
    Atoi (utf8 d) = some (decimalValue d : Int) := by
  obtain ⟨c, t, rfl⟩ : ∃ c t, d = c :: t := by
    cases d with
    | nil => exact absurd rfl hne
    | cons c t => exact ⟨c, t, rfl⟩
  have hc := h c (List.mem_cons_self _ _)
  simp only [digitChar, isDigit, Bool.and_eq_true, decide_eq_true_eq] at hc
  have hs : splitSign (utf8 (c :: t)) = (false, utf8 (c :: t)) := by
    rw [utf8_digits _ h]
    simp only [List.map_cons]
    unfold splitSign
    split
    · rename_i heq; simp at heq; omega
    · rename_i heq; simp at heq; omega
    · rfl
  have hall : (utf8 (c :: t)).all isDigit = true := by
    rw [utf8_digits _ h]
    simp only [List.all_eq_true, List.mem_map]
    rintro b ⟨x, hx, rfl⟩
    exact h x hx
  have hval : digitsVal 0 (utf8 (c :: t)) = decimalValue (c :: t) := by
    rw [utf8_digits _ h, digitsVal_map]; rfl
  have hnn : utf8 (c :: t) ≠ [] := by rw [ne_eq, utf8_eq_nil]; simp
  unfold Atoi
  simp only [hs, hval, Bool.false_eq_true, if_false]
  rw [if_neg (by simp [hnn, hall]), if_neg (by omega)]

/-- The scan of an operator of the Known-Tag Set with a plain value. -/
theorem scan_tag_value (k v : GoString) (hk : knownTags k = true) (hv : Plain v) :
    scanFrom mapEmpty [] (k ++ 58 :: v) = .ok (mapAdd (mapAdd mapEmpty [] []) k v) := by
  have k1 := knownTags_tagBytes k hk
  rw [scanFrom_next _ _ _ _ _ _ (by
    rw [scanBody_tag _ _ _ _ k1.1 k1.2, if_pos ⟨rfl, hk⟩])]
  exact scanFrom_done _ _ _ _ (scanBody_plain _ _ _ hv)

theorem scanOps_of (query : GoString) (ops : Ops) (ht : TrimSpace query = query)
    (h : scanFrom mapEmpty [] query = .ok ops) : scanOps query = ops := by
  unfold scanOps
  rw [scan_eq, ht, h]

theorem ParseQuery_of (query : GoString) (ops : Ops) (ht : TrimSpace query = query)
    (h : scanFrom mapEmpty [] query = .ok ops) : ParseQuery query = .ok (assemble ops) := by
  rw [ParseQuery_ok, scanOps_of query ops ht h]

/-- Text that starts with an ASCII letter and ends with a plain character is
not changed by trimming. -/
theorem trim_wrap (pre v : List Char) (c0 : Char) (h0 : (pre ++ v).head? = some c0)
    (hc0 : spaceChar c0 = false) (hne : v ≠ []) (hv : ∀ c ∈ v, plainChar c = true) :
    TrimSpace (utf8 (pre ++ v)) = utf8 (pre ++ v) := by
  apply TrimSpace_self
  · intro x hx
    rw [h0] at hx
    simp only [Option.some.injEq] at hx
    rw [← hx]; exact hc0
  · rw [getLast?_append_ne _ v hne]
    exact getLast?_plain v hv



/-! ## The group loop on valid Unicode text -/

theorem char_toNat_eq (c d : Char) : c.toNat = d.toNat ↔ c = d := by
  constructor
  · intro h
    apply Char.ext
    apply UInt32.ext
    exact h
  · intro h; rw [h]

theorem groupSwitch_char (p : Int) (esc : Bool) (c : Char) :
    groupSwitch esc c.toNat p = depthStep p esc c := by
  have h92 : (c.toNat = 92) ↔ c = '\\' := char_toNat_eq c '\\'
  have h40 : (c.toNat = 40) ↔ c = '(' := char_toNat_eq c '('
  have h41 : (c.toNat = 41) ↔ c = ')' := char_toNat_eq c ')'
  unfold groupSwitch depthStep
  cases esc with
  | true => simp
  | false => simp only [Bool.false_eq_true, if_false, h92, h40, h41]

theorem groupLoop_utf8 (cs : List Char) : ∀ (pre : GoString) (fuel : Nat) (p : Int) (esc : Bool)
    (w : GoString), (utf8 cs).length < fuel →
    groupLoop (pre ++ utf8 cs) fuel p (pre.length : Int) esc w =
      .ok (((pre.length + (utf8 (cs.take (groupSpan cs p esc))).length : Nat) : Int),
        w ++ utf8 (cs.take (groupSpan cs p esc))) := by
  induction cs with
  | nil =>
    intro pre fuel p esc w hf
    cases fuel with
    | zero => simp at hf
    | succ fuel =>
      unfold groupLoop
      simp [utf8, groupSpan]
  | cons c t ih =>
    intro pre fuel p esc w hf
    cases fuel with
    | zero => simp at hf
    | succ fuel =>
      have hpos := encode_length_pos c.toNat
      have hlen : (utf8 (c :: t)).length = (EncodeRune c.toNat).length + (utf8 t).length := by
        rw [utf8_cons, List.length_append]
      have hlt : ((pre.length : Nat) : Int) < ((pre ++ utf8 (c :: t)).length : Nat) := by
        rw [List.length_append, hlen]; omega
      have hsl : slice (pre ++ utf8 (c :: t)) (pre.length : Int)
          ((pre ++ utf8 (c :: t)).length : Int) = .ok (utf8 (c :: t)) := slice_from pre _
      have hd : DecodeRuneInString (utf8 (c :: t)) = (c.toNat, (EncodeRune c.toNat).length) := by
        have := decode_utf8_cons c t []
        simpa using this
      unfold groupLoop
      rw [if_pos hlt, hsl]
      simp only [hd, groupSwitch_char]
      by_cases h0 : (depthStep p esc c).1 = 0
      · rw [if_pos h0]
        simp [groupSpan, h0, utf8, WriteRune]
      · rw [if_neg h0]
        have e1 : pre ++ utf8 (c :: t) = (pre ++ EncodeRune c.toNat) ++ utf8 t := by
          rw [utf8_cons, List.append_assoc]
        have e2 : ((pre.length : Nat) : Int) + ((EncodeRune c.toNat).length : Nat) =
            (((pre ++ EncodeRune c.toNat).length : Nat) : Int) := by
          rw [List.length_append, Nat.cast_add]
        rw [e1, e2, ih (pre ++ EncodeRune c.toNat) fuel _ _ _ (by omega)]
        simp [groupSpan, h0, utf8, WriteRune, Nat.add_comm 1, Nat.add_assoc]

theorem groupSpan_closes (cs : List Char) : ∀ (p : Int) (esc : Bool),
    closesAtEnd cs p esc = true → groupSpan cs p esc = cs.length := by
  induction cs with
  | nil => intro p esc h; simp [closesAtEnd] at h
  | cons c t ih =>
    intro p esc h
    unfold closesAtEnd at h
    unfold groupSpan
    by_cases h0 : (depthStep p esc c).1 = 0
    · rw [if_pos h0] at h
      rw [if_pos h0]
      simp only [List.isEmpty_eq_true] at h
      rw [h]; rfl
    · rw [if_neg h0] at h
      rw [if_neg h0, ih _ _ h, List.length_cons]; omega

theorem groupSpan_never (cs : List Char) : ∀ (p : Int) (esc : Bool),
    neverCloses cs p esc = true → groupSpan cs p esc = cs.length := by
  induction cs with
  | nil => intro p esc _; rfl
  | cons c t ih =>
    intro p esc h
    unfold neverCloses at h
    unfold groupSpan
    by_cases h0 : (depthStep p esc c).1 = 0
    · rw [if_pos h0] at h; simp at h
    · rw [if_neg h0] at h
      rw [if_neg h0, ih _ _ h, List.length_cons]; omega

theorem depthStep_ge (p : Int) (esc : Bool) (c : Char) : p - 1 ≤ (depthStep p esc c).1 := by
  unfold depthStep
  repeat' split
  all_goals simp only
  all_goals omega

theorem depthStep_zero (p : Int) (esc : Bool) (c : Char) (hp : 1 ≤ p)
    (h : (depthStep p esc c).1 = 0) : c = ')' := by
  unfold depthStep at h
  split at h
  · simp at h; omega
  · split at h
    · simp at h; omega
    · split at h
      · simp at h; omega
      · split at h
        · assumption
        · simp at h; omega

/-- A group that closes at its last character ends with a closing
parenthesis. -/
theorem closesAtEnd_last (cs : List Char) : ∀ (p : Int) (esc : Bool), 1 ≤ p →
    closesAtEnd cs p esc = true → cs.getLast? = some ')' := by
  induction cs with
  | nil => intro p esc _ h; simp [closesAtEnd] at h
  | cons c t ih =>
    intro p esc hp h
    unfold closesAtEnd at h
    by_cases h0 : (depthStep p esc c).1 = 0
    · rw [if_pos h0] at h
      simp only [List.isEmpty_eq_true] at h
      rw [h, depthStep_zero p esc c hp h0]; rfl
    · rw [if_neg h0] at h
      have hge := depthStep_ge p esc c
      have := ih _ _ (by omega) h
      cases t with
      | nil => simp [closesAtEnd] at h
      | cons x t' => rw [List.getLast?_cons_cons]; exact this


theorem utf8_take_drop (cs : List Char) (n : Nat) :
    utf8 cs = utf8 (cs.take n) ++ utf8 (cs.drop n) := by
  rw [← utf8_append, List.take_append_drop]

/-- An iteration of the scanning loop that reads a group of valid Unicode
text. -/
theorem scanBody_group (ops : Ops) (key s : GoString) (cs : List Char) (hs : Plain s) :
    scanBody ops key (s ++ 40 :: utf8 cs) =
      .ok (.next (mapAdd (mapAdd ops key s) key (40 :: utf8 (cs.take (groupSpan cs 1 false))))
        key (utf8 (cs.drop (groupSpan cs 1 false)))) := by
  have hg := groupLoop_utf8 cs [] ((utf8 cs).length + 1) 1 false [] (Nat.lt_succ_self _)
  simp only [List.nil_append, List.length_nil, Nat.cast_zero, Nat.zero_add] at hg
  have hj : (utf8 (cs.take (groupSpan cs 1 false))).length ≤ (utf8 cs).length := by
    have := congrArg List.length (utf8_take_drop cs (groupSpan cs 1 false))
    rw [List.length_append] at this
    omega
  rw [scanBody_paren ops key s (utf8 cs) hs _ _ hj hg]
  have hd : (utf8 cs).drop (utf8 (cs.take (groupSpan cs 1 false))).length =
      utf8 (cs.drop (groupSpan cs 1 false)) := by
    conv => lhs; rw [utf8_take_drop cs (groupSpan cs 1 false)]
    exact List.drop_left _ _
  rw [hd]

theorem plain_nil : Plain [] := by
  intro b hb; simp at hb

/-- The scan of a text that is one group, closed or not. -/
theorem scan_whole_group (t : List Char) (h : groupSpan t 1 false = t.length) :
    scanFrom mapEmpty [] (utf8 ('(' :: t)) =
      .ok (mapAdd (mapAdd (mapAdd mapEmpty [] []) [] (40 :: utf8 t)) [] []) := by
  have e : utf8 ('(' :: t) = [] ++ 40 :: utf8 t := rfl
  rw [e, scanFrom_next _ _ _ _ _ _ (scanBody_group mapEmpty [] [] t plain_nil)]
  rw [h, List.take_length, List.drop_length]
  exact scanFrom_done _ _ _ _ (scanBody_plain _ _ _ plain_nil)

/-- The result of `ParseQuery` on a trimmed text that is one group. -/
theorem parse_whole_group (t : List Char)
    (ht : TrimSpace (utf8 ('(' :: t)) = utf8 ('(' :: t)) :
    assemble (mapAdd (mapAdd (mapAdd mapEmpty [] []) [] (40 :: utf8 t)) [] []) =
      ({ Line := utf8 ('(' :: t),
         FoldCase := (IndexAny (utf8 ('(' :: t)) (str "ABCDEFGHIJKLMNOPQRSTUVWXYZ") == -1) },
        none) := by
  have e : utf8 ('(' :: t) = 40 :: utf8 t := rfl
  rw [e] at ht
  rw [assemble_plain _ (by simp [str_file, str_path]) (by simp [str_nfile, str_npath])
    (by simp [specCount, str_case, str_lit, TrimSpace_nil]
        split <;> omega) (by simp [str_mm])]
  simp only [setFoldCase, promote, beforePromotion, resolvedFile_eq, notFile_eq, chosenLine_eq]
  simp [str_file, str_path, str_nfile, str_npath, str_repo, str_nrepo, str_tags, str_ntags,
    str_case, str_lit, str_mm, TrimSpace_nil, QuoteMeta, ht, e]


/-- The bucket map after an iteration: the active bucket is present, and no
bucket is removed. -/
theorem scanBody_has (ops : Ops) (key q : GoString) :
    ∃ ops1, ((scanBody ops key q = .ok (.done ops1)) ∨
        ∃ key1 q1, scanBody ops key q = .ok (.next ops1 key1 q1)) ∧
      mapHas ops1 key = true ∧ ∀ j, mapHas ops j = true → mapHas ops1 j = true := by
  have hadd : ∀ (o : Ops) (x : GoString), mapHas (mapAdd o key x) key = true ∧
      ∀ j, mapHas o j = true → mapHas (mapAdd o key x) j = true := by
    intro o x
    constructor
    · simp
    · intro j hj; simp [hj]
  have hadd2 : ∀ (x y : GoString), mapHas (mapAdd (mapAdd ops key x) key y) key = true ∧
      ∀ j, mapHas ops j = true → mapHas (mapAdd (mapAdd ops key x) key y) j = true := by
    intro x y
    constructor
    · simp
    · intro j hj; simp [hj]
  unfold scanBody
  cases hf : FindStringSubmatchIndex q with
  | none => exact ⟨_, Or.inl rfl, hadd ops q⟩
  | some m =>
    obtain ⟨pre, mtch, rest, hp⟩ := find_spec q m hf
    have hq := hp.split
    have e0 : slice q 0 m.m0 = .ok pre := by rw [hp.start, hq]; exact slice_pre pre mtch rest
    have e1 : slice q m.m0 m.m1 = .ok mtch := by
      rw [hp.start, hp.stop, hq]; exact slice_mid pre mtch rest
    have e2 : slice q m.m1 q.length = .ok rest := by
      rw [hp.stop, hq]; exact slice_rest pre mtch rest
    simp only [e0, e1, e2]
    by_cases h32 : mtch = [32]
    · simp only [h32, if_true]
      split
      · exact ⟨_, Or.inr ⟨_, _, rfl⟩, hadd2 pre [32]⟩
      · exact ⟨_, Or.inr ⟨_, _, rfl⟩, hadd ops pre⟩
    · simp only [h32, if_false]
      by_cases h40 : mtch = [40]
      · simp only [h40, if_true]
        obtain ⟨j, w1, e, _, hj⟩ := groupLoop_total rest (rest.length + 1) 0 1 false []
          (Nat.zero_le _) (by omega)
        simp only [Nat.cast_zero] at e
        simp only [e, slice_drop rest j hj]
        exact ⟨_, Or.inr ⟨_, _, rfl⟩, hadd2 pre _⟩
      · simp only [h40, if_false]
        rcases hp.kind with ⟨h | h | ⟨t, _, h, _⟩, _⟩ | ⟨hpre, k, hk, h, htag, h2, h3⟩
        · exact absurd h h32
        · exact absurd h h40
        · subst h
          simp only [byteAt_cons, if_true]
          exact ⟨_, Or.inr ⟨_, _, rfl⟩, hadd2 pre _⟩
        · subst h
          obtain ⟨b, t, hbt⟩ : ∃ b t, k = b :: t := by
            cases k with
            | nil => exact absurd rfl hk
            | cons b t => exact ⟨b, t, rfl⟩
          have hb : isTagByte b = true := htag b (by rw [hbt]; simp)
          have hb92 : b ≠ 92 := by
            intro h; rw [h] at hb; simp [isTagByte] at hb
          have e3 : slice (k ++ [58]) (m.m2 - m.m0) (m.m3 - m.m0) = .ok k := by
            rw [h2, h3, hp.start, hpre]
            have := slice_pre k [58] []
            simpa using this
          simp only [e3]
          subst hbt
          simp only [List.cons_append, byteAt_cons, hb92, if_false]
          split
          · exact ⟨_, Or.inr ⟨_, _, rfl⟩, hadd ops pre⟩
          · exact ⟨_, Or.inr ⟨_, _, rfl⟩, hadd2 pre _⟩

/-- Every operator that is active in some iteration has its bucket in the map
when the loop ends. -/
theorem keyTrace_has : ∀ (fuel : Nat) (ops : Ops) (key q : GoString) (opsF : Ops),
    scanLoop fuel ops key q = .ok opsF →
    (∀ k ∈ keyTrace fuel ops key q, mapHas opsF k = true) ∧
    (∀ j, mapHas ops j = true → mapHas opsF j = true) := by
  intro fuel
  induction fuel with
  | zero => intro ops key q opsF h; simp [scanLoop] at h
  | succ fuel ih =>
    intro ops key q opsF h
    obtain ⟨ops1, hb, hkey, hmono⟩ := scanBody_has ops key q
    unfold scanLoop at h
    unfold keyTrace
    rcases hb with hb | ⟨key1, q1, hb⟩
    · rw [hb] at h
      simp only [Except.ok.injEq] at h
      subst h
      rw [hb]
      refine ⟨?_, hmono⟩
      intro k hk
      simp only [List.mem_singleton] at hk
      rw [hk]; exact hkey
    · rw [hb] at h
      simp only at h
      obtain ⟨h1, h2⟩ := ih ops1 key1 q1 opsF h
      rw [hb]
      simp only
      refine ⟨?_, fun j hj => h2 j (hmono j hj)⟩
      intro k hk
      simp only [List.mem_cons] at hk
      rcases hk with hk | hk
      · rw [hk]; exact h2 key hkey
      · exact h1 k hk

theorem keysOf_has (query k : GoString) (h : k ∈ keysOf query) :
    mapHas (scanOps query) k = true :=
  (keyTrace_has _ mapEmpty [] (TrimSpace query) (scanOps query) (scan_ok query)).1 k h


theorem trimChars_trailing_space (t : List Char) (ht : ∀ c ∈ t, plainChar c = true) :
    trimChars (t ++ [' ']) = t := by
  unfold trimChars
  cases t with
  | nil => decide
  | cons c t' =>
    have h0 : ((c :: t') ++ [' ']).dropWhile spaceChar = (c :: t') ++ [' '] := by
      apply dropWhile_self
      intro x hx
      simp only [List.cons_append, List.head?_cons, Option.some.injEq] at hx
      rw [← hx]; exact plainChar_not_space c (ht c (List.mem_cons_self _ _))
    rw [h0, List.reverse_append]
    have h1 : ([' '] : List Char).reverse ++ (c :: t').reverse = ' ' :: (c :: t').reverse := rfl
    rw [h1, List.dropWhile_cons, if_pos (by decide)]
    rw [dropWhile_self _ _ (by
      intro x hx
      rw [List.head?_reverse] at hx
      exact getLast?_plain _ ht x hx), List.reverse_reverse]

theorem TrimSpace_trailing_space (t : List Char) (ht : ∀ c ∈ t, plainChar c = true) :
    TrimSpace (utf8 t ++ [32]) = utf8 t := by
  have e : utf8 t ++ [32] = utf8 (t ++ [' ']) := by
    rw [utf8_append]; rfl
  rw [e, TrimSpace_utf8, trimChars_trailing_space t ht]

/-- The scan of `t case:` for a plain word `t`. -/
theorem scan_word_case (t : List Char) (ht : ∀ c ∈ t, plainChar c = true) :
    scanFrom mapEmpty [] (utf8 t ++ str " case:") =
      .ok (mapAdd (mapAdd (mapAdd (mapAdd mapEmpty [] (utf8 t)) [] [32]) [] []) (str "case") []) := by
  have e : utf8 t ++ str " case:" = utf8 t ++ 32 :: (str "case" ++ 58 :: []) := by
    have e1 : str " case:" = 32 :: (str "case" ++ 58 :: []) := by decide
    rw [e1]
  have k1 := knownTags_tagBytes (str "case") (by decide)
  rw [e, scanFrom_next _ _ _ _ _ _ (by
    rw [scanBody_space _ _ _ _ (plain_utf8 t ht), if_pos rfl])]
  rw [scanFrom_next _ _ _ _ _ _ (by
    rw [scanBody_tag _ _ _ _ k1.1 k1.2, if_pos ⟨rfl, by decide⟩])]
  exact scanFrom_done _ _ _ _ (scanBody_plain _ _ _ plain_nil)



theorem one_of_three (a b c : GoString)
    (h : (if a ≠ [] then 1 else 0) + (if b ≠ [] then 1 else 0) + (if c ≠ [] then 1 else 0) = 1) :
    (a ≠ [] → b = [] ∧ c = []) ∧ (b ≠ [] → a = [] ∧ c = []) ∧ (c ≠ [] → a = [] ∧ b = []) := by
  by_cases ha : a = [] <;> by_cases hb : b = [] <;> by_cases hc : c = [] <;>
    simp [ha, hb, hc] at h ⊢

/-- The line chosen when exactly one of the three buckets is not empty. -/
theorem chosenLine_single (ops : Ops) (hone : nonEmptyCount ops = 1) :
    (mapGet ops [] ≠ [] → chosenLine ops = TrimSpace (mapGet ops [])) ∧
    (mapGet ops (str "case") ≠ [] → chosenLine ops = TrimSpace (mapGet ops (str "case"))) ∧
    (mapGet ops (str "lit") ≠ [] →
      chosenLine ops = QuoteMeta (TrimSpace (mapGet ops (str "lit")))) := by
  obtain ⟨h1, h2, h3⟩ := one_of_three _ _ _ hone
  have hq : QuoteMeta [] = [] := (QuoteMeta_eq_nil []).2 rfl
  refine ⟨fun h => ?_, fun h => ?_, fun h => ?_⟩
  · rw [chosenLine_eq, (h1 h).1, (h1 h).2, TrimSpace_nil]
    by_cases c : TrimSpace (mapGet ops []) = []
    · rw [if_neg (by simpa using c), if_neg (by simp), c, hq]
    · rw [if_pos c]
  · rw [chosenLine_eq, (h2 h).1, (h2 h).2, TrimSpace_nil, if_neg (by simp)]
    by_cases c : TrimSpace (mapGet ops (str "case")) = []
    · rw [if_neg (by simpa using c), c, hq]
    · rw [if_pos c]
  · rw [chosenLine_eq, (h3 h).1, (h3 h).2, TrimSpace_nil, if_neg (by simp), if_neg (by simp)]

/-- The shape of the result of an assembly that reports no error. -/
theorem assemble_shape (ops : Ops) (h : (assemble ops).2 = none) :
    ∃ n, assemble ops = ({ setFoldCase ops (promote (beforePromotion ops)) with
      MaxMatches := n }, none) := by
  have hass := assemble_err ops
  rw [h] at hass
  by_cases c1 : mapGet ops (str "file") ≠ [] ∧ mapGet ops (str "path") ≠ []
  · rw [if_pos c1] at hass; simp at hass
  rw [if_neg c1] at hass
  by_cases c2 : mapGet ops (str "-file") ≠ [] ∧ mapGet ops (str "-path") ≠ []
  · rw [if_pos c2] at hass; simp at hass
  rw [if_neg c2] at hass
  by_cases c3 : 1 < specCount ops
  · rw [if_pos c3] at hass; simp at hass
  rw [if_neg c3] at hass
  rw [assemble_ok _ c1 c2 c3]
  unfold setMaxMatches
  by_cases c4 : mapHas ops (str "max_matches") = true ∧ mapGet ops (str "max_matches") ≠ []
  · rw [if_pos c4]
    cases hA : Atoi (mapGet ops (str "max_matches")) with
    | none => rw [if_pos ⟨c4.1, c4.2, hA⟩] at hass; simp at hass
    | some i => exact ⟨_, rfl⟩
  · rw [if_neg c4]
    exact ⟨_, rfl⟩



theorem beforePromotion_Line (ops : Ops) : (beforePromotion ops).Line = chosenLine ops := by
  unfold beforePromotion
  simp only



/-! ## Text that one bucket takes up whole -/

theorem mapAdd_mapAdd (ops : Ops) (k x y : GoString) :
    mapAdd (mapAdd ops k x) k y = mapAdd ops k (x ++ y) := by
  funext j
  unfold mapAdd mapGet
  by_cases h : j = k
  · simp [h]
  · simp [h]

/-- An ASCII byte of valid Unicode text stands between two characters. -/
theorem utf8_split_ascii (cs : List Char) : ∀ (pre rest : GoString) (b : Nat), b < 128 →
    utf8 cs = pre ++ b :: rest →
    ∃ cs1 c cs2, cs = cs1 ++ c :: cs2 ∧ utf8 cs1 = pre ∧ c.toNat = b ∧ utf8 cs2 = rest := by
  induction cs with
  | nil =>
    intro pre rest b _ h
    rw [utf8_nil] at h
    simp at h
  | cons c0 t ih =>
    intro pre rest b hb h
    rw [utf8_cons] at h
    by_cases hc : c0.toNat < 128
    · rw [encode_ascii _ hc] at h
      cases pre with
      | nil =>
        simp only [List.singleton_append, List.nil_append, List.cons.injEq] at h
        exact ⟨[], c0, t, rfl, rfl, h.1, h.2⟩
      | cons p pre1 =>
        simp only [List.singleton_append, List.cons_append, List.cons.injEq] at h
        obtain ⟨cs1, c, cs2, e, e1, e2, e3⟩ := ih pre1 rest b hb h.2
        refine ⟨c0 :: cs1, c, cs2, by rw [e]; rfl, ?_, e2, e3⟩
        rw [utf8_cons, encode_ascii _ hc, e1, h.1]; rfl
    · have hhigh := encode_high c0.toNat (by omega)
      rcases List.append_eq_append_iff.1 h with ⟨a1, ha, hb1⟩ | ⟨c1, hc1, hb1⟩
      · obtain ⟨cs1, c, cs2, e, e1, e2, e3⟩ := ih a1 rest b hb hb1
        refine ⟨c0 :: cs1, c, cs2, by rw [e]; rfl, ?_, e2, e3⟩
        rw [utf8_cons, e1, ha]
      · cases c1 with
        | nil =>
          simp only [List.nil_append, List.append_nil] at hb1 hc1
          obtain ⟨cs1, c, cs2, e, e1, e2, e3⟩ := ih [] rest b hb (by simpa using hb1.symm)
          refine ⟨c0 :: cs1, c, cs2, by rw [e]; rfl, ?_, e2, e3⟩
          rw [utf8_cons, e1, hc1]; simp
        | cons x c2 =>
          simp only [List.cons_append, List.cons.injEq] at hb1
          have := hhigh b (by rw [hc1, hb1.1]; simp)
          omega

theorem piece_slices (q : GoString) (m : Loc) (pre mtch rest : GoString)
    (hp : Piece q m pre mtch rest) :
    slice q 0 m.m0 = .ok pre ∧ slice q m.m0 m.m1 = .ok mtch ∧
    slice q m.m1 q.length = .ok rest := by
  have hq := hp.split
  refine ⟨?_, ?_, ?_⟩
  · rw [hp.start, hq]; exact slice_pre pre mtch rest
  · rw [hp.start, hp.stop, hq]; exact slice_mid pre mtch rest
  · rw [hp.stop, hq]; exact slice_rest pre mtch rest

/-- An iteration of the scanning loop whose match is a space. -/
theorem scanBody_at_space (ops : Ops) (key q : GoString) (m : Loc) (pre mtch rest : GoString)
    (hf : FindStringSubmatchIndex q = some m) (hp : Piece q m pre mtch rest)
    (hm : mtch = [32]) :
    scanBody ops key q =
      if key = [] then .ok (.next (mapAdd (mapAdd ops key pre) key [32]) key rest)
      else .ok (.next (mapAdd ops key pre) [] rest) := by
  obtain ⟨e0, e1, e2⟩ := piece_slices q m pre mtch rest hp
  unfold scanBody
  rw [hf]
  simp only [e0, e1, e2, hm, if_true]

/-- An iteration of the scanning loop whose match is an opening parenthesis
before valid Unicode text. -/
theorem scanBody_at_paren (ops : Ops) (key q : GoString) (m : Loc) (pre mtch : GoString)
    (cs : List Char) (hf : FindStringSubmatchIndex q = some m)
    (hp : Piece q m pre mtch (utf8 cs)) (hm : mtch = [40]) :
    scanBody ops key q =
      .ok (.next (mapAdd (mapAdd ops key pre) key (40 :: utf8 (cs.take (groupSpan cs 1 false))))
        key (utf8 (cs.drop (groupSpan cs 1 false)))) := by
  obtain ⟨e0, e1, e2⟩ := piece_slices q m pre mtch (utf8 cs) hp
  have hg := groupLoop_utf8 cs [] ((utf8 cs).length + 1) 1 false [] (Nat.lt_succ_self _)
  simp only [List.nil_append, List.length_nil, Nat.cast_zero, Nat.zero_add] at hg
  have hj : (utf8 (cs.take (groupSpan cs 1 false))).length ≤ (utf8 cs).length := by
    have := congrArg List.length (utf8_take_drop cs (groupSpan cs 1 false))
    rw [List.length_append] at this
    omega
  have hd : (utf8 cs).drop (utf8 (cs.take (groupSpan cs 1 false))).length =
      utf8 (cs.drop (groupSpan cs 1 false)) := by
    conv => lhs; rw [utf8_take_drop cs (groupSpan cs 1 false)]
    exact List.drop_left _ _
  have h32 : ¬ ([40] : GoString) = [32] := by decide
  unfold scanBody
  rw [hf]
  simp only [e0, e1, e2, hm, h32, if_false, if_true, hg, slice_drop (utf8 cs) _ hj,
    List.singleton_append, hd]

/-- An iteration of the scanning loop whose match is an escape. -/
theorem scanBody_at_escape (ops : Ops) (key q : GoString) (m : Loc) (pre mtch rest t : GoString)
    (hf : FindStringSubmatchIndex q = some m) (hp : Piece q m pre mtch rest)
    (hm : mtch = 92 :: t) :
    scanBody ops key q = .ok (.next (mapAdd (mapAdd ops key pre) key (92 :: t)) key rest) := by
  obtain ⟨e0, e1, e2⟩ := piece_slices q m pre mtch rest hp
  have h32 : ¬ (92 :: t : GoString) = [32] := by
    intro h; simp at h
  have h40 : ¬ (92 :: t : GoString) = [40] := by
    intro h; simp at h
  unfold scanBody
  rw [hf]
  simp only [e0, e1, e2, hm, h32, h40, if_false, byteAt_cons, if_true]

theorem char_of_toNat (c : Char) (d : Char) (h : c.toNat = d.toNat) : c = d :=
  (char_toNat_eq c d).1 h

/-- The scan of valid Unicode text in which the active operator never changes:
with an operator active the text has no space, with none active it has no
colon.  The whole text goes to the active bucket. -/
theorem scan_absorb : ∀ (n : Nat) (cs : List Char) (ops : Ops) (key : GoString),
    cs.length ≤ n →
    ((key ≠ [] ∧ ∀ c ∈ cs, c ≠ ' ') ∨ (key = [] ∧ ∀ c ∈ cs, c ≠ ':')) →
    scanFrom ops key (utf8 cs) = .ok (mapAdd ops key (utf8 cs)) := by
  intro n
  induction n with
  | zero =>
    intro cs ops key hn _
    have : cs = [] := List.length_eq_zero.1 (by omega)
    rw [this, utf8_nil]
    exact scanFrom_done _ _ _ _ (scanBody_plain _ _ _ plain_nil)
  | succ n ih =>
    intro cs ops key hn hH
    cases hf : FindStringSubmatchIndex (utf8 cs) with
    | none =>
      apply scanFrom_done
      unfold scanBody
      rw [hf]
    | some m =>
      obtain ⟨pre, mtch, rest, hp⟩ := find_spec _ m hf
      have hsub : ∀ (cs1 : List Char) (c : Char) (cs2 cs3 : List Char),
          cs = cs1 ++ c :: cs2 → (∀ x ∈ cs3, x ∈ cs2) → cs3.length ≤ cs2.length →
          cs3.length ≤ n ∧
          ((key ≠ [] ∧ ∀ c ∈ cs3, c ≠ ' ') ∨ (key = [] ∧ ∀ c ∈ cs3, c ≠ ':')) := by
        intro cs1 c cs2 cs3 e hmem hlen
        have hl : cs.length = cs1.length + (cs2.length + 1) := by rw [e]; simp
        refine ⟨by omega, ?_⟩
        have hin : ∀ x ∈ cs3, x ∈ cs := by
          intro x hx
          rw [e]
          exact List.mem_append_right _ (List.mem_cons_of_mem _ (hmem x hx))
        rcases hH with ⟨h1, h2⟩ | ⟨h1, h2⟩
        · exact Or.inl ⟨h1, fun x hx => h2 x (hin x hx)⟩
        · exact Or.inr ⟨h1, fun x hx => h2 x (hin x hx)⟩
      rcases hp.kind with ⟨hk | hk | ⟨t, htn, hk, ht, _⟩, _⟩ | ⟨hpre, k, hkn, hk, htag, _, _⟩
      · -- a space
        have hq : utf8 cs = pre ++ 32 :: rest := by rw [hp.split, hk]; simp
        obtain ⟨cs1, c, cs2, e, e1, e2, e3⟩ := utf8_split_ascii cs pre rest 32 (by omega) hq
        have hc : c = ' ' := char_of_toNat c ' ' e2
        have hmem : c ∈ cs := by rw [e]; simp
        rcases hH with ⟨h1, h2⟩ | ⟨h1, h2⟩
        · exact absurd hc (h2 c hmem)
        · obtain ⟨g1, g2⟩ := hsub cs1 c cs2 cs2 e (fun x hx => hx) (Nat.le_refl _)
          rw [scanFrom_next _ _ _ _ _ _ (by
            rw [scanBody_at_space ops key _ m pre mtch rest hf hp hk, if_pos h1])]
          rw [← e3, ih cs2 _ key g1 g2, mapAdd_mapAdd, mapAdd_mapAdd, e3, hq]
          simp
      · -- a group
        have hq : utf8 cs = pre ++ 40 :: rest := by rw [hp.split, hk]; simp
        obtain ⟨cs1, c, cs2, e, e1, e2, e3⟩ := utf8_split_ascii cs pre rest 40 (by omega) hq
        obtain ⟨g1, g2⟩ := hsub cs1 c cs2 (cs2.drop (groupSpan cs2 1 false)) e
          (fun x hx => List.mem_of_mem_drop hx) (by simp)
        rw [← e3] at hp
        rw [scanFrom_next _ _ _ _ _ _ (scanBody_at_paren ops key _ m pre mtch cs2 hf hp hk)]
        rw [ih _ _ key g1 g2, mapAdd_mapAdd, mapAdd_mapAdd, hq, ← e3]
        rw [List.cons_append, ← utf8_take_drop]
      · -- an escape
        have hq : utf8 cs = pre ++ 92 :: (t ++ rest) := by rw [hp.split, hk]; simp
        obtain ⟨cs1, c, cs2, e, e1, e2, e3⟩ :=
          utf8_split_ascii cs pre (t ++ rest) 92 (by omega) hq
        cases cs2 with
        | nil =>
          rw [utf8_nil] at e3
          have := congrArg List.length e3
          simp at this
          exact absurd (List.length_eq_zero.1 (by omega)) htn
        | cons d cs3 =>
          have hd := decode_utf8_cons d cs3 []
          rw [List.append_nil, e3] at hd
          rw [hd] at ht
          simp only at ht
          rw [← e3, utf8_cons, List.take_left] at ht
          have hrest : rest = utf8 cs3 := by
            have h3 := e3
            rw [utf8_cons, ← ht] at h3
            exact (List.append_cancel_left h3).symm
          obtain ⟨g1, g2⟩ := hsub cs1 c (d :: cs3) cs3 e
            (fun x hx => List.mem_cons_of_mem _ hx) (by simp)
          rw [scanFrom_next _ _ _ _ _ _ (scanBody_at_escape ops key _ m pre mtch rest t hf hp hk)]
          rw [hrest, ih cs3 _ key g1 g2, mapAdd_mapAdd, mapAdd_mapAdd, hq, hrest]
          simp
      · -- a tag
        have hq : utf8 cs = k ++ 58 :: rest := by rw [hp.split, hk, hpre]; simp
        obtain ⟨cs1, c, cs2, e, e1, e2, e3⟩ := utf8_split_ascii cs k rest 58 (by omega) hq
        have hc : c = ':' := char_of_toNat c ':' e2
        have hmem : c ∈ cs := by rw [e]; simp
        rcases hH with ⟨h1, h2⟩ | ⟨h1, h2⟩
        · obtain ⟨g1, g2⟩ := hsub cs1 c cs2 cs2 e (fun x hx => hx) (Nat.le_refl _)
          rw [hq, scanFrom_next _ _ _ _ _ _ (by
            rw [scanBody_tag ops key k rest hkn htag, if_neg (fun h => h1 h.1)])]
          rw [← e3, ih cs2 _ key g1 g2, mapAdd_mapAdd, mapAdd_mapAdd, e3]
          simp
        · exact absurd hc (h2 c hmem)



/-! ## Escapes -/

theorem findStructural_escape (t : GoString) (pos : Nat) (ht : t ≠ [])
    (hd : (DecodeRuneInString t).1 ≠ 10) :
    findStructural (92 :: t) pos =
      some ⟨pos, pos + 1 + (DecodeRuneInString t).2, -1, -1⟩ := by
  unfold findStructural
  rw [if_neg (by decide), if_pos ⟨rfl, ht, hd⟩]

theorem find_plain_escape (s t : GoString) (hs : Plain s) (ht : t ≠ [])
    (hd : (DecodeRuneInString t).1 ≠ 10) :
    FindStringSubmatchIndex (s ++ 92 :: t) =
      some ⟨s.length, s.length + 1 + (DecodeRuneInString t).2, -1, -1⟩ := by
  rw [find_noTag]
  · rw [findStructural_skip s (fun b hb => ⟨(hs b hb).1, (hs b hb).2.1, (hs b hb).2.2.1⟩),
      findStructural_escape t _ ht hd]
    simp
  · intro h
    rcases head_dropWhile_append s (92 :: t) 58 h with h' | h'
    · exact (hs 58 h').2.2.2 rfl
    · simp [List.dropWhile_cons, isTagByte] at h'

/-- An iteration of the scanning loop on plain text followed by a backslash
and a character that is no line feed: the two form one escape token, which
goes to the active bucket, and the scan goes on behind the character. -/
theorem scanBody_escape (ops : Ops) (key s : GoString) (c : Char) (rest : GoString)
    (hs : Plain s) (hc : c ≠ '\n') :
    scanBody ops key (s ++ 92 :: (EncodeRune c.toNat ++ rest)) =
      .ok (.next (mapAdd (mapAdd ops key s) key (92 :: EncodeRune c.toNat)) key rest) := by
  have hd : DecodeRuneInString (EncodeRune c.toNat ++ rest) =
      (c.toNat, (EncodeRune c.toNat).length) :=
    decode_encode c.toNat (validRune_of_char c) rest
  have hne : EncodeRune c.toNat ++ rest ≠ [] := by
    intro h
    exact encode_ne_nil c.toNat (List.append_eq_nil.1 h).1
  have h10 : (DecodeRuneInString (EncodeRune c.toNat ++ rest)).1 ≠ 10 := by
    rw [hd]
    intro h
    exact hc (char_of_toNat c '\n' h)
  have hf := find_plain_escape s (EncodeRune c.toNat ++ rest) hs hne h10
  rw [hd] at hf h10
  refine scanBody_at_escape ops key _ _ s (92 :: EncodeRune c.toNat) rest (EncodeRune c.toNat)
    hf ⟨by simp, rfl, by simp; omega, Or.inl ⟨Or.inr (Or.inr ⟨_, encode_ne_nil _, rfl, ?_, ?_⟩),
      rfl, rfl⟩⟩ rfl
  · rw [hd]; simp
  · rw [hd]; exact h10

/-! ## Scans of queries of a given shape -/

/-- The scan of `k:a b` for a known tag `k` and plain `a` and `b`. -/
theorem scan_tag_space (k a b : GoString) (hk : knownTags k = true) (ha : Plain a)
    (hb : Plain b) :
    scanFrom mapEmpty [] (k ++ 58 :: (a ++ 32 :: b)) =
      .ok (mapAdd (mapAdd (mapAdd mapEmpty [] []) k a) [] b) := by
  have k1 := knownTags_tagBytes k hk
  rw [scanFrom_next _ _ _ _ _ _ (by
    rw [scanBody_tag _ _ _ _ k1.1 k1.2, if_pos ⟨rfl, hk⟩])]
  rw [scanFrom_next _ _ _ _ _ _ (by
    rw [scanBody_space _ _ _ _ ha, if_neg k1.1])]
  exact scanFrom_done _ _ _ _ (scanBody_plain _ _ _ hb)

/-- The scan of `k1:a k2:b` for known tags `k1` and `k2` and plain `a` and
`b`. -/
theorem scan_two_tags (k1 k2 a b : GoString) (hk1 : knownTags k1 = true)
    (hk2 : knownTags k2 = true) (ha : Plain a) (hb : Plain b) :
    scanFrom mapEmpty [] (k1 ++ 58 :: (a ++ 32 :: (k2 ++ 58 :: b))) =
      .ok (mapAdd (mapAdd (mapAdd (mapAdd mapEmpty [] []) k1 a) [] []) k2 b) := by
  have t1 := knownTags_tagBytes k1 hk1
  have t2 := knownTags_tagBytes k2 hk2
  rw [scanFrom_next _ _ _ _ _ _ (by
    rw [scanBody_tag _ _ _ _ t1.1 t1.2, if_pos ⟨rfl, hk1⟩])]
  rw [scanFrom_next _ _ _ _ _ _ (by
    rw [scanBody_space _ _ _ _ ha, if_neg t1.1])]
  rw [scanFrom_next _ _ _ _ _ _ (by
    rw [scanBody_tag _ _ _ _ t2.1 t2.2, if_pos ⟨rfl, hk2⟩])]
  exact scanFrom_done _ _ _ _ (scanBody_plain _ _ _ hb)

/-- The scan of `id:t` for an identifier `id` that is no known tag and plain
`t`. -/
theorem scan_unknown_tag (id t : GoString) (hne : id ≠ [])
    (hid : ∀ b ∈ id, isTagByte b = true) (hk : knownTags id = false) (ht : Plain t) :
    scanFrom mapEmpty [] (id ++ 58 :: t) =
      .ok (mapAdd (mapAdd (mapAdd mapEmpty [] []) [] (id ++ [58])) [] t) := by
  rw [scanFrom_next _ _ _ _ _ _ (by
    rw [scanBody_tag _ _ _ _ hne hid, if_neg (by rw [hk]; simp)])]
  exact scanFrom_done _ _ _ _ (scanBody_plain _ _ _ ht)

/-- The scan of `k:t` for a known tag `k` and valid Unicode text `t` without a
space. -/
theorem scan_tag_absorb (k : GoString) (t : List Char) (hk : knownTags k = true)
    (ht : ∀ c ∈ t, c ≠ ' ') :
    scanFrom mapEmpty [] (k ++ 58 :: utf8 t) =
      .ok (mapAdd (mapAdd mapEmpty [] []) k (utf8 t)) := by
  have k1 := knownTags_tagBytes k hk
  rw [scanFrom_next _ _ _ _ _ _ (by
    rw [scanBody_tag _ _ _ _ k1.1 k1.2, if_pos ⟨rfl, hk⟩])]
  exact scan_absorb t.length t _ k (Nat.le_refl _) (Or.inl ⟨k1.1, ht⟩)

/-- The scan of an escape followed by `k:v` for a known tag `k` and plain
`v`. -/
theorem scan_escape_tag (c : Char) (k v : GoString) (hc : c ≠ '\n')
    (hk : knownTags k = true) (hv : Plain v) :
    scanFrom mapEmpty [] (92 :: (EncodeRune c.toNat ++ (k ++ 58 :: v))) =
      .ok (mapAdd (mapAdd (mapAdd (mapAdd mapEmpty [] []) [] (92 :: EncodeRune c.toNat)) [] [])
        k v) := by
  have k1 := knownTags_tagBytes k hk
  have h := scanBody_escape mapEmpty [] [] c (k ++ 58 :: v) plain_nil hc
  rw [List.nil_append] at h
  rw [scanFrom_next _ _ _ _ _ _ h]
  rw [scanFrom_next _ _ _ _ _ _ (by
    rw [scanBody_tag _ _ _ _ k1.1 k1.2, if_pos ⟨rfl, hk⟩])]
  exact scanFrom_done _ _ _ _ (scanBody_plain _ _ _ hv)

/-- The scan of `k:a\ b` for a known tag `k` and plain `a` and `b`. -/
theorem scan_tag_escape (k a b : GoString) (hk : knownTags k = true) (ha : Plain a)
    (hb : Plain b) :
    scanFrom mapEmpty [] (k ++ 58 :: (a ++ 92 :: 32 :: b)) =
      .ok (mapAdd (mapAdd (mapAdd (mapAdd mapEmpty [] []) k a) k [92, 32]) k b) := by
  have k1 := knownTags_tagBytes k hk
  rw [scanFrom_next _ _ _ _ _ _ (by
    rw [scanBody_tag _ _ _ _ k1.1 k1.2, if_pos ⟨rfl, hk⟩])]
  have h := scanBody_escape (mapAdd mapEmpty [] []) k a ' ' b ha (by decide)
  have e : EncodeRune ' '.toNat = [32] := by decide
  rw [e, List.singleton_append] at h
  rw [scanFrom_next _ _ _ _ _ _ h]
  exact scanFrom_done _ _ _ _ (scanBody_plain _ _ _ hb)



/-- Text that starts and ends with a character that is no white space, with
plain text after it, is not changed by trimming. -/
theorem trim_tail (pre b : List Char) (c0 cl : Char) (h0 : pre.head? = some c0)
    (hl : pre.getLast? = some cl) (hc0 : spaceChar c0 = false) (hcl : spaceChar cl = false)
    (hb : ∀ c ∈ b, plainChar c = true) : TrimSpace (utf8 (pre ++ b)) = utf8 (pre ++ b) := by
  apply TrimSpace_self
  · intro x hx
    cases pre with
    | nil => simp at h0
    | cons p t =>
      simp only [List.cons_append, List.head?_cons, Option.some.injEq] at hx h0
      rw [← hx, h0]; exact hc0
  · intro x hx
    by_cases hbn : b = []
    · rw [hbn, List.append_nil, hl] at hx
      simp only [Option.some.injEq] at hx
      rw [← hx]; exact hcl
    · rw [getLast?_append_ne _ b hbn] at hx
      exact getLast?_plain b hb x hx



/-! ## Text without white space -/

theorem head?_of_mem (b : List Char) (p : Char → Prop) (hb : ∀ c ∈ b, p c) :
    ∀ x, b.head? = some x → p x := by
  intro x hx
  cases b with
  | nil => simp at hx
  | cons c t =>
    simp only [List.head?_cons, Option.some.injEq] at hx
    rw [← hx]; exact hb c (List.mem_cons_self _ _)

theorem getLast?_of_mem (b : List Char) (p : Char → Prop) (hb : ∀ c ∈ b, p c) :
    ∀ x, b.getLast? = some x → p x := by
  intro x hx
  rw [List.getLast?_eq_some_iff] at hx
  obtain ⟨ys, e⟩ := hx
  exact hb x (by rw [e]; simp)

theorem TrimSpace_nospace (t : List Char) (ht : ∀ c ∈ t, spaceChar c = false) :
    TrimSpace (utf8 t) = utf8 t :=
  TrimSpace_self t (head?_of_mem t _ ht) (getLast?_of_mem t _ ht)

/-- Text that starts and ends with a character that is no white space, with
text without white space after it, is not changed by trimming. -/
theorem trim_tail_nospace (pre b : List Char) (c0 cl : Char) (h0 : pre.head? = some c0)
    (hl : pre.getLast? = some cl) (hc0 : spaceChar c0 = false) (hcl : spaceChar cl = false)
    (hb : ∀ c ∈ b, spaceChar c = false) : TrimSpace (utf8 (pre ++ b)) = utf8 (pre ++ b) := by
  apply TrimSpace_self
  · intro x hx
    cases pre with
    | nil => simp at h0
    | cons p t =>
      simp only [List.cons_append, List.head?_cons, Option.some.injEq] at hx h0
      rw [← hx, h0]; exact hc0
  · intro x hx
    by_cases hbn : b = []
    · rw [hbn, List.append_nil, hl] at hx
      simp only [Option.some.injEq] at hx
      rw [← hx]; exact hcl
    · rw [getLast?_append_ne _ b hbn] at hx
      exact getLast?_of_mem b _ hb x hx

theorem unquote_cons_ne (b : Nat) (q : GoString) (h : b ≠ 92) :
    unquote (b :: q) = b :: unquote q := by
  cases q with
  | nil => simp [unquote]
  | cons x r =>
    rw [unquote.eq_def]
    split
    · rename_i e; simp at e
    · rename_i e
      simp only [List.cons.injEq] at e
      exact absurd e.1 h
    · rename_i e1 e2
      simp only [List.cons.injEq] at e2
      rw [e2.1, e2.2]

/-- Taking the inserted backslashes out of a literal-escaped text gives the
text back. -/
theorem unquote_QuoteMeta (s : GoString) : unquote (QuoteMeta s) = s := by
  induction s with
  | nil => rfl
  | cons b t ih =>
    unfold QuoteMeta
    by_cases hb : special b = true
    · rw [if_pos hb]
      unfold unquote
      rw [ih]
    · rw [if_neg hb]
      have h92 : b ≠ 92 := by
        intro h; rw [h] at hb; exact hb (by decide)
      rw [unquote_cons_ne b _ h92, ih]



theorem mem_trimChars (cs : List Char) (c : Char) (h : c ∈ trimChars cs) : c ∈ cs := by
  unfold trimChars at h
  rw [List.mem_reverse] at h
  have h1 := (List.dropWhile_suffix spaceChar).subset h
  rw [List.mem_reverse] at h1
  exact (List.dropWhile_suffix spaceChar).subset h1

theorem scanOps_eq (query : GoString) (ops : Ops) (h : scan query = .ok ops) :
    scanOps query = ops := by
  unfold scanOps
  rw [h]

/-- The buckets of the scan of a valid Unicode query without a colon: the
trimmed query is the bare text. -/
theorem scanOps_free (cs : List Char) (h : ∀ c ∈ cs, c ≠ ':') :
    scanOps (utf8 cs) = mapAdd mapEmpty [] (TrimSpace (utf8 cs)) := by
  apply scanOps_eq
  rw [scan_eq, TrimSpace_utf8]
  exact scan_absorb _ (trimChars cs) mapEmpty [] (Nat.le_refl _)
    (Or.inr ⟨rfl, fun c hc => h c (mem_trimChars cs c hc)⟩)

/-- The result of the assembly when the bare text is the only bucket and is
trimmed. -/
theorem assemble_bare (s : GoString) (hs : TrimSpace s = s) :
    assemble (mapAdd mapEmpty [] s) =
      ({ Line := s, FoldCase := (IndexAny s (str "ABCDEFGHIJKLMNOPQRSTUVWXYZ") == -1) },
        none) := by
  rw [assemble_plain _ (by simp [str_file, str_path])
    (by simp [str_nfile, str_npath])
    (by simp [specCount, str_case, str_lit, TrimSpace_nil]
        split <;> omega)
    (by simp [str_mm])]
  simp only [setFoldCase, promote, beforePromotion, resolvedFile_eq, notFile_eq, chosenLine_eq]
  by_cases h0 : s = []
  · simp [str_file, str_path, str_nfile, str_npath, str_repo, str_nrepo, str_tags, str_ntags,
      str_case, str_lit, str_mm, TrimSpace_nil, QuoteMeta, h0]
  · simp [str_file, str_path, str_nfile, str_npath, str_repo, str_nrepo, str_tags, str_ntags,
      str_case, str_lit, str_mm, TrimSpace_nil, QuoteMeta, hs, h0]

/-- The result of the assembly when the `lit` bucket is the only one with
text and is trimmed. -/
theorem assemble_lit (s : GoString) (hs : TrimSpace s = s) :
    assemble (mapAdd (mapAdd mapEmpty [] []) (str "lit") s) =
      ({ Line := QuoteMeta s, FoldCase := false }, none) := by
  rw [assemble_plain _ (by simp [str_file, str_path, str_lit])
    (by simp [str_nfile, str_npath, str_lit])
    (by simp [specCount, str_case, str_lit, TrimSpace_nil]
        split <;> omega)
    (by simp [str_mm, str_lit])]
  simp only [setFoldCase, promote, beforePromotion, resolvedFile_eq, notFile_eq, chosenLine_eq]
  simp [str_file, str_path, str_nfile, str_npath, str_repo, str_nrepo, str_tags, str_ntags,
    str_case, str_lit, str_mm, TrimSpace_nil, QuoteMeta, hs]

theorem spaceChar_ne_space (c : Char) (h : spaceChar c = false) : c ≠ ' ' := by
  intro hc
  rw [hc] at h
  exact absurd h (by decide)

theorem special_iff (b : Nat) : special b = true ↔ b ∈ str "\\.+*?()|[]{}^$" := by
  have e : str "\\.+*?()|[]{}^$" = [92, 46, 43, 42, 63, 40, 41, 124, 91, 93, 123, 125, 94, 36] := by
    decide
  rw [e]
  simp only [special, Bool.or_eq_true, decide_eq_true_eq, List.mem_cons, List.mem_singleton,
    List.not_mem_nil, or_false]
  omega


/-! ## Runes of arbitrary bytes -/

/-- An ASCII byte ends every encoding before it: what follows it does not
change the first rune of the text. -/
theorem decode_append_ascii (x y : GoString) (c : Nat) (hc : c < 128) (hx : x ≠ []) :
    DecodeRuneInString (x ++ c :: y) = DecodeRuneInString x := by
  have hcc : isCont c = false := by
    simp only [isCont, Bool.and_eq_false_iff, decide_eq_false_iff_not]; omega
  obtain ⟨s0, t, rfl⟩ := List.exists_cons_of_ne_nil hx
  rcases t with _ | ⟨s1, _ | ⟨s2, _ | ⟨s3, t⟩⟩⟩ <;>
    simp only [List.cons_append, List.nil_append, DecodeRuneInString, RuneSelf] <;>
    split_ifs <;> first | rfl | omega | (cases y <;> simp_all <;> omega) |
      (rcases y with _ | ⟨y1, _ | ⟨y2, y⟩⟩ <;>
        first | rfl | (simp only []; rw [if_neg (fun h => by have := h.1; omega)]))

theorem runesAux_cons (fuel : Nat) (s : GoString) (h : s ≠ []) :
    runesAux (fuel + 1) s =
      ((DecodeRuneInString s).1, s.take (DecodeRuneInString s).2) ::
        runesAux fuel (s.drop (DecodeRuneInString s).2) := by
  conv => lhs; unfold runesAux
  rw [if_neg h]

theorem runesAux_nil (fuel : Nat) : runesAux fuel [] = [] := by
  cases fuel <;> simp [runesAux]

/-- The runes do not depend on the fuel, once it is the length of the text. -/
theorem runesAux_fuel : ∀ (n : Nat) (s : GoString) (m : Nat), s.length ≤ n → s.length ≤ m →
    runesAux m s = runesAux n s := by
  intro n
  induction n with
  | zero =>
    intro s m h _
    have : s = [] := List.length_eq_zero.1 (by omega)
    rw [this, runesAux_nil, runesAux_nil]
  | succ n ih =>
    intro s m hn hm
    by_cases hs : s = []
    · rw [hs, runesAux_nil, runesAux_nil]
    · have hw := decode_width s hs
      cases m with
      | zero =>
        exact absurd (List.length_eq_zero.1 (by omega)) hs
      | succ m =>
        rw [runesAux_cons m s hs, runesAux_cons n s hs]
        rw [ih _ m (by simp only [List.length_drop]; omega)
          (by simp only [List.length_drop]; omega)]

theorem runes_cons (s : GoString) (h : s ≠ []) :
    runes s = ((DecodeRuneInString s).1, s.take (DecodeRuneInString s).2) ::
      runes (s.drop (DecodeRuneInString s).2) := by
  have hw := decode_width s h
  unfold runes
  obtain ⟨n, hn⟩ : ∃ n, s.length = n + 1 := ⟨s.length - 1, by omega⟩
  rw [hn, runesAux_cons n s h]
  rw [runesAux_fuel n _ _ (by simp only [List.length_drop]; omega) (Nat.le_refl _)]

theorem runes_nil : runes [] = [] := rfl

/-- An ASCII byte is a rune of its own, whatever stands before and after
it. -/
theorem runes_ascii_split (c : Nat) (hc : c < 128) (y : GoString) : ∀ (n : Nat) (x : GoString),
    x.length ≤ n → runes (x ++ c :: y) = runes x ++ (c, [c]) :: runes y := by
  intro n
  induction n with
  | zero =>
    intro x hx
    have : x = [] := List.length_eq_zero.1 (by omega)
    rw [this, List.nil_append, runes_nil, List.nil_append, runes_cons _ (by simp)]
    have hd : DecodeRuneInString (c :: y) = (c, 1) := by
      simp [DecodeRuneInString, RuneSelf, hc]
    rw [hd]
    simp
  | succ n ih =>
    intro x hx
    by_cases hxn : x = []
    · exact ih x (by rw [hxn]; simp)
    · have hd := decode_append_ascii x y c hc hxn
      have hw := decode_width x hxn
      rw [runes_cons _ (by simp), hd, runes_cons x hxn]
      rw [List.take_append_of_le_length hw.2, List.drop_append_of_le_length hw.2]
      rw [ih _ (by simp only [List.length_drop]; omega)]
      rfl

theorem joinRunes_runes : ∀ (n : Nat) (s : GoString), s.length ≤ n → joinRunes (runes s) = s := by
  intro n
  induction n with
  | zero =>
    intro s hs
    have : s = [] := List.length_eq_zero.1 (by omega)
    rw [this]; rfl
  | succ n ih =>
    intro s hs
    by_cases hsn : s = []
    · rw [hsn]; rfl
    · have hw := decode_width s hsn
      rw [runes_cons s hsn]
      unfold joinRunes
      rw [ih _ (by simp only [List.length_drop]; omega), List.take_append_drop]

theorem runes_ne_nil (s : GoString) (h : s ≠ []) : runes s ≠ [] := by
  rw [runes_cons s h]; simp

/-! ## Trimming arbitrary bytes -/

theorem dropSpaces_self (rs : List (Nat × GoString))
    (h : ∀ r, rs.head? = some r → IsSpace r.1 = false) : dropSpaces rs = rs := by
  cases rs with
  | nil => rfl
  | cons r t =>
    unfold dropSpaces
    rw [if_neg (by rw [h r rfl]; simp)]

/-- A text whose first and last runes are no white space is not changed by
trimming. -/
theorem TrimSpace_of_runes (s : GoString)
    (h0 : ∀ r, (runes s).head? = some r → IsSpace r.1 = false)
    (h1 : ∀ r, (runes s).getLast? = some r → IsSpace r.1 = false) : TrimSpace s = s := by
  unfold TrimSpace
  rw [dropSpaces_self _ h0, dropSpaces_self _ (by
    intro r hr
    rw [List.head?_reverse] at hr
    exact h1 r hr), List.reverse_reverse]
  exact joinRunes_runes _ s (Nat.le_refl _)

theorem noSpace_runes (s : GoString) (h : noSpace s = true) :
    ∀ r ∈ runes s, IsSpace r.1 = false := by
  intro r hr
  simp only [noSpace, List.all_eq_true, Bool.not_eq_true'] at h
  exact h r hr

theorem TrimSpace_noSpace (s : GoString) (h : noSpace s = true) : TrimSpace s = s := by
  apply TrimSpace_of_runes
  · intro r hr
    exact noSpace_runes s h r (List.mem_of_mem_head? hr)
  · intro r hr
    rw [List.getLast?_eq_some_iff] at hr
    obtain ⟨ys, e⟩ := hr
    exact noSpace_runes s h r (by rw [e]; simp)

/-- A text that starts with an ASCII byte that is no white space and ends
with an ASCII byte followed by text without white space is not changed by
trimming. -/
theorem trim_bytes (c0 : Nat) (x : GoString) (cl : Nat) (b : GoString) (h0 : c0 < 128)
    (h0s : IsSpace c0 = false) (hl : cl < 128) (hls : IsSpace cl = false ∨ b ≠ [])
    (hb : noSpace b = true) :
    TrimSpace (c0 :: (x ++ cl :: b)) = c0 :: (x ++ cl :: b) := by
  have e1 : runes (c0 :: (x ++ cl :: b)) = (c0, [c0]) :: runes (x ++ cl :: b) := by
    have := runes_ascii_split c0 h0 (x ++ cl :: b) 0 [] (Nat.le_refl _)
    simpa [runes_nil] using this
  have e2 : runes (x ++ cl :: b) = runes x ++ (cl, [cl]) :: runes b :=
    runes_ascii_split cl hl b _ x (Nat.le_refl _)
  apply TrimSpace_of_runes
  · intro r hr
    rw [e1] at hr
    simp only [List.head?_cons, Option.some.injEq] at hr
    rw [← hr]; exact h0s
  · intro r hr
    rw [e1, e2] at hr
    by_cases hbn : b = []
    · rw [hbn, runes_nil] at hr
      have : (c0, [c0]) :: (runes x ++ [(cl, [cl])]) = ((c0, [c0]) :: runes x) ++ [(cl, [cl])] := by
        simp
      rw [this, List.getLast?_append] at hr
      have hr2 : (cl, [cl]) = r := by simpa [Option.or] using hr
      rcases hls with h | h
      · rw [← hr2]; exact h
      · exact absurd hbn h
    · have hrn := runes_ne_nil b hbn
      have : (c0, [c0]) :: (runes x ++ (cl, [cl]) :: runes b) =
          ((c0, [c0]) :: (runes x ++ [(cl, [cl])])) ++ runes b := by simp
      rw [this, List.getLast?_append_of_ne_nil _ hrn] at hr
      rw [List.getLast?_eq_some_iff] at hr
      obtain ⟨ys, e⟩ := hr
      exact noSpace_runes b hb r (by rw [e]; simp)

/-! ## Plain bytes -/

theorem noSpace_no32 (s : GoString) (h : noSpace s = true) : 32 ∉ s := by
  intro hm
  obtain ⟨x, y, e⟩ := List.append_of_mem hm
  have hr := runes_ascii_split 32 (by omega) y _ x (Nat.le_refl _)
  rw [← e] at hr
  have := noSpace_runes s h (32, [32]) (by rw [hr]; simp)
  simp [IsSpace] at this

theorem plainText_noSpace (s : GoString) (h : plainText s = true) : noSpace s = true := by
  simp only [plainText, Bool.and_eq_true] at h
  exact h.1

theorem plainText_plain (s : GoString) (h : plainText s = true) : Plain s := by
  intro b hb
  have h32 := noSpace_no32 s (plainText_noSpace s h)
  simp only [plainText, Bool.and_eq_true, List.all_eq_true, bne_iff_ne, ne_eq] at h
  have := h.2 b hb
  refine ⟨fun e => h32 (e ▸ hb), this.1.1.1, this.1.2, this.2⟩

theorem looseText_noSpace (s : GoString) (h : looseText s = true) : noSpace s = true := by
  simp only [looseText, Bool.and_eq_true] at h
  exact h.1

theorem looseText_bytes (s : GoString) (h : looseText s = true) :
    ∀ b ∈ s, b ≠ 32 ∧ b ≠ 40 ∧ b ≠ 92 := by
  intro b hb
  have h32 := noSpace_no32 s (looseText_noSpace s h)
  simp only [looseText, Bool.and_eq_true, List.all_eq_true, bne_iff_ne, ne_eq] at h
  have := h.2 b hb
  exact ⟨fun e => h32 (e ▸ hb), this.1.1, this.2⟩

/-- The scan of bytes without a space, a parenthesis or a backslash while an
operator is active: the whole text goes to the active bucket. -/
theorem scan_absorb_bytes : ∀ (n : Nat) (q : GoString) (ops : Ops) (key : GoString),
    q.length ≤ n → key ≠ [] → (∀ b ∈ q, b ≠ 32 ∧ b ≠ 40 ∧ b ≠ 92) →
    scanFrom ops key q = .ok (mapAdd ops key q) := by
  intro n
  induction n with
  | zero =>
    intro q ops key hn _ _
    have : q = [] := List.length_eq_zero.1 (by omega)
    rw [this]
    exact scanFrom_done _ _ _ _ (scanBody_plain _ _ _ plain_nil)
  | succ n ih =>
    intro q ops key hn hkey hq
    cases hf : FindStringSubmatchIndex q with
    | none =>
      apply scanFrom_done
      unfold scanBody
      rw [hf]
    | some m =>
      obtain ⟨pre, mtch, rest, hp⟩ := find_spec _ m hf
      have hmem : ∀ b ∈ mtch, b ∈ q := by
        intro b hb
        rw [hp.split]
        exact List.mem_append_left _ (List.mem_append_right _ hb)
      rcases hp.kind with ⟨hk | hk | ⟨t, htn, hk, ht, _⟩, _⟩ | ⟨hpre, k, hkn, hk, htag, _, _⟩
      · exact absurd rfl (hq 32 (hmem 32 (by rw [hk]; simp))).1
      · exact absurd rfl (hq 40 (hmem 40 (by rw [hk]; simp))).2.1
      · exact absurd rfl (hq 92 (hmem 92 (by rw [hk]; simp))).2.2
      · have hqe : q = k ++ 58 :: rest := by rw [hp.split, hk, hpre]; simp
        have hlen : rest.length ≤ n := by
          have := congrArg List.length hqe
          simp at this
          omega
        have hrest : ∀ b ∈ rest, b ≠ 32 ∧ b ≠ 40 ∧ b ≠ 92 := by
          intro b hb
          exact hq b (by rw [hqe]; simp [hb])
        rw [hqe, scanFrom_next _ _ _ _ _ _ (by
          rw [scanBody_tag ops key k rest hkn htag, if_neg (fun h => hkey h.1)])]
        rw [ih rest _ key hlen hkey hrest, mapAdd_mapAdd, mapAdd_mapAdd]
        simp


theorem tagByte_ascii (b : Nat) (h : isTagByte b = true) : b < 128 ∧ IsSpace b = false := by
  simp only [isTagByte, Bool.or_eq_true, Bool.and_eq_true, decide_eq_true_eq] at h
  refine ⟨by omega, ?_⟩
  simp only [IsSpace, Bool.or_eq_false_iff, Bool.and_eq_false_iff, decide_eq_false_iff_not]
  omega

/-- A query that starts with a tag and ends with a colon followed by text
without white space is not changed by trimming. -/
theorem trim_tagged (k x b : GoString) (hne : k ≠ []) (hk : ∀ c ∈ k, isTagByte c = true)
    (hb : noSpace b = true) : TrimSpace (k ++ (x ++ 58 :: b)) = k ++ (x ++ 58 :: b) := by
  obtain ⟨c0, k1, rfl⟩ := List.exists_cons_of_ne_nil hne
  have h0 := tagByte_ascii c0 (hk c0 (List.mem_cons_self _ _))
  have e : c0 :: k1 ++ (x ++ 58 :: b) = c0 :: ((k1 ++ x) ++ 58 :: b) := by simp
  rw [e]
  exact trim_bytes c0 _ 58 b h0.1 h0.2 (by omega) (Or.inl (by decide)) hb

/-- The result of `ParseQuery` on `k:a k:b` for a known tag `k`. -/
theorem parse_two_tags_bytes (k a b : GoString) (hk : knownTags k = true)
    (hpa : plainText a = true) (hpb : plainText b = true) :
    ParseQuery (k ++ 58 :: (a ++ 32 :: (k ++ 58 :: b))) =
      .ok (assemble (mapAdd (mapAdd (mapAdd (mapAdd mapEmpty [] []) k a) [] []) k b)) ∧
    scanOps (k ++ 58 :: (a ++ 32 :: (k ++ 58 :: b))) =
      mapAdd (mapAdd (mapAdd (mapAdd mapEmpty [] []) k a) [] []) k b := by
  have k1 := knownTags_tagBytes k hk
  have ht : TrimSpace (k ++ 58 :: (a ++ 32 :: (k ++ 58 :: b))) =
      k ++ 58 :: (a ++ 32 :: (k ++ 58 :: b)) := by
    have e : k ++ 58 :: (a ++ 32 :: (k ++ 58 :: b)) = k ++ ((58 :: (a ++ 32 :: k)) ++ 58 :: b) := by
      simp
    rw [e]
    exact trim_tagged k _ b k1.1 k1.2 (plainText_noSpace b hpb)
  have hs := scan_two_tags k k a b hk hk (plainText_plain a hpa) (plainText_plain b hpb)
  exact ⟨ParseQuery_of _ _ ht hs, scanOps_of _ _ ht hs⟩


/-! ## The claims of the specification -/

set_option maxRecDepth 100000

/-- C1: `ParseQuery` fails with the `file:`/`path:` synonym error exactly when
the `file` and the `path` bucket are both non-empty after scanning; when that
is not the case it fails with the `-file:`/`-path:` synonym error exactly when
the `-file` and the `-path` bucket are both non-empty; and for all non-empty
`a` and `b` without white space, parenthesis, backslash or colon the query
`"file:" ++ a ++ " path:" ++ b` fails with the first error. -/
theorem C1_synonym_conflict :
    (∀ query : GoString,
      (errorOf query = some (some errFilePath) ↔
        (mapGet (scanOps query) (str "file") ≠ [] ∧ mapGet (scanOps query) (str "path") ≠ [])) ∧
      (¬ (mapGet (scanOps query) (str "file") ≠ [] ∧ mapGet (scanOps query) (str "path") ≠ []) →
        (errorOf query = some (some errNotFilePath) ↔
          (mapGet (scanOps query) (str "-file") ≠ [] ∧
            mapGet (scanOps query) (str "-path") ≠ [])))) ∧
    (∀ a b : List Char, a ≠ [] → b ≠ [] → (∀ c ∈ a, plainChar c = true) →
      (∀ c ∈ b, plainChar c = true) →
      errorOf (str "file:" ++ utf8 a ++ str " path:" ++ utf8 b) = some (some errFilePath)) := by
  have hd := err_distinct
  have general : ∀ query : GoString,
      (errorOf query = some (some errFilePath) ↔
        (mapGet (scanOps query) (str "file") ≠ [] ∧ mapGet (scanOps query) (str "path") ≠ [])) ∧
      (¬ (mapGet (scanOps query) (str "file") ≠ [] ∧ mapGet (scanOps query) (str "path") ≠ []) →
        (errorOf query = some (some errNotFilePath) ↔
          (mapGet (scanOps query) (str "-file") ≠ [] ∧
            mapGet (scanOps query) (str "-path") ≠ []))) := by
    intro query
    rw [errorOf_eq, assemble_err]
    by_cases c1 : mapGet (scanOps query) (str "file") ≠ [] ∧ mapGet (scanOps query) (str "path") ≠ []
    · rw [if_pos c1]
      exact ⟨⟨fun _ => c1, fun _ => rfl⟩, fun h => absurd c1 h⟩
    · rw [if_neg c1]
      by_cases c2 : mapGet (scanOps query) (str "-file") ≠ [] ∧
          mapGet (scanOps query) (str "-path") ≠ []
      · rw [if_pos c2]
        refine ⟨⟨fun h => ?_, fun h => absurd h c1⟩, fun _ => ⟨fun _ => c2, fun _ => rfl⟩⟩
        simp only [Option.some.injEq] at h
        exact absurd h.symm hd.1
      · rw [if_neg c2]
        refine ⟨⟨fun h => ?_, fun h => absurd h c1⟩, fun _ => ⟨fun h => ?_, fun h => absurd h c2⟩⟩
        · exfalso
          split at h
          · simp only [Option.some.injEq] at h; exact hd.2.1 h.symm
          · split at h
            · simp only [Option.some.injEq] at h; exact hd.2.2.1 h.symm
            · simp at h
        · exfalso
          split at h
          · simp only [Option.some.injEq] at h; exact hd.2.2.2.1 h.symm
          · split at h
            · simp only [Option.some.injEq] at h; exact hd.2.2.2.2.1 h.symm
            · simp at h
  refine ⟨general, ?_⟩
  intro a b hane hbne ha hb
  have hs : scan (str "file:" ++ utf8 a ++ str " path:" ++ utf8 b) = .ok
      (mapAdd (mapAdd (mapAdd (mapAdd mapEmpty [] []) (str "file") (utf8 a)) [] [])
        (str "path") (utf8 b)) := by
    rw [scan_eq, trim_file_path a b hbne hb, scan_file_path a b ha hb]
  have ho : scanOps (str "file:" ++ utf8 a ++ str " path:" ++ utf8 b) =
      mapAdd (mapAdd (mapAdd (mapAdd mapEmpty [] []) (str "file") (utf8 a)) [] [])
        (str "path") (utf8 b) := by
    unfold scanOps; rw [hs]
  rw [(general _).1, ho]
  have ua : utf8 a ≠ [] := by rw [ne_eq, utf8_eq_nil]; exact hane
  have ub : utf8 b ≠ [] := by rw [ne_eq, utf8_eq_nil]; exact hbne
  simp [str_file, str_path, ua, ub]

/-- The witness of C1 in the specification, `file:a.go path:b.go`. -/
theorem C1_synonym_conflict_witness :
    errorOf (str "file:" ++ utf8 "a.go".toList ++ str " path:" ++ utf8 "b.go".toList) =
      some (some errFilePath) :=
  C1_synonym_conflict.2 "a.go".toList "b.go".toList (by decide) (by decide) (by decide) (by decide)


/-- C2, against the claim as stated: after the scan of `case:a  repo:b` (two
spaces) the bare-text bucket holds a space and the `case` bucket holds `a`,
so two of the three buckets are non-empty and there is no synonym conflict,
yet `ParseQuery` returns no error. -/
theorem C2_multiple_specifiers_counterexample :
    mapGet (scanOps (str "case:a  repo:b")) [] = str " " ∧
    mapGet (scanOps (str "case:a  repo:b")) (str "case") = str "a" ∧
    1 < nonEmptyCount (scanOps (str "case:a  repo:b")) ∧
    ¬ (mapGet (scanOps (str "case:a  repo:b")) (str "file") ≠ [] ∧
        mapGet (scanOps (str "case:a  repo:b")) (str "path") ≠ []) ∧
    ¬ (mapGet (scanOps (str "case:a  repo:b")) (str "-file") ≠ [] ∧
        mapGet (scanOps (str "case:a  repo:b")) (str "-path") ≠ []) ∧
    errorOf (str "case:a  repo:b") = some none := by
  decide

/-- C2, amended: for every query with no synonym conflict, if more than one of
the bare-text, `case` and `lit` buckets is non-empty once its leading and
trailing white space is removed, `ParseQuery` fails with the error for
multiple line specifiers; and if at most one of them is, it does not fail with
that error. -/
theorem C2_multiple_specifiers (query : GoString)
    (h1 : ¬ (mapGet (scanOps query) (str "file") ≠ [] ∧ mapGet (scanOps query) (str "path") ≠ []))
    (h2 : ¬ (mapGet (scanOps query) (str "-file") ≠ [] ∧
      mapGet (scanOps query) (str "-path") ≠ [])) :
    (1 < specCount (scanOps query) → errorOf query = some (some errMultiple)) ∧
    (specCount (scanOps query) ≤ 1 → errorOf query ≠ some (some errMultiple)) := by
  have hd := err_distinct
  rw [errorOf_eq, assemble_err, if_neg h1, if_neg h2]
  constructor
  · intro h; rw [if_pos h]
  · intro h
    rw [if_neg (by omega)]
    split
    · intro h'
      simp only [Option.some.injEq] at h'
      exact hd.2.2.2.2.2 h'.symm
    · simp

/-- C2 at the query `foo case:bar`, which has bare text and a `case:`
value. -/
theorem C2_multiple_specifiers_witness :
    errorOf (str "foo case:bar") = some (some errMultiple) :=
  (C2_multiple_specifiers (str "foo case:bar") (by decide) (by decide)).1 (by decide)

/-- C3: filename promotion.  For every query on which `ParseQuery` succeeds,
with `f` the value resolved from the `file`/`path` buckets and `l` the value
chosen from the line specifiers: if `l` is empty and `f` is not, the result
has `Line = f`, `File = ""` and `FilenameOnly = true`; otherwise it has
`Line = l`, `File = f` and `FilenameOnly = false`.  So a successful result
with `FilenameOnly = true` has an empty `File` and a non-empty `Line`, and no
successful result has an empty `Line` with a non-empty `File`. -/
theorem C3_filename_promotion (query : GoString) (out : Query)
    (h : ParseQuery query = .ok (out, none)) :
    ((chosenLine (scanOps query) = [] ∧ resolvedFile (scanOps query) ≠ []) →
        out.Line = resolvedFile (scanOps query) ∧ out.File = [] ∧ out.FilenameOnly = true) ∧
    (¬ (chosenLine (scanOps query) = [] ∧ resolvedFile (scanOps query) ≠ []) →
        out.Line = chosenLine (scanOps query) ∧ out.File = resolvedFile (scanOps query) ∧
        out.FilenameOnly = false) ∧
    (out.FilenameOnly = true → out.File = [] ∧ out.Line ≠ []) ∧
    ¬ (out.Line = [] ∧ out.File ≠ []) := by
  rw [ParseQuery_ok] at h
  have h' : assemble (scanOps query) = (out, none) := Except.ok.inj h
  have hp := assemble_promotion (scanOps query) out h'
  refine ⟨hp.1, hp.2, ?_, ?_⟩
  · intro hf
    by_cases hc : chosenLine (scanOps query) = [] ∧ resolvedFile (scanOps query) ≠ []
    · have := hp.1 hc
      exact ⟨this.2.1, by rw [this.1]; exact hc.2⟩
    · have := hp.2 hc
      rw [this.2.2] at hf; simp at hf
  · intro hc'
    by_cases hc : chosenLine (scanOps query) = [] ∧ resolvedFile (scanOps query) ≠ []
    · have := hp.1 hc
      rw [this.1] at hc'; exact hc.2 hc'.1
    · have := hp.2 hc
      rw [this.1, this.2.1] at hc'; exact hc hc'

/-- The witness of C3 in the specification: `file:foo.go` gives
`Line = "foo.go"`, `File = ""` and `FilenameOnly = true`. -/
theorem C3_filename_promotion_witness :
    ParseQuery (str "file:foo.go") =
      .ok ({ Line := str "foo.go", File := [], FilenameOnly := true, FoldCase := true }, none) ∧
    ((str "foo.go" : GoString) ≠ [] ∧ ¬ ((str "foo.go" : GoString) = [] ∧ ([] : GoString) ≠ [])) :=
  ⟨by decide,
    ((C3_filename_promotion (str "file:foo.go")
      { Line := str "foo.go", File := [], FilenameOnly := true, FoldCase := true }
      (by decide)).2.2.1 rfl).2,
    (C3_filename_promotion (str "file:foo.go")
      { Line := str "foo.go", File := [], FilenameOnly := true, FoldCase := true }
      (by decide)).2.2.2⟩


/-- C4: the `FoldCase` rule.  For every query on which `ParseQuery` succeeds,
`FoldCase` is false if a `case:` or `lit:` operator was supplied (its bucket
is present in the map); otherwise `FoldCase` is true exactly when the final
`Line` contains no ASCII upper-case letter. -/
theorem C4_fold_case (query : GoString) (out : Query)
    (h : ParseQuery query = .ok (out, none)) :
    ((mapHas (scanOps query) (str "case") = true ∨ mapHas (scanOps query) (str "lit") = true) →
      out.FoldCase = false) ∧
    (¬ (mapHas (scanOps query) (str "case") = true ∨ mapHas (scanOps query) (str "lit") = true) →
      (out.FoldCase = true ↔ ∀ b ∈ out.Line, isUpper b = false)) := by
  rw [ParseQuery_ok] at h
  have h' : assemble (scanOps query) = (out, none) := Except.ok.inj h
  have hf := assemble_foldCase (scanOps query) out h'
  constructor
  · intro hc
    rw [hf, if_pos hc]
  · intro hc
    rw [hf, if_neg hc]
    exact foldCase_test out.Line

/-- The witnesses of C4 in the specification: `foo bar` gives
`FoldCase = true`, `case:Foo` gives `Line = "Foo"` and `FoldCase = false`, and
`file:Foo.go` gives `FoldCase = false`. -/
theorem C4_fold_case_witness :
    ParseQuery (str "foo bar") = .ok ({ Line := str "foo bar", FoldCase := true }, none) ∧
    ParseQuery (str "case:Foo") = .ok ({ Line := str "Foo", FoldCase := false }, none) ∧
    ParseQuery (str "file:Foo.go") =
      .ok ({ Line := str "Foo.go", FilenameOnly := true, FoldCase := false }, none) ∧
    (true = true ↔ ∀ b ∈ str "foo bar", isUpper b = false) :=
  ⟨by decide, by decide, by decide,
    (C4_fold_case (str "foo bar") { Line := str "foo bar", FoldCase := true } (by decide)).2
      (by decide)⟩

/-- C7: for every query whose scan leaves a non-empty `max_matches` bucket
that is not a base-10 integer literal, and that violates no earlier rule (no
synonym conflict, at most one line specifier), `ParseQuery` fails with the
`max_matches` error. -/
theorem C7_invalid_max_matches (query : GoString)
    (hne : mapGet (scanOps query) (str "max_matches") ≠ [])
    (hlit : isIntLiteral (mapGet (scanOps query) (str "max_matches")) = false)
    (h1 : ¬ (mapGet (scanOps query) (str "file") ≠ [] ∧ mapGet (scanOps query) (str "path") ≠ []))
    (h2 : ¬ (mapGet (scanOps query) (str "-file") ≠ [] ∧
      mapGet (scanOps query) (str "-path") ≠ []))
    (h3 : specCount (scanOps query) ≤ 1) :
    errorOf query = some (some errMaxMatches) := by
  rw [errorOf_eq, assemble_err, if_neg h1, if_neg h2, if_neg (by omega),
    if_pos ⟨mapGet_ne_nil_has _ _ hne, hne, Atoi_none_of_not_literal _ hlit⟩]

/-- The witness of C7 in the specification, `max_matches:abc`. -/
theorem C7_invalid_max_matches_witness :
    errorOf (str "max_matches:abc") = some (some errMaxMatches) :=
  C7_invalid_max_matches (str "max_matches:abc") (by decide) (by decide) (by decide) (by decide)
    (by decide)

/-- C8: for every query whose scan leaves the `max_matches` bucket absent, or
present but empty, `ParseQuery` does not return the `max_matches` error and
every successful result has `MaxMatches = 0`. -/
theorem C8_empty_max_matches (query : GoString)
    (h : mapHas (scanOps query) (str "max_matches") = false ∨
      mapGet (scanOps query) (str "max_matches") = []) :
    errorOf query ≠ some (some errMaxMatches) ∧
    ∀ out, ParseQuery query = .ok (out, none) → out.MaxMatches = 0 := by
  have hd := err_distinct
  have hc : ¬ (mapHas (scanOps query) (str "max_matches") = true ∧
      mapGet (scanOps query) (str "max_matches") ≠ []) := by
    rintro ⟨a, b⟩
    rcases h with h | h
    · rw [h] at a; simp at a
    · exact b h
  constructor
  · rw [errorOf_eq, assemble_err]
    have hc' : ¬ (mapHas (scanOps query) (str "max_matches") = true ∧
        mapGet (scanOps query) (str "max_matches") ≠ [] ∧
        Atoi (mapGet (scanOps query) (str "max_matches")) = none) := fun x => hc ⟨x.1, x.2.1⟩
    rw [if_neg hc']
    split
    · intro h'; simp only [Option.some.injEq] at h'; exact hd.2.2.1 h'
    · split
      · intro h'; simp only [Option.some.injEq] at h'; exact hd.2.2.2.2.1 h'
      · split
        · intro h'; simp only [Option.some.injEq] at h'; exact hd.2.2.2.2.2 h'
        · simp
  · intro out ho
    rw [ParseQuery_ok] at ho
    have h' : assemble (scanOps query) = (out, none) := Except.ok.inj ho
    rw [assemble_maxMatches (scanOps query) out h', if_neg hc]

/-- The witness of C8 in the specification: `max_matches:` succeeds with
`MaxMatches = 0`, like a query without the operator. -/
theorem C8_empty_max_matches_witness :
    ParseQuery (str "max_matches:") = .ok ({ FoldCase := true, MaxMatches := 0 }, none) ∧
    ParseQuery (str "") = .ok ({ FoldCase := true, MaxMatches := 0 }, none) ∧
    errorOf (str "max_matches:") ≠ some (some errMaxMatches) ∧
    (0 : Int) = 0 :=
  ⟨by decide, by decide, (C8_empty_max_matches (str "max_matches:") (by decide)).1,
    (C8_empty_max_matches (str "max_matches:") (by decide)).2
      { FoldCase := true, MaxMatches := 0 } (by decide)⟩


/-- C6, against the claim as stated: the twenty digits `99999999999999999999`
are a non-empty string of decimal digits, and `ParseQuery` fails on
`max_matches:99999999999999999999` with the `max_matches` error, because the
value does not fit the type `int` of `strconv.Atoi`. -/
theorem C6_max_matches_counterexample :
    "99999999999999999999".toList ≠ [] ∧
    (∀ c ∈ "99999999999999999999".toList, digitChar c = true) ∧
    errorOf (str "max_matches:" ++ utf8 "99999999999999999999".toList) =
      some (some errMaxMatches) := by
  decide

/-- C6, amended: for every non-empty string `d` of ASCII decimal digits that
denotes an integer below `2^31`, `ParseQuery("max_matches:" ++ d)` succeeds
and `MaxMatches` is the base-10 integer that `d` denotes. -/
theorem C6_max_matches (d : List Char) (hne : d ≠ []) (hd : ∀ c ∈ d, digitChar c = true)
    (hv : decimalValue d < 2147483648) :
    ParseQuery (str "max_matches:" ++ utf8 d) =
      .ok ({ FoldCase := true, MaxMatches := (decimalValue d : Int) }, none) := by
  have hp : ∀ c ∈ d, plainChar c = true := fun c hc => digit_plain c (hd c hc)
  have e : str "max_matches:" ++ utf8 d = str "max_matches" ++ 58 :: utf8 d := by
    have e1 : str "max_matches:" = str "max_matches" ++ [58] := by decide
    rw [e1]; simp
  have ht : TrimSpace (str "max_matches:" ++ utf8 d) = str "max_matches:" ++ utf8 d := by
    have e2 : str "max_matches:" ++ utf8 d = utf8 ("max_matches:".toList ++ d) := by
      rw [utf8_append]; rfl
    rw [e2]
    exact trim_wrap _ d 'm' rfl (by decide) hne hp
  have hs := scan_tag_value (str "max_matches") (utf8 d) (by decide) (plain_utf8 d hp)
  rw [← e] at hs
  rw [ParseQuery_of _ _ ht hs]
  have hnn : utf8 d ≠ [] := by rw [ne_eq, utf8_eq_nil]; exact hne
  have hA := Atoi_digits d hne hd (by omega)
  rw [assemble_limit _ (decimalValue d : Int) (by simp [str_file, str_path, str_mm])
    (by simp [str_nfile, str_npath, str_mm])
    (by simp [specCount, str_case, str_lit, str_mm, TrimSpace_nil])
    (by simp [str_mm, hnn]) (by simpa [str_mm] using hA)]
  have hi : int32 (decimalValue d : Int) = (decimalValue d : Int) := by
    unfold int32; omega
  rw [hi]
  simp only [setFoldCase, promote, beforePromotion, resolvedFile_eq, notFile_eq, chosenLine_eq]
  simp [str_file, str_path, str_nfile, str_npath, str_repo, str_nrepo, str_tags, str_ntags,
    str_case, str_lit, str_mm, TrimSpace_nil, QuoteMeta, upper_eq, IndexAny]

/-- C6 at the query `max_matches:123`. -/
theorem C6_max_matches_witness :
    ParseQuery (str "max_matches:" ++ utf8 "123".toList) =
      .ok ({ FoldCase := true, MaxMatches := 123 }, none) :=
  C6_max_matches "123".toList (by decide) (by decide) (by decide)


/-- C9: opacity of groups.  For every valid Unicode string `g` that is one
complete parenthesized group (it starts with `(` and, tracking the depth from
1 after that character with a backslash exempting the next character, the
depth first reaches 0 exactly at the last character), `ParseQuery(g)` succeeds
with `Line = g`, with `File`, `NotFile`, `Repo`, `NotRepo`, `Tags` and
`NotTags` empty, `FilenameOnly = false` and `MaxMatches = 0`. -/
theorem C9_group_opaque (t : List Char) (h : closesAtEnd t 1 false = true) :
    ParseQuery (utf8 ('(' :: t)) =
      .ok ({ Line := utf8 ('(' :: t), File := [], NotFile := [], Repo := [], NotRepo := [],
             Tags := [], NotTags := [], FilenameOnly := false, MaxMatches := 0,
             FoldCase := (IndexAny (utf8 ('(' :: t)) (str "ABCDEFGHIJKLMNOPQRSTUVWXYZ") == -1) },
        none) := by
  have hlast := closesAtEnd_last t 1 false (by omega) h
  have ht : TrimSpace (utf8 ('(' :: t)) = utf8 ('(' :: t) := by
    apply TrimSpace_self
    · intro x hx
      simp only [List.head?_cons, Option.some.injEq] at hx
      rw [← hx]; decide
    · intro x hx
      cases t with
      | nil => simp [closesAtEnd] at h
      | cons y t' =>
        rw [List.getLast?_cons_cons, hlast] at hx
        simp only [Option.some.injEq] at hx
        rw [← hx]; decide
  rw [ParseQuery_of _ _ ht (scan_whole_group t (groupSpan_closes t 1 false h)),
    parse_whole_group t ht]

/-- The witnesses of C9 in the specification. -/
theorem C9_group_opaque_witness :
    ParseQuery (str "(file:a path:b max_matches:x)") =
      .ok ({ Line := str "(file:a path:b max_matches:x)", FoldCase := true }, none) ∧
    ParseQuery (str "(a (repo:b) \\) c)") =
      .ok ({ Line := str "(a (repo:b) \\) c)", FoldCase := true }, none) ∧
    ParseQuery (utf8 ('(' :: "a (repo:b) \\) c)".toList)) =
      .ok ({ Line := utf8 ('(' :: "a (repo:b) \\) c)".toList),
             FoldCase := (IndexAny (utf8 ('(' :: "a (repo:b) \\) c)".toList))
               (str "ABCDEFGHIJKLMNOPQRSTUVWXYZ") == -1) }, none) :=
  ⟨by decide, by decide, C9_group_opaque "a (repo:b) \\) c)".toList (by decide)⟩

/-- C10: unbalanced parentheses are tolerated.  For every valid Unicode query
whose trimmed text begins with `(` and whose group is never closed (the
tracked depth never returns to 0 before the end of the input), `ParseQuery`
returns no error and `Line` is the entire trimmed query, with all filter
fields empty. -/
theorem C10_unbalanced_group (cs t : List Char) (htrim : TrimSpace (utf8 cs) = utf8 ('(' :: t))
    (h : neverCloses t 1 false = true) :
    ParseQuery (utf8 cs) =
      .ok ({ Line := TrimSpace (utf8 cs), File := [], NotFile := [], Repo := [], NotRepo := [],
             Tags := [], NotTags := [], FilenameOnly := false, MaxMatches := 0,
             FoldCase := (IndexAny (TrimSpace (utf8 cs)) (str "ABCDEFGHIJKLMNOPQRSTUVWXYZ") == -1) },
        none) := by
  have ht : TrimSpace (utf8 ('(' :: t)) = utf8 ('(' :: t) := by
    rw [← htrim, TrimSpace_idem_utf8]
  have hs := scan_whole_group t (groupSpan_never t 1 false h)
  have hscan : scan (utf8 cs) = .ok
      (mapAdd (mapAdd (mapAdd mapEmpty [] []) [] (40 :: utf8 t)) [] []) := by
    rw [scan_eq, htrim, hs]
  rw [ParseQuery_eq _ _ hscan, parse_whole_group t ht, htrim]

/-- The witnesses of C10 in the specification, `(foo`, `(a\)` and `((a)`, and
a query that is trimmed first. -/
theorem C10_unbalanced_group_witness :
    ParseQuery (str "(foo") = .ok ({ Line := str "(foo", FoldCase := true }, none) ∧
    ParseQuery (str "(a\\)") = .ok ({ Line := str "(a\\)", FoldCase := true }, none) ∧
    ParseQuery (str "((a)") = .ok ({ Line := str "((a)", FoldCase := true }, none) ∧
    ParseQuery (utf8 " (a\\) ".toList) =
      .ok ({ Line := TrimSpace (utf8 " (a\\) ".toList),
             FoldCase := (IndexAny (TrimSpace (utf8 " (a\\) ".toList))
               (str "ABCDEFGHIJKLMNOPQRSTUVWXYZ") == -1) }, none) :=
  ⟨by decide, by decide, by decide,
    C10_unbalanced_group " (a\\) ".toList "a\\)".toList (by decide) (by decide)⟩


/-- C5: for every query in which the scanner switches the active context to
`case` or to `lit` at least once, that bucket is present in the bucket map
when the scan ends, so every successful result has `FoldCase = false`.
`ParseQuery("case:")` and `ParseQuery("lit:")` succeed with `Line = ""` and
`FoldCase = false`, and for every `t` without white space, parenthesis,
backslash or colon `ParseQuery(t ++ " case:")` succeeds with `Line = t` and
`FoldCase = false`. -/
theorem C5_case_lit_bucket :
    (∀ query k : GoString, (k = str "case" ∨ k = str "lit") → k ∈ keysOf query →
      mapHas (scanOps query) k = true ∧
      ∀ out, ParseQuery query = .ok (out, none) → out.FoldCase = false) ∧
    ParseQuery (str "case:") = .ok ({ Line := [], FoldCase := false }, none) ∧
    ParseQuery (str "lit:") = .ok ({ Line := [], FoldCase := false }, none) ∧
    (∀ t : List Char, (∀ c ∈ t, plainChar c = true) →
      ParseQuery (utf8 t ++ str " case:") = .ok ({ Line := utf8 t, FoldCase := false }, none)) := by
  refine ⟨?_, by decide, by decide, ?_⟩
  · intro query k hk hmem
    have hhas := keysOf_has query k hmem
    refine ⟨hhas, ?_⟩
    intro out ho
    rw [ParseQuery_ok] at ho
    have h' : assemble (scanOps query) = (out, none) := Except.ok.inj ho
    rw [assemble_foldCase (scanOps query) out h']
    rcases hk with hk | hk
    · rw [hk] at hhas; rw [if_pos (Or.inl hhas)]
    · rw [hk] at hhas; rw [if_pos (Or.inr hhas)]
  · intro t ht
    cases t with
    | nil => decide
    | cons c t' =>
      have htrim : TrimSpace (utf8 (c :: t') ++ str " case:") = utf8 (c :: t') ++ str " case:" := by
        have e : utf8 (c :: t') ++ str " case:" = utf8 ((c :: t') ++ " case:".toList) := by
          rw [utf8_append]; rfl
        rw [e]
        apply TrimSpace_self
        · intro x hx
          simp only [List.cons_append, List.head?_cons, Option.some.injEq] at hx
          rw [← hx]; exact plainChar_not_space c (ht c (List.mem_cons_self _ _))
        · intro x hx
          rw [getLast?_append_ne _ _ (by decide)] at hx
          have : x = ':' := by
            have h2 : " case:".toList.getLast? = some ':' := by decide
            rw [h2] at hx
            exact (Option.some.inj hx).symm
          rw [this]; decide
      have hne : utf8 (c :: t') ≠ [] := by rw [ne_eq, utf8_eq_nil]; simp
      have hts := TrimSpace_trailing_space (c :: t') ht
      rw [ParseQuery_of _ _ htrim (scan_word_case (c :: t') ht)]
      rw [assemble_plain _ (by simp [str_file, str_path, str_case])
        (by simp [str_nfile, str_npath, str_case])
        (by simp [specCount, str_case, str_lit, TrimSpace_nil, hts, hne])
        (by simp [str_mm, str_case])]
      simp only [setFoldCase, promote, beforePromotion, resolvedFile_eq, notFile_eq, chosenLine_eq]
      simp [str_file, str_path, str_nfile, str_npath, str_repo, str_nrepo, str_tags, str_ntags,
        str_case, str_lit, str_mm, TrimSpace_nil, QuoteMeta, hts, hne]

/-- C5 at the queries `Foo case:` and `abc case:`. -/
theorem C5_case_lit_bucket_witness :
    (mapHas (scanOps (str "Foo case:")) (str "case") = true ∧
      ∀ out, ParseQuery (str "Foo case:") = .ok (out, none) → out.FoldCase = false) ∧
    ParseQuery (utf8 "abc".toList ++ str " case:") =
      .ok ({ Line := utf8 "abc".toList, FoldCase := false }, none) :=
  ⟨C5_case_lit_bucket.1 (str "Foo case:") (str "case") (Or.inl rfl) (by decide),
    C5_case_lit_bucket.2.2.2 "abc".toList (by decide)⟩



/-- C11: totality of scanning.  The scan of every query ends with a bucket
map; every match of `pieceRE` is non-empty; an iteration that finds no match
ends the loop, and one that finds a match leaves a strictly shorter text; and
the group loop ends for every text, because every rune it decodes takes at
least one byte. -/
theorem C11_scan_terminates :
    (∀ query : GoString, ∃ ops, scan query = .ok ops) ∧
    (∀ (q : GoString) (m : Loc), FindStringSubmatchIndex q = some m → m.m0 < m.m1) ∧
    (∀ (ops : Ops) (key q : GoString), FindStringSubmatchIndex q = none →
      scanBody ops key q = .ok (.done (mapAdd ops key q))) ∧
    (∀ (ops : Ops) (key q : GoString) (ops1 : Ops) (key1 q1 : GoString),
      scanBody ops key q = .ok (.next ops1 key1 q1) → q1.length < q.length) ∧
    (∀ s : GoString, s ≠ [] →
      1 ≤ (DecodeRuneInString s).2 ∧ (DecodeRuneInString s).2 ≤ s.length) ∧
    (∀ (q : GoString) (fuel i : Nat) (p : Int) (esc : Bool) (w : GoString),
      i ≤ q.length → q.length - i < fuel →
      ∃ (j : Nat) (w1 : GoString), groupLoop q fuel p i esc w = .ok ((j : Int), w1) ∧
        i ≤ j ∧ j ≤ q.length) := by
  refine ⟨scan_total, ?_, ?_, ?_, decode_width, groupLoop_total⟩
  · intro q m h
    obtain ⟨pre, mtch, rest, hp⟩ := find_spec q m h
    have hm : 1 ≤ mtch.length := by
      rcases hp.kind with ⟨h | h | ⟨t, _, h, _⟩, _⟩ | ⟨_, k, _, h, _⟩ <;> rw [h] <;> simp
    rw [hp.start, hp.stop]; omega
  · intro ops key q h
    unfold scanBody
    rw [h]
  · intro ops key q ops1 key1 q1 h
    rcases scanBody_total ops key q with ⟨ops2, e⟩ | ⟨ops2, key2, q2, e, hlt⟩
    · rw [h] at e; simp at e
    · rw [h] at e
      simp only [Except.ok.injEq, Step.next.injEq] at e
      rw [e.2.2]; exact hlt

/-- C11 at the query `repo:a (b c` and at the group text `b c`. -/
theorem C11_scan_terminates_witness :
    (FindStringSubmatchIndex (str "a (b c") = some ⟨1, 2, -1, -1⟩ ∧ (1 : Int) < 2) ∧
    (str "b c").length - 0 < 4 ∧
    ∃ (j : Nat) (w1 : GoString), groupLoop (str "b c") 4 1 0 false [] = .ok ((j : Int), w1) ∧
      0 ≤ j ∧ j ≤ (str "b c").length :=
  ⟨⟨by decide, C11_scan_terminates.2.1 (str "a (b c") ⟨1, 2, -1, -1⟩ (by decide)⟩,
    by decide,
    C11_scan_terminates.2.2.2.2.2 (str "b c") 4 0 1 false [] (by decide) (by decide)⟩

/-- C20: the scanner never fails.  No iteration of the loop takes a slice or
an index out of range, so the scan of every query ends with a bucket map and
the group loop with a cursor inside the text.  Every match is a non-empty
slice of the text, so its first byte exists.  A match that is not a space, not
an opening parenthesis and does not start with a backslash is the tag
alternative: it starts at offset 0, its capture offsets satisfy
`0 ≤ m[2] ≤ m[3] < m[1]`, and the slice `match[m[2]-m[0]:m[3]-m[0]]` is the
match without its final colon. -/
theorem C20_scanner_never_fails :
    (∀ query : GoString, ∃ ops, scan query = .ok ops) ∧
    (∀ (ops : Ops) (key q : GoString) (e : Fault), scanBody ops key q ≠ .error e) ∧
    (∀ q : GoString, ∃ (j : Nat) (w : GoString),
      groupLoop q (q.length + 1) 1 0 false [] = .ok ((j : Int), w) ∧ j ≤ q.length ∧
      ∃ rest, slice q j q.length = .ok rest) ∧
    (∀ (q : GoString) (m : Loc), FindStringSubmatchIndex q = some m →
      ∃ pre mtch rest b, slice q 0 m.m0 = .ok pre ∧ slice q m.m0 m.m1 = .ok mtch ∧
        slice q m.m1 q.length = .ok rest ∧ byteAt mtch 0 = .ok b ∧
        (mtch ≠ [32] → mtch ≠ [40] → b ≠ 92 →
          m.m0 = 0 ∧ 0 ≤ m.m2 ∧ m.m2 ≤ m.m3 ∧ m.m3 < m.m1 ∧
          ∃ k, slice mtch (m.m2 - m.m0) (m.m3 - m.m0) = .ok k ∧ mtch = k ++ [58])) := by
  refine ⟨scan_total, ?_, ?_, ?_⟩
  · intro ops key q e h
    rcases scanBody_total ops key q with ⟨ops2, e2⟩ | ⟨ops2, key2, q2, e2, _⟩ <;>
      rw [h] at e2 <;> simp at e2
  · intro q
    obtain ⟨j, w, e, _, h2⟩ := groupLoop_total q (q.length + 1) 0 1 false [] (by omega) (by omega)
    exact ⟨j, w, e, h2, _, slice_drop q j h2⟩
  · intro q m h
    obtain ⟨pre, mtch, rest, hp⟩ := find_spec q m h
    have e1 : slice q 0 m.m0 = .ok pre := by
      rw [hp.split, hp.start]; exact slice_pre pre mtch rest
    have e2 : slice q m.m0 m.m1 = .ok mtch := by
      rw [hp.split, hp.start, hp.stop]; exact slice_mid pre mtch rest
    have e3 : slice q m.m1 q.length = .ok rest := by
      rw [hp.stop]
      have := slice_rest pre mtch rest
      rw [← hp.split] at this
      exact this
    rcases hp.kind with ⟨hk, _⟩ | ⟨hpre, k, hk, hm, _, h2, h3⟩
    · rcases hk with hk | hk | ⟨t, _, hk, _⟩
      · exact ⟨pre, mtch, rest, 32, e1, e2, e3, by rw [hk]; exact byteAt_cons _ _, fun c => absurd hk c⟩
      · exact ⟨pre, mtch, rest, 40, e1, e2, e3, by rw [hk]; exact byteAt_cons _ _, fun _ c => absurd hk c⟩
      · exact ⟨pre, mtch, rest, 92, e1, e2, e3, by rw [hk]; exact byteAt_cons _ _, fun _ _ c => absurd rfl c⟩
    · obtain ⟨b, t, hbt⟩ := List.exists_cons_of_ne_nil hk
      have hs := hp.start
      have ht := hp.stop
      have hlen : mtch.length = k.length + 1 := by rw [hm]; simp
      rw [hpre] at hs ht
      simp only [List.length_nil, Nat.cast_zero, zero_add] at hs ht
      refine ⟨pre, mtch, rest, b, e1, e2, e3,
        by rw [hm, hbt, List.cons_append]; exact byteAt_cons _ _, fun _ _ _ => ?_⟩
      refine ⟨hs, by omega, by omega, by omega, k, ?_, hm⟩
      rw [h2, h3, hs, hm]
      have := slice_nat (k ++ [58]) 0 k.length (by omega) (by simp)
      simpa using this

/-- C20 at the text `repo:a b`, whose match is the tag `repo:`. -/
theorem C20_scanner_never_fails_witness :
    FindStringSubmatchIndex (str "repo:a b") = some ⟨0, 5, 0, 4⟩ ∧
    ∃ pre mtch rest b, slice (str "repo:a b") 0 (0 : Int) = .ok pre ∧
      slice (str "repo:a b") (0 : Int) (5 : Int) = .ok mtch ∧
      slice (str "repo:a b") (5 : Int) (str "repo:a b").length = .ok rest ∧
      byteAt mtch 0 = .ok b ∧
      (mtch ≠ [32] → mtch ≠ [40] → b ≠ 92 →
        (0 : Int) = 0 ∧ (0 : Int) ≤ 0 ∧ (0 : Int) ≤ 4 ∧ (4 : Int) < 5 ∧
        ∃ k, slice mtch ((0 : Int) - 0) ((4 : Int) - 0) = .ok k ∧ mtch = k ++ [58]) :=
  ⟨by decide, C20_scanner_never_fails.2.2.2 (str "repo:a b") ⟨0, 5, 0, 4⟩ (by decide)⟩



/-- C17: the validation rules are checked in a fixed order and only the first
violated one is reported.  With the buckets of the scan of a query: a
`file`/`path` conflict is reported whatever else is wrong; otherwise a
`-file`/`-path` conflict; otherwise more than one line specifier; otherwise an
invalid `max_matches` value; otherwise there is no error.  The query
`file:a path:b max_matches:x` reports the synonym conflict, and
`case:a b max_matches:x` the multiple-specifier error. -/
theorem C17_error_precedence :
    (∀ query : GoString,
      (mapGet (scanOps query) (str "file") ≠ [] ∧ mapGet (scanOps query) (str "path") ≠ [] →
        errorOf query = some (some errFilePath)) ∧
      (¬ (mapGet (scanOps query) (str "file") ≠ [] ∧ mapGet (scanOps query) (str "path") ≠ []) →
        (mapGet (scanOps query) (str "-file") ≠ [] ∧
          mapGet (scanOps query) (str "-path") ≠ [] →
          errorOf query = some (some errNotFilePath)) ∧
        (¬ (mapGet (scanOps query) (str "-file") ≠ [] ∧
            mapGet (scanOps query) (str "-path") ≠ []) →
          (1 < specCount (scanOps query) → errorOf query = some (some errMultiple)) ∧
          (¬ 1 < specCount (scanOps query) →
            (mapHas (scanOps query) (str "max_matches") = true ∧
              mapGet (scanOps query) (str "max_matches") ≠ [] ∧
              Atoi (mapGet (scanOps query) (str "max_matches")) = none →
              errorOf query = some (some errMaxMatches)) ∧
            (¬ (mapHas (scanOps query) (str "max_matches") = true ∧
              mapGet (scanOps query) (str "max_matches") ≠ [] ∧
              Atoi (mapGet (scanOps query) (str "max_matches")) = none) →
              errorOf query = some none))))) ∧
    errorOf (str "file:a path:b max_matches:x") = some (some errFilePath) ∧
    errorOf (str "case:a b max_matches:x") = some (some errMultiple) ∧
    errFilePath ≠ errNotFilePath ∧ errFilePath ≠ errMultiple ∧ errFilePath ≠ errMaxMatches ∧
    errNotFilePath ≠ errMultiple ∧ errNotFilePath ≠ errMaxMatches ∧
    errMultiple ≠ errMaxMatches := by
  refine ⟨fun query => ?_, by decide, by decide, by decide, by decide, by decide, by decide,
    by decide, by decide⟩
  rw [errorOf_eq, assemble_err]
  refine ⟨fun c1 => by rw [if_pos c1], fun c1 => ⟨fun c2 => by rw [if_neg c1, if_pos c2],
    fun c2 => ⟨fun c3 => by rw [if_neg c1, if_neg c2, if_pos c3], fun c3 =>
      ⟨fun c4 => by rw [if_neg c1, if_neg c2, if_neg c3, if_pos c4],
        fun c4 => by rw [if_neg c1, if_neg c2, if_neg c3, if_neg c4]⟩⟩⟩⟩

/-- C17 at the query `-file:a -path:b case:c d max_matches:x`, which breaks
the last three rules and reports the `-file`/`-path` conflict. -/
theorem C17_error_precedence_witness :
    ¬ (mapGet (scanOps (str "-file:a -path:b case:c d max_matches:x")) (str "file") ≠ [] ∧
      mapGet (scanOps (str "-file:a -path:b case:c d max_matches:x")) (str "path") ≠ []) ∧
    (mapGet (scanOps (str "-file:a -path:b case:c d max_matches:x")) (str "-file") ≠ [] ∧
      mapGet (scanOps (str "-file:a -path:b case:c d max_matches:x")) (str "-path") ≠ []) ∧
    1 < specCount (scanOps (str "-file:a -path:b case:c d max_matches:x")) ∧
    Atoi (mapGet (scanOps (str "-file:a -path:b case:c d max_matches:x"))
      (str "max_matches")) = none ∧
    errorOf (str "-file:a -path:b case:c d max_matches:x") = some (some errNotFilePath) :=
  ⟨by decide, by decide, by decide, by decide,
    ((C17_error_precedence.1 (str "-file:a -path:b case:c d max_matches:x")).2
      (by decide)).1 (by decide)⟩

/-- C19 fails as stated: the query `foo case:` is parsed without error, its
bare-text bucket is `foo ` with the space that ended the word, its `case` and
`lit` buckets are empty, and the line chosen is `foo`, without that space. -/
theorem C19_single_specifier_counterexample :
    errorOf (str "foo case:") = some none ∧
    nonEmptyCount (scanOps (str "foo case:")) = 1 ∧
    mapGet (scanOps (str "foo case:")) [] = str "foo " ∧
    chosenLine (scanOps (str "foo case:")) = str "foo" ∧
    chosenLine (scanOps (str "foo case:")) ≠ mapGet (scanOps (str "foo case:")) [] := by
  decide

/-- C19, amended: for every query that `ParseQuery` parses without error and
for which exactly one of the bare-text, `case` and `lit` buckets is not empty,
the line chosen before the filename promotion is the text of that bucket
without its leading and trailing white space (for `lit`, the literal-escaped
form of that trimmed text); `ParseQuery` returns the query built from that
line by the promotion, `FoldCase` and `MaxMatches`. -/
theorem C19_single_specifier (query : GoString) (hok : errorOf query = some none)
    (hone : nonEmptyCount (scanOps query) = 1) :
    (mapGet (scanOps query) [] ≠ [] →
      chosenLine (scanOps query) = TrimSpace (mapGet (scanOps query) [])) ∧
    (mapGet (scanOps query) (str "case") ≠ [] →
      chosenLine (scanOps query) = TrimSpace (mapGet (scanOps query) (str "case"))) ∧
    (mapGet (scanOps query) (str "lit") ≠ [] →
      chosenLine (scanOps query) = QuoteMeta (TrimSpace (mapGet (scanOps query) (str "lit")))) ∧
    (beforePromotion (scanOps query)).Line = chosenLine (scanOps query) ∧
    ∃ n, ParseQuery query = .ok ({ setFoldCase (scanOps query)
      (promote (beforePromotion (scanOps query))) with MaxMatches := n }, none) := by
  have he := errorOf_eq query
  rw [hok] at he
  simp only [Option.some.injEq] at he
  obtain ⟨n, hn⟩ := assemble_shape (scanOps query) he.symm
  have hc := chosenLine_single (scanOps query) hone
  exact ⟨hc.1, hc.2.1, hc.2.2, by unfold beforePromotion; simp only, n,
    by rw [ParseQuery_ok, hn]⟩

/-- C19, amended, at the query `foo case:`. -/
theorem C19_single_specifier_witness :
    errorOf (str "foo case:") = some none ∧
    nonEmptyCount (scanOps (str "foo case:")) = 1 ∧
    (mapGet (scanOps (str "foo case:")) [] ≠ [] →
      chosenLine (scanOps (str "foo case:")) =
        TrimSpace (mapGet (scanOps (str "foo case:")) [])) :=
  ⟨by decide, by decide, (C19_single_specifier (str "foo case:") (by decide) (by decide)).1⟩



/-- C13: plain free text.  For every valid Unicode query that contains no
colon, `ParseQuery` succeeds with `Line` equal to the query without its
leading and trailing white space — interior spaces, parenthesized groups and
escapes kept as they are —, with `File`, `NotFile`, `Repo`, `NotRepo`, `Tags`
and `NotTags` empty, `FilenameOnly = false` and `MaxMatches = 0`, and with
`FoldCase` true exactly when the trimmed query has no ASCII upper-case
letter. -/
theorem C13_plain_free_text (cs : List Char) (h : ∀ c ∈ cs, c ≠ ':') :
    ParseQuery (utf8 cs) =
      .ok ({ Line := TrimSpace (utf8 cs), File := [], NotFile := [], Repo := [], NotRepo := [],
             Tags := [], NotTags := [], FilenameOnly := false, MaxMatches := 0,
             FoldCase := (IndexAny (TrimSpace (utf8 cs)) (str "ABCDEFGHIJKLMNOPQRSTUVWXYZ") == -1) },
        none) ∧
    TrimSpace (utf8 cs) = utf8 (trimChars cs) ∧
    ((IndexAny (TrimSpace (utf8 cs)) (str "ABCDEFGHIJKLMNOPQRSTUVWXYZ") == -1) = true ↔
      ∀ b ∈ TrimSpace (utf8 cs), isUpper b = false) := by
  refine ⟨?_, TrimSpace_utf8 cs, foldCase_test _⟩
  rw [ParseQuery_ok, scanOps_free cs h, assemble_bare _ (TrimSpace_idem_utf8 cs)]

/-- C13 at the queries `foo bar` and `(foo bar) baz`. -/
theorem C13_plain_free_text_witness :
    ParseQuery (utf8 "foo bar".toList) =
      .ok ({ Line := str "foo bar", FoldCase := true }, none) ∧
    ParseQuery (utf8 "(foo bar) baz".toList) =
      .ok ({ Line := str "(foo bar) baz", FoldCase := true }, none) :=
  ⟨(C13_plain_free_text "foo bar".toList (by decide)).1,
    (C13_plain_free_text "(foo bar) baz".toList (by decide)).1⟩

/-- C12 fails as stated: the bytes `(`, `0xFF`, `)` hold no white space, but
`ParseQuery` on `lit:` followed by them has a `Line` that is not those bytes
with backslashes inserted: the group reader decodes the byte `0xFF`, which is
no valid UTF-8, as U+FFFD and writes the three bytes of that character. -/
theorem C12_literal_escaping_counterexample :
    noSpace [40, 255, 41] = true ∧
    ParseQuery (str "lit:" ++ [40, 255, 41]) =
      .ok ({ Line := [92, 40, 239, 191, 189, 92, 41], FoldCase := false }, none) ∧
    QuoteMeta [40, 255, 41] = [92, 40, 255, 92, 41] ∧
    unquote [92, 40, 239, 191, 189, 92, 41] ≠ [40, 255, 41] := by
  decide

/-- C12, amended: literal escaping.  For every valid Unicode string `t` that
contains no white space, `ParseQuery("lit:" ++ t)` succeeds with `Line` equal
to `t` with a backslash inserted before each of the bytes
`\ . + * ? ( ) | [ ] { } ^ $` and every other byte unchanged, with
`FoldCase = false` and all filters empty; taking the inserted backslashes out
gives `t` back. -/
theorem C12_literal_escaping (t : List Char) (h : ∀ c ∈ t, spaceChar c = false) :
    ParseQuery (str "lit:" ++ utf8 t) =
      .ok ({ Line := QuoteMeta (utf8 t), File := [], NotFile := [], Repo := [], NotRepo := [],
             Tags := [], NotTags := [], FilenameOnly := false, MaxMatches := 0,
             FoldCase := false }, none) ∧
    unquote (QuoteMeta (utf8 t)) = utf8 t ∧
    QuoteMeta [] = [] ∧
    (∀ (b : Nat) (s : GoString), b ∈ str "\\.+*?()|[]{}^$" →
      QuoteMeta (b :: s) = 92 :: b :: QuoteMeta s) ∧
    (∀ (b : Nat) (s : GoString), b ∉ str "\\.+*?()|[]{}^$" →
      QuoteMeta (b :: s) = b :: QuoteMeta s) := by
  refine ⟨?_, unquote_QuoteMeta _, rfl, ?_, ?_⟩
  · have e : str "lit:" ++ utf8 t = str "lit" ++ 58 :: utf8 t := by
      have e1 : str "lit:" = str "lit" ++ [58] := by decide
      rw [e1]; simp
    have htr : TrimSpace (str "lit:" ++ utf8 t) = str "lit:" ++ utf8 t := by
      have e2 : str "lit:" ++ utf8 t = utf8 ("lit:".toList ++ t) := by
        rw [utf8_append]; rfl
      rw [e2]
      exact trim_tail_nospace _ t 'l' ':' rfl rfl (by decide) (by decide) h
    have hs := scan_tag_absorb (str "lit") t (by decide)
      (fun c hc => spaceChar_ne_space c (h c hc))
    rw [← e] at hs
    rw [ParseQuery_of _ _ htr hs, assemble_lit _ (TrimSpace_nospace t h)]
  · intro b s hb
    have := (special_iff b).2 hb
    conv => lhs; unfold QuoteMeta
    rw [if_pos this]
  · intro b s hb
    have : ¬ special b = true := fun hsb => hb ((special_iff b).1 hsb)
    conv => lhs; unfold QuoteMeta
    rw [if_neg this]

/-- C12, amended, at `t = a+b`: the line is `a\+b`. -/
theorem C12_literal_escaping_witness :
    ParseQuery (str "lit:" ++ utf8 "a+b".toList) =
      .ok ({ Line := str "a\\+b", FoldCase := false }, none) :=
  (C12_literal_escaping "a+b".toList (by decide)).1



/-- C15: a space ends the active operator and is dropped.  For all non-empty
strings `a` and `b` that contain no white space, parenthesis, backslash or
colon, `ParseQuery("repo:" ++ a ++ " " ++ b)` succeeds with `Repo = a` and
`Line = b`, every other filter empty; the text after the space is the content
of the bare-text bucket, and the space is in neither field. -/
theorem C15_space_ends_operator (a b : GoString) (ha : a ≠ []) (hb : b ≠ [])
    (hpa : plainText a = true) (hpb : plainText b = true) :
    ParseQuery (str "repo:" ++ a ++ str " " ++ b) =
      .ok ({ Repo := a, Line := b, File := [], NotFile := [], NotRepo := [],
             Tags := [], NotTags := [], FilenameOnly := false, MaxMatches := 0,
             FoldCase := (IndexAny b (str "ABCDEFGHIJKLMNOPQRSTUVWXYZ") == -1) },
        none) ∧
    mapGet (scanOps (str "repo:" ++ a ++ str " " ++ b)) [] = b ∧
    mapGet (scanOps (str "repo:" ++ a ++ str " " ++ b)) (str "repo") = a ∧
    a ≠ [] ∧ 32 ∉ a ∧ 32 ∉ b := by
  have e : str "repo:" ++ a ++ str " " ++ b = str "repo" ++ 58 :: (a ++ 32 :: b) := by
    have e1 : str "repo:" = str "repo" ++ [58] := by decide
    have e2 : str " " = [32] := by decide
    rw [e1, e2]; simp
  have ht : TrimSpace (str "repo:" ++ a ++ str " " ++ b) =
      str "repo:" ++ a ++ str " " ++ b := by
    have e2 : str "repo:" ++ a ++ str " " ++ b = 114 :: ((str "epo:" ++ a) ++ 32 :: b) := by
      have e1 : str "repo:" = 114 :: str "epo:" := by decide
      have e3 : str " " = [32] := by decide
      rw [e1, e3]; simp
    rw [e2]
    exact trim_bytes 114 _ 32 b (by omega) (by decide) (by omega) (Or.inr hb)
      (plainText_noSpace b hpb)
  have hs := scan_tag_space (str "repo") a b (by decide) (plainText_plain a hpa)
    (plainText_plain b hpb)
  rw [← e] at hs
  have htb := TrimSpace_noSpace b (plainText_noSpace b hpb)
  refine ⟨?_, ?_, ?_, ha, fun h => (plainText_plain a hpa 32 h).1 rfl,
    fun h => (plainText_plain b hpb 32 h).1 rfl⟩
  · rw [ParseQuery_of _ _ ht hs]
    rw [assemble_plain _ (by simp [str_file, str_path, str_repo])
      (by simp [str_nfile, str_npath, str_repo])
      (by simp [specCount, str_case, str_lit, str_repo, TrimSpace_nil, htb, hb])
      (by simp [str_mm, str_repo])]
    simp only [setFoldCase, promote, beforePromotion, resolvedFile_eq, notFile_eq, chosenLine_eq]
    simp [str_file, str_path, str_nfile, str_npath, str_repo, str_nrepo, str_tags, str_ntags,
      str_case, str_lit, str_mm, TrimSpace_nil, QuoteMeta, htb, hb]
  · rw [scanOps_of _ _ ht hs]
    simp [str_repo]
  · rw [scanOps_of _ _ ht hs]
    simp [str_repo]

/-- C15 at the query `repo:foo bar`. -/
theorem C15_space_ends_operator_witness :
    ParseQuery (str "repo:" ++ str "foo" ++ str " " ++ str "bar") =
      .ok ({ Repo := str "foo", Line := str "bar", FoldCase := true }, none) :=
  (C15_space_ends_operator (str "foo") (str "bar") (by decide) (by decide) (by decide)
    (by decide)).1



/-- C18 fails as stated for `file`: `ParseQuery("file:a file:b")` reports no
error, but its `File` is empty and not `ab`; the accumulated value `ab` is in
`Line`, with `FilenameOnly` set. -/
theorem C18_accumulation_counterexample :
    plainText (str "a") = true ∧ plainText (str "b") = true ∧
    ParseQuery (str "file:" ++ str "a" ++ str " file:" ++ str "b") =
      .ok ({ Line := str "ab", File := [], FilenameOnly := true, FoldCase := true }, none) ∧
    ([] : GoString) ≠ str "a" ++ str "b" := by
  decide

/-- C18, amended: accumulation is concatenation.  Adding to a bucket twice
leaves the two values one after the other with no separator.  For all `a` and
`b` that contain no white space, parenthesis, backslash or colon,
`ParseQuery("repo:" ++ a ++ " repo:" ++ b)` succeeds with `Repo = a ++ b`, and
the same holds for `tags`, `-repo` and `-tags`.  Two `file:` operators raise
no synonym conflict and leave `a ++ b` in the `file` bucket; the filename
promotion then moves that value, when it is not empty, from `File` to `Line`
and sets `FilenameOnly`. -/
theorem C18_accumulation (a b : GoString) (hpa : plainText a = true)
    (hpb : plainText b = true) :
    (∀ (ops : Ops) (k x y : GoString),
      mapGet (mapAdd (mapAdd ops k x) k y) k = mapGet ops k ++ x ++ y) ∧
    ParseQuery (str "repo:" ++ a ++ str " repo:" ++ b) =
      .ok ({ Repo := a ++ b, FoldCase := true }, none) ∧
    ParseQuery (str "tags:" ++ a ++ str " tags:" ++ b) =
      .ok ({ Tags := a ++ b, FoldCase := true }, none) ∧
    ParseQuery (str "-repo:" ++ a ++ str " -repo:" ++ b) =
      .ok ({ NotRepo := a ++ b, FoldCase := true }, none) ∧
    ParseQuery (str "-tags:" ++ a ++ str " -tags:" ++ b) =
      .ok ({ NotTags := a ++ b, FoldCase := true }, none) ∧
    mapGet (scanOps (str "file:" ++ a ++ str " file:" ++ b)) (str "file") = a ++ b ∧
    (a ++ b = [] →
      ParseQuery (str "file:" ++ a ++ str " file:" ++ b) = .ok ({ FoldCase := true }, none)) ∧
    (a ++ b ≠ [] →
      ParseQuery (str "file:" ++ a ++ str " file:" ++ b) =
        .ok ({ Line := a ++ b, File := [], FilenameOnly := true,
               FoldCase := (IndexAny (a ++ b) (str "ABCDEFGHIJKLMNOPQRSTUVWXYZ") == -1) },
          none)) := by
  refine ⟨?_, ?_, ?_, ?_, ?_, ?_, ?_, ?_⟩
  · intro ops k x y
    rw [mapAdd_mapAdd]
    simp [mapGet, mapAdd]
  · have h := (parse_two_tags_bytes [114, 101, 112, 111] a b (by decide) hpa hpb).1
    have e : str "repo:" ++ a ++ str " repo:" ++ b =
        [114, 101, 112, 111] ++ 58 :: (a ++ 32 :: ([114, 101, 112, 111] ++ 58 :: b)) := by
      have e1 : str "repo:" = [114, 101, 112, 111] ++ [58] := by decide
      have e3 : str " repo:" = 32 :: ([114, 101, 112, 111] ++ [58]) := by decide
      rw [e1, e3]; simp
    rw [e, h]
    rw [assemble_plain _ (by simp [str_file, str_path])
      (by simp [str_nfile, str_npath])
      (by simp [specCount, str_case, str_lit, TrimSpace_nil])
      (by simp [str_mm])]
    simp only [setFoldCase, promote, beforePromotion, resolvedFile_eq, notFile_eq, chosenLine_eq]
    simp [str_file, str_path, str_nfile, str_npath, str_repo, str_nrepo, str_tags, str_ntags,
      str_case, str_lit, str_mm, TrimSpace_nil, QuoteMeta, upper_eq, IndexAny]
  · have h := (parse_two_tags_bytes [116, 97, 103, 115] a b (by decide) hpa hpb).1
    have e : str "tags:" ++ a ++ str " tags:" ++ b =
        [116, 97, 103, 115] ++ 58 :: (a ++ 32 :: ([116, 97, 103, 115] ++ 58 :: b)) := by
      have e1 : str "tags:" = [116, 97, 103, 115] ++ [58] := by decide
      have e3 : str " tags:" = 32 :: ([116, 97, 103, 115] ++ [58]) := by decide
      rw [e1, e3]; simp
    rw [e, h]
    rw [assemble_plain _ (by simp [str_file, str_path])
      (by simp [str_nfile, str_npath])
      (by simp [specCount, str_case, str_lit, TrimSpace_nil])
      (by simp [str_mm])]
    simp only [setFoldCase, promote, beforePromotion, resolvedFile_eq, notFile_eq, chosenLine_eq]
    simp [str_file, str_path, str_nfile, str_npath, str_repo, str_nrepo, str_tags, str_ntags,
      str_case, str_lit, str_mm, TrimSpace_nil, QuoteMeta, upper_eq, IndexAny]
  · have h := (parse_two_tags_bytes [45, 114, 101, 112, 111] a b (by decide) hpa hpb).1
    have e : str "-repo:" ++ a ++ str " -repo:" ++ b =
        [45, 114, 101, 112, 111] ++ 58 :: (a ++ 32 :: ([45, 114, 101, 112, 111] ++ 58 :: b)) := by
      have e1 : str "-repo:" = [45, 114, 101, 112, 111] ++ [58] := by decide
      have e3 : str " -repo:" = 32 :: ([45, 114, 101, 112, 111] ++ [58]) := by decide
      rw [e1, e3]; simp
    rw [e, h]
    rw [assemble_plain _ (by simp [str_file, str_path])
      (by simp [str_nfile, str_npath])
      (by simp [specCount, str_case, str_lit, TrimSpace_nil])
      (by simp [str_mm])]
    simp only [setFoldCase, promote, beforePromotion, resolvedFile_eq, notFile_eq, chosenLine_eq]
    simp [str_file, str_path, str_nfile, str_npath, str_repo, str_nrepo, str_tags, str_ntags,
      str_case, str_lit, str_mm, TrimSpace_nil, QuoteMeta, upper_eq, IndexAny]
  · have h := (parse_two_tags_bytes [45, 116, 97, 103, 115] a b (by decide) hpa hpb).1
    have e : str "-tags:" ++ a ++ str " -tags:" ++ b =
        [45, 116, 97, 103, 115] ++ 58 :: (a ++ 32 :: ([45, 116, 97, 103, 115] ++ 58 :: b)) := by
      have e1 : str "-tags:" = [45, 116, 97, 103, 115] ++ [58] := by decide
      have e3 : str " -tags:" = 32 :: ([45, 116, 97, 103, 115] ++ [58]) := by decide
      rw [e1, e3]; simp
    rw [e, h]
    rw [assemble_plain _ (by simp [str_file, str_path])
      (by simp [str_nfile, str_npath])
      (by simp [specCount, str_case, str_lit, TrimSpace_nil])
      (by simp [str_mm])]
    simp only [setFoldCase, promote, beforePromotion, resolvedFile_eq, notFile_eq, chosenLine_eq]
    simp [str_file, str_path, str_nfile, str_npath, str_repo, str_nrepo, str_tags, str_ntags,
      str_case, str_lit, str_mm, TrimSpace_nil, QuoteMeta, upper_eq, IndexAny]
  · have h := (parse_two_tags_bytes [102, 105, 108, 101] a b (by decide) hpa hpb).2
    have e : str "file:" ++ a ++ str " file:" ++ b =
        [102, 105, 108, 101] ++ 58 :: (a ++ 32 :: ([102, 105, 108, 101] ++ 58 :: b)) := by
      have e1 : str "file:" = [102, 105, 108, 101] ++ [58] := by decide
      have e3 : str " file:" = 32 :: ([102, 105, 108, 101] ++ [58]) := by decide
      rw [e1, e3]; simp
    rw [e, h]
    simp [str_file]
  · intro h0
    have h := (parse_two_tags_bytes [102, 105, 108, 101] a b (by decide) hpa hpb).1
    have e : str "file:" ++ a ++ str " file:" ++ b =
        [102, 105, 108, 101] ++ 58 :: (a ++ 32 :: ([102, 105, 108, 101] ++ 58 :: b)) := by
      have e1 : str "file:" = [102, 105, 108, 101] ++ [58] := by decide
      have e3 : str " file:" = 32 :: ([102, 105, 108, 101] ++ [58]) := by decide
      rw [e1, e3]; simp
    rw [e, h]
    rw [assemble_plain _ (by simp [str_file, str_path])
      (by simp [str_nfile, str_npath])
      (by simp [specCount, str_case, str_lit, TrimSpace_nil])
      (by simp [str_mm])]
    simp only [setFoldCase, promote, beforePromotion, resolvedFile_eq, notFile_eq, chosenLine_eq]
    simp only [List.append_eq_nil] at h0
    simp [str_file, str_path, str_nfile, str_npath, str_repo, str_nrepo, str_tags, str_ntags,
      str_case, str_lit, str_mm, TrimSpace_nil, QuoteMeta, upper_eq, IndexAny, h0.1, h0.2]
  · intro h0
    have h := (parse_two_tags_bytes [102, 105, 108, 101] a b (by decide) hpa hpb).1
    have e : str "file:" ++ a ++ str " file:" ++ b =
        [102, 105, 108, 101] ++ 58 :: (a ++ 32 :: ([102, 105, 108, 101] ++ 58 :: b)) := by
      have e1 : str "file:" = [102, 105, 108, 101] ++ [58] := by decide
      have e3 : str " file:" = 32 :: ([102, 105, 108, 101] ++ [58]) := by decide
      rw [e1, e3]; simp
    rw [e, h]
    rw [assemble_plain _ (by simp [str_file, str_path])
      (by simp [str_nfile, str_npath])
      (by simp [specCount, str_case, str_lit, TrimSpace_nil])
      (by simp [str_mm])]
    simp only [setFoldCase, promote, beforePromotion, resolvedFile_eq, notFile_eq, chosenLine_eq]
    simp only [ne_eq, List.append_eq_nil] at h0
    simp [str_file, str_path, str_nfile, str_npath, str_repo, str_nrepo, str_tags, str_ntags,
      str_case, str_lit, str_mm, TrimSpace_nil, QuoteMeta, h0]

/-- C18, amended, at `a = foo` and `b = bar`. -/
theorem C18_accumulation_witness :
    ParseQuery (str "repo:" ++ str "foo" ++ str " repo:" ++ str "bar") =
      .ok ({ Repo := str "foo" ++ str "bar", FoldCase := true }, none) :=
  (C18_accumulation (str "foo") (str "bar") (by decide) (by decide)).2.1



/-- C16 fails as stated, twice.  A backslash followed by a line feed is no
escape token: `ParseQuery` on backslash, line feed, `repo:x` finds no token at
all, so that `Repo` is empty and the whole text is the line.  And for `a = a`
and the empty `b`, the final space of `repo:a\ ` is trimmed before the scan,
so that `Repo` is `a\` and not `a\ `. -/
theorem C16_escape_token_counterexample :
    FindStringSubmatchIndex ([92, 10] ++ str "repo:x") = none ∧
    ParseQuery (92 :: (EncodeRune '\n'.toNat ++ str "repo:x")) =
      .ok ({ Line := [92, 10] ++ str "repo:x", Repo := [], FoldCase := true }, none) ∧
    plainText (str "a") = true ∧ plainText [] = true ∧
    ParseQuery (str "repo:" ++ str "a" ++ str "\\ " ++ []) =
      .ok ({ Repo := str "a\\", FoldCase := true }, none) ∧
    str "a\\" ≠ str "a" ++ str "\\ " ++ [] := by
  decide

/-- C16, amended: for every character `c` other than a line feed, a backslash
immediately followed by `c` is one escape token: its two characters are
appended verbatim to the active bucket (after the plain text before it), the
active operator stays, and the scan goes on directly behind `c`.  So for every
such `c`, `ParseQuery` on backslash, `c`, `repo:x` succeeds with `Repo = x`;
and for every `a` and every non-empty `b` without white space, parenthesis,
backslash or colon, `ParseQuery("repo:" ++ a ++ "\\ " ++ b)` succeeds with
`Repo = a ++ "\\ " ++ b`. -/
theorem C16_escape_token :
    (∀ (ops : Ops) (key s : GoString) (c : Char) (rest : GoString), Plain s → c ≠ '\n' →
      scanBody ops key (s ++ 92 :: (EncodeRune c.toNat ++ rest)) =
        .ok (.next (mapAdd (mapAdd ops key s) key (92 :: EncodeRune c.toNat)) key rest)) ∧
    (∀ c : Char, c ≠ '\n' →
      ParseQuery (92 :: (EncodeRune c.toNat ++ str "repo:x")) =
        .ok ({ Line := TrimSpace (92 :: EncodeRune c.toNat), Repo := str "x",
               FoldCase := (IndexAny (TrimSpace (92 :: EncodeRune c.toNat))
                 (str "ABCDEFGHIJKLMNOPQRSTUVWXYZ") == -1) }, none)) ∧
    (∀ a b : GoString, plainText a = true → plainText b = true → b ≠ [] →
      ParseQuery (str "repo:" ++ a ++ str "\\ " ++ b) =
        .ok ({ Repo := a ++ str "\\ " ++ b, FoldCase := true }, none)) := by
  refine ⟨scanBody_escape, ?_, ?_⟩
  · intro c hc
    have e : 92 :: (EncodeRune c.toNat ++ str "repo:x") =
        utf8 (('\\' :: c :: "repo:".toList) ++ "x".toList) := by
      have e0 : '\\' :: c :: "repo:".toList ++ "x".toList = '\\' :: c :: "repo:x".toList := rfl
      rw [e0, utf8_cons, utf8_cons]
      have e1 : EncodeRune '\\'.toNat = [92] := by decide
      rw [e1]; rfl
    have ht : TrimSpace (92 :: (EncodeRune c.toNat ++ str "repo:x")) =
        92 :: (EncodeRune c.toNat ++ str "repo:x") := by
      rw [e]
      exact trim_tail _ _ '\\' ':' rfl rfl (by decide) (by decide) (by decide)
    have e3 : str "repo:x" = str "repo" ++ 58 :: str "x" := by decide
    have hs := scan_escape_tag c (str "repo") (str "x") hc (by decide)
      (plain_utf8 "x".toList (by decide))
    rw [← e3] at hs
    rw [ParseQuery_of _ _ ht hs]
    rw [assemble_plain _ (by simp [str_file, str_path, str_repo])
      (by simp [str_nfile, str_npath, str_repo])
      (by simp [specCount, str_case, str_lit, str_repo, TrimSpace_nil]
          split <;> omega)
      (by simp [str_mm, str_repo])]
    simp only [setFoldCase, promote, beforePromotion, resolvedFile_eq, notFile_eq, chosenLine_eq]
    by_cases h0 : TrimSpace (92 :: EncodeRune c.toNat) = []
    · simp [str_file, str_path, str_nfile, str_npath, str_repo, str_nrepo, str_tags, str_ntags,
        str_case, str_lit, str_mm, TrimSpace_nil, QuoteMeta, h0]
    · simp [str_file, str_path, str_nfile, str_npath, str_repo, str_nrepo, str_tags, str_ntags,
        str_case, str_lit, str_mm, TrimSpace_nil, QuoteMeta, h0]
  · intro a b hpa hpb hb
    have e2 : str "\\ " = [92, 32] := by decide
    have e : str "repo:" ++ a ++ str "\\ " ++ b =
        str "repo" ++ 58 :: (a ++ 92 :: 32 :: b) := by
      have e1 : str "repo:" = str "repo" ++ [58] := by decide
      rw [e1, e2]; simp
    have ht : TrimSpace (str "repo:" ++ a ++ str "\\ " ++ b) =
        str "repo:" ++ a ++ str "\\ " ++ b := by
      have e4 : str "repo:" ++ a ++ str "\\ " ++ b =
          114 :: ((str "epo:" ++ a ++ [92]) ++ 32 :: b) := by
        have e1 : str "repo:" = 114 :: str "epo:" := by decide
        rw [e1, e2]; simp
      rw [e4]
      exact trim_bytes 114 _ 32 b (by omega) (by decide) (by omega) (Or.inr hb)
        (plainText_noSpace b hpb)
    have hs := scan_tag_escape (str "repo") a b (by decide) (plainText_plain a hpa)
      (plainText_plain b hpb)
    rw [← e] at hs
    rw [ParseQuery_of _ _ ht hs]
    rw [assemble_plain _ (by simp [str_file, str_path, str_repo])
      (by simp [str_nfile, str_npath, str_repo])
      (by simp [specCount, str_case, str_lit, str_repo, TrimSpace_nil])
      (by simp [str_mm, str_repo])]
    simp only [setFoldCase, promote, beforePromotion, resolvedFile_eq, notFile_eq, chosenLine_eq]
    simp [str_file, str_path, str_nfile, str_npath, str_repo, str_nrepo, str_tags, str_ntags,
      str_case, str_lit, str_mm, TrimSpace_nil, QuoteMeta, upper_eq, IndexAny, e2]

/-- C16, amended, at the character `(` and at `a = foo`, `b = bar`. -/
theorem C16_escape_token_witness :
    ParseQuery (92 :: (EncodeRune '('.toNat ++ str "repo:x")) =
      .ok ({ Line := str "\\(", Repo := str "x", FoldCase := true }, none) ∧
    ParseQuery (str "repo:" ++ str "foo" ++ str "\\ " ++ str "bar") =
      .ok ({ Repo := str "foo\\ bar", FoldCase := true }, none) :=
  ⟨C16_escape_token.2.1 '(' (by decide),
    C16_escape_token.2.2 (str "foo") (str "bar") (by decide) (by decide) (by decide)⟩

/-- C14 fails as stated in its last part: `x` is no known tag and `repo:y`
has no white space, parenthesis or backslash, but `ParseQuery("x:repo:y")` has
`Line = "x:"` and `Repo = "y"`: after the unknown tag no operator is active,
so the tag `repo:` that follows switches the context. -/
theorem C14_tag_token_counterexample :
    str "x" ≠ [] ∧ (∀ b ∈ str "x", isTagByte b = true) ∧ knownTags (str "x") = false ∧
    looseText (str "repo:y") = true ∧
    ParseQuery (str "x" ++ str ":" ++ str "repo:y") =
      .ok ({ Line := str "x:", Repo := str "y", FoldCase := true }, none) ∧
    str "x:" ≠ str "x" ++ str ":" ++ str "repo:y" := by
  decide

/-- C14, amended: the tag-token rule.  Whenever the remaining text starts
with one or more letters, digits, hyphens or underscores followed by a colon,
the scanner switches the active context to that identifier and appends the
token to no bucket when no operator is active and the identifier is a known
tag; otherwise it appends the whole token, identifier and colon, to the active
bucket and leaves the context unchanged.  Hence for every `t` without white
space, parenthesis or backslash, `ParseQuery("repo:file:" ++ t)` has
`Repo = "file:" ++ t` and `File` empty; and for every identifier `id` that is
no known tag and every `t` without white space, parenthesis, backslash or
colon, `ParseQuery(id ++ ":" ++ t)` has `Line = id ++ ":" ++ t` with all
filters empty. -/
theorem C14_tag_token :
    (∀ (ops : Ops) (key k rest : GoString), k ≠ [] → (∀ b ∈ k, isTagByte b = true) →
      (key = [] ∧ knownTags k = true →
        scanBody ops key (k ++ 58 :: rest) = .ok (.next (mapAdd ops key []) k rest) ∧
        ∀ j, mapGet (mapAdd ops key []) j = mapGet ops j) ∧
      (¬ (key = [] ∧ knownTags k = true) →
        scanBody ops key (k ++ 58 :: rest) =
          .ok (.next (mapAdd ops key (k ++ [58])) key rest))) ∧
    (∀ t : GoString, looseText t = true →
      ParseQuery (str "repo:file:" ++ t) =
        .ok ({ Repo := str "file:" ++ t, File := [], FoldCase := true }, none)) ∧
    (∀ id t : GoString, id ≠ [] → (∀ b ∈ id, isTagByte b = true) →
      knownTags id = false → plainText t = true →
      ParseQuery (id ++ str ":" ++ t) =
        .ok ({ Line := id ++ str ":" ++ t, File := [], NotFile := [], Repo := [],
               NotRepo := [], Tags := [], NotTags := [],
               FoldCase := (IndexAny (id ++ str ":" ++ t)
                 (str "ABCDEFGHIJKLMNOPQRSTUVWXYZ") == -1) }, none)) := by
  refine ⟨?_, ?_, ?_⟩
  · intro ops key k rest hne hk
    refine ⟨fun h => ⟨?_, ?_⟩, fun h => ?_⟩
    · rw [scanBody_tag ops key k rest hne hk, if_pos h]
    · intro j
      unfold mapGet mapAdd
      by_cases hj : j = key
      · simp [hj, mapGet]
      · simp [hj]
    · rw [scanBody_tag ops key k rest hne hk, if_neg h, mapAdd_mapAdd, List.nil_append]
  · intro t ht
    have e4 : str "file:" = [102, 105, 108, 101, 58] := by decide
    have e : str "repo:file:" ++ t = str "repo" ++ 58 :: ([102, 105, 108, 101, 58] ++ t) := by
      have e1 : str "repo:file:" = str "repo" ++ 58 :: [102, 105, 108, 101, 58] := by decide
      rw [e1]; simp
    have htr : TrimSpace (str "repo:file:" ++ t) = str "repo:file:" ++ t := by
      have e2 : str "repo:file:" ++ t = 114 :: (str "epo:file" ++ 58 :: t) := by
        have e1 : str "repo:file:" = 114 :: (str "epo:file" ++ [58]) := by decide
        rw [e1]; simp
      rw [e2]
      exact trim_bytes 114 _ 58 t (by omega) (by decide) (by omega) (Or.inl (by decide))
        (looseText_noSpace t ht)
    have k1 := knownTags_tagBytes (str "repo") (by decide)
    have hs : scanFrom mapEmpty [] (str "repo" ++ 58 :: ([102, 105, 108, 101, 58] ++ t)) =
        .ok (mapAdd (mapAdd mapEmpty [] []) (str "repo") ([102, 105, 108, 101, 58] ++ t)) := by
      rw [scanFrom_next _ _ _ _ _ _ (by
        rw [scanBody_tag _ _ _ _ k1.1 k1.2, if_pos ⟨rfl, by decide⟩])]
      refine scan_absorb_bytes _ _ _ _ (Nat.le_refl _) k1.1 ?_
      intro b hb
      rcases List.mem_append.1 hb with h | h
      · have hd : ∀ x ∈ ([102, 105, 108, 101, 58] : GoString), x ≠ 32 ∧ x ≠ 40 ∧ x ≠ 92 := by
          decide
        exact hd b h
      · exact looseText_bytes t ht b h
    rw [← e] at hs
    rw [ParseQuery_of _ _ htr hs, e4]
    rw [assemble_plain _ (by simp [str_file, str_path, str_repo])
      (by simp [str_nfile, str_npath, str_repo])
      (by simp [specCount, str_case, str_lit, str_repo, TrimSpace_nil])
      (by simp [str_mm, str_repo])]
    simp only [setFoldCase, promote, beforePromotion, resolvedFile_eq, notFile_eq, chosenLine_eq]
    simp [str_file, str_path, str_nfile, str_npath, str_repo, str_nrepo, str_tags, str_ntags,
      str_case, str_lit, str_mm, TrimSpace_nil, QuoteMeta, upper_eq, IndexAny]
  · intro id t hne hid hk ht
    have e : id ++ str ":" ++ t = id ++ 58 :: t := by
      have e1 : str ":" = [58] := by decide
      rw [e1]; simp
    have htr : TrimSpace (id ++ 58 :: t) = id ++ 58 :: t := by
      have := trim_tagged id [] t hne hid (plainText_noSpace t ht)
      simpa using this
    have hs := scan_unknown_tag id t hne hid hk (plainText_plain t ht)
    have hbare : TrimSpace (id ++ [58] ++ t) = id ++ [58] ++ t := by
      have : id ++ [58] ++ t = id ++ 58 :: t := by simp
      rw [this]; exact htr
    rw [e, ParseQuery_of _ _ htr hs]
    rw [assemble_plain _ (by simp [str_file, str_path])
      (by simp [str_nfile, str_npath])
      (by simp [specCount, str_case, str_lit, TrimSpace_nil]
          split <;> omega)
      (by simp [str_mm])]
    simp only [setFoldCase, promote, beforePromotion, resolvedFile_eq, notFile_eq, chosenLine_eq]
    simp only [List.append_assoc, List.singleton_append] at hbare
    simp [str_file, str_path, str_nfile, str_npath, str_repo, str_nrepo, str_tags, str_ntags,
      str_case, str_lit, str_mm, TrimSpace_nil, QuoteMeta, hbare]

/-- C14, amended, at `t = a:b` and at `id = x`, `t = y`. -/
theorem C14_tag_token_witness :
    ParseQuery (str "repo:file:" ++ str "a:b") =
      .ok ({ Repo := str "file:" ++ str "a:b", File := [], FoldCase := true }, none) ∧
    ParseQuery (str "x" ++ str ":" ++ str "y") =
      .ok ({ Line := str "x:y", FoldCase := true }, none) :=
  ⟨C14_tag_token.2.1 (str "a:b") (by decide),
    C14_tag_token.2.2 (str "x") (str "y") (by decide) (by decide) (by decide) (by decide)⟩


end Livegrep
